import Mathlib

/-!
# Session and authorization core of the property-listing client

A shallow embedding of the session logic of `src/api/api.js` and of the
role-based filtering and action gating of `src/components/Dashboard.jsx`,
`src/components/Properties.jsx` and `src/components/PropertyDetail.jsx`.

JavaScript strings are sequences of UTF-16 code units (`JsString`), JSON values
are the inductive type `JsVal`, and a computation that can throw returns in
`Js`.  A number is the rational value of an IEEE double, or an infinity:
`JSON.parse` and `ToNumber` round the value of a literal to the nearest double
(`roundToDouble`).  The sign of zero, which no operation of the source observes,
is not kept.  The platform functions the source calls (`split`, `atob`,
`JSON.parse`, the relational and strict-equality operators) are written out
from their standards so that every definition can be evaluated.
-/

namespace Frontend

/-! ## JavaScript values -/

/-- A JavaScript string: its UTF-16 code units. -/
abbrev JsString := List Nat

/-- The code units of an ASCII literal of the source text. -/
def lit (s : String) : JsString := s.data.map Char.toNat

/-- The values `JSON.parse` can produce, together with `undefined`. A number is
finite (`num`) or an infinity (`inf`), which `JSON.parse` yields for a literal
beyond the range of doubles. An object keeps its members in source order. -/
inductive JsVal where
  | undefined
  | null
  | bool (b : Bool)
  | num (q : ℚ)
  | inf (negative : Bool)
  | str (s : JsString)
  | arr (xs : List JsVal)
  | obj (members : List (JsString × JsVal))

/-- The exceptions the modelled code can raise. -/
inductive JsError where
  | invalidCharacter
  | syntaxError
  | typeError
  deriving DecidableEq, Repr

deriving instance DecidableEq for Except

/-- A computation that returns a value or throws. -/
abbrev Js (α : Type) := Except JsError α

/-- The statement `try { body } catch (err) { handler }`. -/
def tryCatch {α : Type} (body : Js α) (handler : JsError → Js α) : Js α :=
  match body with
  | .ok a => .ok a
  | .error e => handler e

/-- The result of `ToNumber`: a finite number, an infinity or `NaN`. -/
inductive JsNumber where
  | nan
  | negInf
  | fin (q : ℚ)
  | posInf

/-- The number of binary digits of a natural number; the fuel bounds the number
of halvings. -/
def bitLength : Nat → Nat → Nat
  | 0, _ => 0
  | fuel + 1, n => if n = 0 then 0 else bitLength fuel (n / 2) + 1

/-- The integer nearest to `n / d`, the even one of two that are equally near. -/
def roundHalfEven (n d : Nat) : Nat :=
  if 2 * (n % d) < d then n / d
  else if d < 2 * (n % d) then n / d + 1
  else if n / d % 2 = 0 then n / d
  else n / d + 1

/-- The double nearest to the positive rational `n / d`, ties going to the even
significand, or `none` when that is beyond the largest double. A double is
`m * 2 ^ e` with `m < 2 ^ 53` and `e` from -1074 to 971: `lg` is the integer
part of the binary logarithm of `n / d`, `e` the exponent that leaves 53 bits
before the binary point, no smaller than that of the subnormal numbers. The
result is beyond the largest double when `e` exceeds 971, or when the
significand rounds up to `2 ^ 53` at that exponent. -/
def roundMagnitude (n d : Nat) : Option ℚ :=
  let k : ℤ := (bitLength n n : ℤ) - (bitLength d d : ℤ)
  let lg : ℤ := if d * 2 ^ k.toNat ≤ n * 2 ^ (-k).toNat then k else k - 1
  let e : ℤ := max (lg - 52) (-1074)
  let m := roundHalfEven (n * 2 ^ (-e).toNat) (d * 2 ^ e.toNat)
  if 971 < e ∨ (e = 971 ∧ 2 ^ 53 ≤ m) then none
  else some (mkRat (m * 2 ^ e.toNat) (2 ^ (-e).toNat))

/-- The Number value for a mathematical value: the nearest double, or an
infinity beyond the range. Every numeric literal denotes its value through
this rounding. -/
def roundToDouble (q : ℚ) : JsNumber :=
  if q = 0 then .fin 0
  else
    match roundMagnitude q.num.natAbs q.den with
    | some v => .fin (if q < 0 then -v else v)
    | none => if q < 0 then .negInf else .posInf

/-- The characters `StringToNumber` trims: WhiteSpace and LineTerminator. -/
def isStrWhiteSpace (c : Nat) : Bool :=
  c = 9 || c = 10 || c = 11 || c = 12 || c = 13 || c = 32 || c = 160 || c = 5760
    || (8192 ≤ c && c ≤ 8202) || c = 8232 || c = 8233 || c = 8239 || c = 8287
    || c = 12288 || c = 65279

/-- The value of a digit in the given radix, when the code unit is one. -/
def digitValue (radix : Nat) (c : Nat) : Option Nat :=
  let v : Option Nat :=
    if 48 ≤ c ∧ c ≤ 57 then some (c - 48)
    else if 97 ≤ c ∧ c ≤ 102 then some (c - 87)
    else if 65 ≤ c ∧ c ≤ 70 then some (c - 55)
    else none
  match v with
  | some d => if d < radix then some d else none
  | none => none

/-- The leading run of digits of the radix, and the rest. -/
def takeDigits (radix : Nat) : JsString → List Nat × JsString
  | [] => ([], [])
  | c :: cs =>
    match digitValue radix c with
    | some d => let r := takeDigits radix cs; (d :: r.1, r.2)
    | none => ([], c :: cs)

/-- The number a list of digits denotes in the radix. -/
def digitsToNat (radix : Nat) (ds : List Nat) : Nat :=
  ds.foldl (fun acc d => acc * radix + d) 0

/-- The rational `m * 10 ^ e`. -/
def scale10 (m : ℤ) (e : ℤ) : ℚ :=
  mkRat (m * 10 ^ e.toNat) (10 ^ (-e).toNat)

/-- An optional `ExponentPart`: `e` or `E`, an optional sign, digits; all of the
input must be consumed. An absent exponent is zero. -/
def parseExponentToEnd (s : JsString) : Option ℤ :=
  match s with
  | [] => some 0
  | c :: rest =>
    if c = 101 ∨ c = 69 then
      let signed : Bool × JsString :=
        match rest with
        | 43 :: r => (false, r)
        | 45 :: r => (true, r)
        | r => (false, r)
      match takeDigits 10 signed.2 with
      | ([], _) => none
      | (ds, []) =>
        some (if signed.1 then -(digitsToNat 10 ds : ℤ) else (digitsToNat 10 ds : ℤ))
      | (_, _ :: _) => none
    else none

/-- The production `StrUnsignedDecimalLiteral` without `Infinity`: the exact
value of the literal. -/
def parseUnsignedDecimal (s : JsString) : Option ℚ :=
  let ip := takeDigits 10 s
  match ip.2 with
  | 46 :: afterDot =>
    let fp := takeDigits 10 afterDot
    if ip.1 = [] ∧ fp.1 = [] then none
    else
      match parseExponentToEnd fp.2 with
      | some e =>
        some (scale10 (digitsToNat 10 (ip.1 ++ fp.1) : ℤ) (e - (fp.1.length : ℤ)))
      | none => none
  | rest =>
    if ip.1 = [] then none
    else
      match parseExponentToEnd rest with
      | some e => some (scale10 (digitsToNat 10 ip.1 : ℤ) e)
      | none => none

/-- The production `StrNumericLiteral` on a trimmed, non-empty string, rounded
to a Number value. -/
def parseStrNumericLiteral (s : JsString) : JsNumber :=
  let nonDecimal (radix : Nat) (body : JsString) : JsNumber :=
    match takeDigits radix body with
    | ([], _) => .nan
    | (ds, []) => roundToDouble (digitsToNat radix ds : ℚ)
    | (_, _ :: _) => .nan
  let unsigned (negative : Bool) (body : JsString) : JsNumber :=
    if body = lit "Infinity" then (if negative then .negInf else .posInf)
    else
      match parseUnsignedDecimal body with
      | some q => roundToDouble (if negative then -q else q)
      | none => .nan
  match s with
  | 48 :: 120 :: body => nonDecimal 16 body
  | 48 :: 88 :: body => nonDecimal 16 body
  | 48 :: 111 :: body => nonDecimal 8 body
  | 48 :: 79 :: body => nonDecimal 8 body
  | 48 :: 98 :: body => nonDecimal 2 body
  | 48 :: 66 :: body => nonDecimal 2 body
  | 43 :: body => unsigned false body
  | 45 :: body => unsigned true body
  | body => unsigned false body

/-- The abstract operation `StringToNumber`. -/
def stringToNumber (s : JsString) : JsNumber :=
  let trimmed :=
    ((s.dropWhile isStrWhiteSpace).reverse.dropWhile isStrWhiteSpace).reverse
  if trimmed = [] then .fin 0 else parseStrNumericLiteral trimmed

/-- The abstract operation `ToNumber`. An array is converted through its
`toString`, the comma-joined strings of its elements; an object through
`"[object Object]"`. -/
def toNumber : JsVal → JsNumber
  | .undefined => .nan
  | .null => .fin 0
  | .bool b => .fin (if b then 1 else 0)
  | .num q => .fin q
  | .inf negative => if negative then .negInf else .posInf
  | .str s => stringToNumber s
  | .obj _ => .nan
  | .arr [] => .fin 0
  | .arr [.undefined] => .fin 0
  | .arr [.null] => .fin 0
  | .arr [.bool _] => .nan
  | .arr [.obj _] => .nan
  | .arr [.num q] => .fin q
  | .arr [.inf negative] => if negative then .negInf else .posInf
  | .arr [.str s] => stringToNumber s
  | .arr [.arr xs] => toNumber (.arr xs)
  | .arr (_ :: _ :: _) => .nan

/-- The expression `a > b` for a right operand that is an integer number. -/
def jsGt (a : JsVal) (b : ℤ) : Bool :=
  match toNumber a with
  | .fin q => decide ((b : ℚ) < q)
  | .posInf => true
  | .negInf => false
  | .nan => false

/-- The expression `a < b` for a right operand that is an integer number. -/
def jsLt (a : JsVal) (b : ℤ) : Bool :=
  match toNumber a with
  | .fin q => decide (q < (b : ℚ))
  | .negInf => true
  | .posInf => false
  | .nan => false

/-- The expression `a === b`. Arrays and objects are compared by reference, and
the operands the source compares come from different parse results, so two of
them are never the same reference. -/
def strictEq : JsVal → JsVal → Bool
  | .undefined, .undefined => true
  | .null, .null => true
  | .bool a, .bool b => a == b
  | .num a, .num b => decide (a = b)
  | .inf a, .inf b => a == b
  | .str a, .str b => decide (a = b)
  | _, _ => false

/-- The abstract operation `ToBoolean`. -/
def truthy : JsVal → Bool
  | .undefined => false
  | .null => false
  | .bool b => b
  | .num q => decide (q ≠ 0)
  | .inf _ => true
  | .str s => !s.isEmpty
  | .arr _ => true
  | .obj _ => true

/-- The last member of the given name, which is the one an object keeps when a
JSON text repeats a key. -/
def lookupMember (members : List (JsString × JsVal)) (key : JsString) : Option JsVal :=
  members.foldl (fun found kv => if kv.1 = key then some kv.2 else found) none

/-- The property read `v.key` for a key that no prototype defines (`exp`, `role`,
`user_id`, `id`): a `TypeError` on `null` and `undefined`, the member of an
object when it has one, `undefined` otherwise. -/
def getProp (v : JsVal) (key : JsString) : Js JsVal :=
  match v with
  | .undefined => .error .typeError
  | .null => .error .typeError
  | .obj members => .ok ((lookupMember members key).getD .undefined)
  | _ => .ok .undefined

/-! ## Platform functions: split, atob, JSON.parse -/

/-- The call `s.split(sep)` for a one-character separator: the segments between
the separators, always at least one. -/
def splitOn (sep : Nat) : JsString → List JsString
  | [] => [[]]
  | c :: cs =>
    if c = sep then [] :: splitOn sep cs
    else
      match splitOn sep cs with
      | [] => [[c]]
      | seg :: rest => (c :: seg) :: rest

/-- The abstract operation `ToString` on an array element that may be missing:
a missing element is `undefined`, whose string is "undefined". -/
def toStringOrUndefined : Option JsString → JsString
  | some s => s
  | none => lit "undefined"

/-- ASCII whitespace, which forgiving base64 decoding removes. -/
def isAsciiWhitespace (c : Nat) : Bool :=
  c = 9 || c = 10 || c = 12 || c = 13 || c = 32

/-- The value of a code unit in the base64 alphabet. -/
def base64Value (c : Nat) : Option Nat :=
  if 65 ≤ c ∧ c ≤ 90 then some (c - 65)
  else if 97 ≤ c ∧ c ≤ 122 then some (c - 71)
  else if 48 ≤ c ∧ c ≤ 57 then some (c + 4)
  else if c = 43 then some 62
  else if c = 47 then some 63
  else none

/-- Removal of one or two trailing "=" when the length is a multiple of four. -/
def stripPadding (s : JsString) : JsString :=
  if s.length % 4 = 0 then
    match s.reverse with
    | 61 :: 61 :: r => r.reverse
    | 61 :: r => r.reverse
    | _ => s
  else s

/-- The bytes a list of six-bit values decodes to: three per group of four, and
for a final group of three or two the bits that do not fill a byte are dropped. -/
def decodeSextets : List Nat → List Nat
  | a :: b :: c :: d :: rest =>
    let n := ((a * 64 + b) * 64 + c) * 64 + d
    (n / 65536) :: (n / 256 % 256) :: (n % 256) :: decodeSextets rest
  | [a, b, c] =>
    let n := (a * 64 + b) * 64 + c
    [n / 1024, n / 4 % 256]
  | [a, b] => [(a * 64 + b) / 16]
  | _ => []

/-- The function `atob`: forgiving base64 decoding to a string of bytes, an
`InvalidCharacterError` on failure. -/
def atob (data : JsString) : Js JsString :=
  let s := stripPadding (data.filter (fun c => !isAsciiWhitespace c))
  if s.length % 4 = 1 then .error .invalidCharacter
  else
    match s.mapM base64Value with
    | some sextets => .ok (decodeSextets sextets)
    | none => .error .invalidCharacter

/-- JSON whitespace is skipped. -/
def skipWs : JsString → JsString
  | [] => []
  | c :: cs => if c = 32 ∨ c = 9 ∨ c = 10 ∨ c = 13 then skipWs cs else c :: cs

/-- The characters of a JSON string after its opening quote, up to the closing
quote, with escapes resolved; and the input after the closing quote. -/
def parseStringBody : JsString → Option (JsString × JsString)
  | [] => none
  | c :: rest =>
    if c = 34 then some ([], rest)
    else if c = 92 then
      match rest with
      | [] => none
      | e :: r =>
        if e = 117 then
          match r with
          | h1 :: h2 :: h3 :: h4 :: r4 =>
            match digitValue 16 h1, digitValue 16 h2, digitValue 16 h3, digitValue 16 h4 with
            | some d1, some d2, some d3, some d4 =>
              match parseStringBody r4 with
              | some (body, tail) => some ((((d1 * 16 + d2) * 16 + d3) * 16 + d4) :: body, tail)
              | none => none
            | _, _, _, _ => none
          | _ => none
        else
          let unescaped : Option Nat :=
            if e = 34 then some 34
            else if e = 92 then some 92
            else if e = 47 then some 47
            else if e = 98 then some 8
            else if e = 102 then some 12
            else if e = 110 then some 10
            else if e = 114 then some 13
            else if e = 116 then some 9
            else none
          match unescaped, parseStringBody r with
          | some u, some (body, tail) => some (u :: body, tail)
          | _, _ => none
    else if c < 32 then none
    else
      match parseStringBody rest with
      | some (body, tail) => some (c :: body, tail)
      | none => none

/-- A JSON number: an optional minus, an integer part without a superfluous
leading zero, an optional fraction, an optional exponent. The result is the
exact value of the literal. -/
def parseNumber (s : JsString) : Option (ℚ × JsString) :=
  let signed : Bool × JsString :=
    match s with
    | 45 :: r => (true, r)
    | r => (false, r)
  let ip := takeDigits 10 signed.2
  let intOk : Bool :=
    match ip.1 with
    | [] => false
    | [_] => true
    | d :: _ :: _ => d != 0
  if !intOk then none
  else
    let frac : Option (List Nat × JsString) :=
      match ip.2 with
      | 46 :: afterDot =>
        let fp := takeDigits 10 afterDot
        if fp.1 = [] then none else some fp
      | r => some ([], r)
    match frac with
    | none => none
    | some (fds, afterFrac) =>
      let expo : Option (ℤ × JsString) :=
        match afterFrac with
        | c :: r =>
          if c = 101 ∨ c = 69 then
            let esigned : Bool × JsString :=
              match r with
              | 43 :: r1 => (false, r1)
              | 45 :: r1 => (true, r1)
              | r1 => (false, r1)
            let ep := takeDigits 10 esigned.2
            if ep.1 = [] then none
            else some (if esigned.1 then -(digitsToNat 10 ep.1 : ℤ) else (digitsToNat 10 ep.1 : ℤ), ep.2)
          else some (0, c :: r)
        | [] => some (0, [])
      match expo with
      | none => none
      | some (e, tail) =>
        let m : ℤ := (digitsToNat 10 (ip.1 ++ fds) : ℤ)
        some (scale10 (if signed.1 then -m else m) (e - (fds.length : ℤ)), tail)

/-- The value of type number `JSON.parse` yields for a literal of the exact
value `q`: the nearest double, or an infinity. -/
def numberValue (q : ℚ) : JsVal :=
  if q = 0 then .num 0
  else
    match roundMagnitude q.num.natAbs q.den with
    | some v => .num (if q < 0 then -v else v)
    | none => .inf (decide (q < 0))

/-- The input after the given literal, when the input starts with it. -/
def expectLiteral (word : JsString) (s : JsString) : Option JsString :=
  if word.isPrefixOf s then some (s.drop word.length) else none

mutual
/-- A JSON value, with the whitespace before it; the fuel bounds the number of
nested calls. -/
def parseValue : Nat → JsString → Option (JsVal × JsString)
  | 0, _ => none
  | fuel + 1, s =>
    match skipWs s with
    | [] => none
    | c :: rest =>
      if c = 123 then
        match skipWs rest with
        | [] => none
        | d :: tail =>
          if d = 125 then some (.obj [], tail)
          else
            match parseMembers fuel (d :: tail) with
            | some (members, after) => some (.obj members, after)
            | none => none
      else if c = 91 then
        match skipWs rest with
        | [] => none
        | d :: tail =>
          if d = 93 then some (.arr [], tail)
          else
            match parseElements fuel (d :: tail) with
            | some (elements, after) => some (.arr elements, after)
            | none => none
      else if c = 34 then
        match parseStringBody rest with
        | some (body, after) => some (.str body, after)
        | none => none
      else if c = 116 then
        match expectLiteral (lit "true") (c :: rest) with
        | some after => some (.bool true, after)
        | none => none
      else if c = 102 then
        match expectLiteral (lit "false") (c :: rest) with
        | some after => some (.bool false, after)
        | none => none
      else if c = 110 then
        match expectLiteral (lit "null") (c :: rest) with
        | some after => some (.null, after)
        | none => none
      else
        match parseNumber (c :: rest) with
        | some (q, after) => some (numberValue q, after)
        | none => none
/-- The elements of a non-empty array up to and including the closing bracket. -/
def parseElements : Nat → JsString → Option (List JsVal × JsString)
  | 0, _ => none
  | fuel + 1, s =>
    match parseValue fuel s with
    | none => none
    | some (v, rest) =>
      match skipWs rest with
      | [] => none
      | c :: tail =>
        if c = 44 then
          match parseElements fuel tail with
          | some (vs, after) => some (v :: vs, after)
          | none => none
        else if c = 93 then some ([v], tail)
        else none
/-- The members of a non-empty object up to and including the closing brace. -/
def parseMembers : Nat → JsString → Option (List (JsString × JsVal) × JsString)
  | 0, _ => none
  | fuel + 1, s =>
    match skipWs s with
    | [] => none
    | q :: afterQuote =>
      if q = 34 then
        match parseStringBody afterQuote with
        | none => none
        | some (key, afterKey) =>
          match skipWs afterKey with
          | [] => none
          | colon :: afterColon =>
            if colon = 58 then
              match parseValue fuel afterColon with
              | none => none
              | some (v, rest) =>
                match skipWs rest with
                | [] => none
                | c :: tail =>
                  if c = 44 then
                    match parseMembers fuel tail with
                    | some (ms, after) => some ((key, v) :: ms, after)
                    | none => none
                  else if c = 125 then some ([(key, v)], tail)
                  else none
            else none
      else none
end

/-- The function `JSON.parse`: one value surrounded by whitespace, a
`SyntaxError` otherwise. Every nested call consumes input, so twice the length
of the text is enough fuel. -/
def jsonParse (text : JsString) : Js JsVal :=
  match parseValue (2 * text.length + 2) text with
  | some (v, rest) => if skipWs rest = [] then .ok v else .error .syntaxError
  | none => .error .syntaxError

/-! ## The token store and the session functions of api.js -/

/-- The slot "token" of `localStorage`: absent, or the stored string. -/
abbrev TokenStore := Option JsString

/-- What a call leaves behind: its result, or the exception it threw, and the
content of the token store afterwards. -/
structure Outcome (α : Type) where
  result : Js α
  store : TokenStore

/-- The function `getToken`: `localStorage.getItem("token")`, which is `null`
when nothing is stored. -/
def getToken (store : TokenStore) : Option JsString := store

/-- The function `removeAuthToken`: `localStorage.removeItem("token")`. -/
def removeAuthToken (_store : TokenStore) : TokenStore := none

/-- The function `setAuthToken`: stores a truthy token and removes the slot for
a falsy one (`null`, `undefined` or the empty string). -/
def setAuthToken (_store : TokenStore) (token : Option JsString) : TokenStore :=
  match token with
  | some t => if t.isEmpty then none else some t
  | none => none

/-- The expression `JSON.parse(atob(token.split('.')[1]))` that every session
check of the client evaluates. -/
def decodePayload (token : JsString) : Js JsVal := do
  let bytes ← atob (toStringOrUndefined (splitOn 46 token)[1]?)
  jsonParse bytes

/-- The function `isAuthenticated` of api.js; `currentTime` is the value of
`Math.floor(Date.now() / 1000)`. The function does not write to the store. -/
def isAuthenticated (store : TokenStore) (currentTime : ℤ) : Outcome Bool :=
  match getToken store with
  | none => ⟨.ok false, store⟩
  | some token =>
    if token.isEmpty then ⟨.ok false, store⟩
    else
      ⟨tryCatch
          (do
            let payload ← decodePayload token
            let exp ← getProp payload (lit "exp")
            pure (jsGt exp currentTime))
          (fun _ => .ok false),
        store⟩

/-- The function `getUserInfo` of api.js: the decoded payload, or `null`. The
function does not write to the store. -/
def getUserInfo (store : TokenStore) : Outcome JsVal :=
  match getToken store with
  | none => ⟨.ok .null, store⟩
  | some token =>
    if token.isEmpty then ⟨.ok .null, store⟩
    else ⟨tryCatch (decodePayload token) (fun _ => .ok .null), store⟩

/-! ## Property records and the screens that filter them -/

/-- A property record of the response of `GET /properties`. The data model
fixes `verified` to a boolean; `seller_id` is kept as the value the server
sent. -/
structure PropertyRecord where
  id : ℤ
  seller_id : JsVal
  verified : Bool
  title : JsString
  price : ℚ

/-- The outcome of the call `fetchProperties()`: a rejection, or a response
whose `data.properties` may be missing. -/
inductive FetchResponse where
  | failed
  | ok (properties : Option (List PropertyRecord))

/-- The expression `res.data.properties || []`. -/
def propertiesOrEmpty : Option (List PropertyRecord) → List PropertyRecord
  | some ps => ps
  | none => []

/-- The hooks of the Dashboard component that the session and authorization
logic reads or writes. -/
structure DashboardState where
  properties : List PropertyRecord
  unverifiedProperties : List PropertyRecord
  role : JsVal
  error : JsString
  userId : JsVal
  openVerifyDialog : Bool
  openDeleteDialog : Bool
  selectedProperty : Option PropertyRecord
  loading : Bool

/-- The initial values of the hooks of the Dashboard. -/
def Dashboard.initial : DashboardState where
  properties := []
  unverifiedProperties := []
  role := .str []
  error := []
  userId := .null
  openVerifyDialog := false
  openDeleteDialog := false
  selectedProperty := none
  loading := false

/-- The callback `fetchPropertiesData` of the Dashboard, from the arrival of
the response to the end of the `finally` block. -/
def Dashboard.fetchPropertiesData (s : DashboardState) (res : FetchResponse) : DashboardState :=
  match res with
  | .failed => { s with error := lit "Failed to fetch properties", loading := false }
  | .ok data =>
    let propertiesData := propertiesOrEmpty data
    if strictEq s.role (.str (lit "admin")) then
      { s with
        properties := propertiesData
        unverifiedProperties := propertiesData.filter (fun p => !p.verified)
        loading := false }
    else if strictEq s.role (.str (lit "seller")) then
      { s with
        properties := propertiesData.filter (fun p => strictEq p.seller_id s.userId)
        loading := false }
    else
      { s with
        properties := propertiesData.filter (fun p => p.verified)
        loading := false }

/-- The function `canDeleteProperty` of the Dashboard. -/
def Dashboard.canDeleteProperty (s : DashboardState) (property : PropertyRecord) : Bool :=
  strictEq s.role (.str (lit "admin"))
    || (strictEq s.role (.str (lit "seller")) && strictEq property.seller_id s.userId)

/-- The handler `handleVerifyClick` of the Dashboard. -/
def Dashboard.handleVerifyClick (s : DashboardState) (property : PropertyRecord) : DashboardState :=
  { s with selectedProperty := some property, openVerifyDialog := true }

/-- The handler `handleVerifyCancel` of the Dashboard. -/
def Dashboard.handleVerifyCancel (s : DashboardState) : DashboardState :=
  { s with openVerifyDialog := false }

/-- The records of the card "Properties Awaiting Verification" that are
rendered with a Verify button: the card exists for `role === "admin"` only and
lists `unverifiedProperties` once loading is over. -/
def Dashboard.pendingVerifyButtons (s : DashboardState) : List PropertyRecord :=
  if strictEq s.role (.str (lit "admin")) then
    if s.loading then [] else s.unverifiedProperties
  else []

/-- The records of the card "Properties" that are rendered with a Verify
button. -/
def Dashboard.listVerifyButtons (s : DashboardState) : List PropertyRecord :=
  if s.loading then []
  else
    s.properties.filter (fun p =>
      (strictEq s.role (.str (lit "admin")) || strictEq s.role (.str (lit "seller")))
        && (!p.verified && strictEq s.role (.str (lit "admin"))))

/-- Every record for which the rendered Dashboard shows a Verify button. -/
def Dashboard.verifyButtons (s : DashboardState) : List PropertyRecord :=
  Dashboard.pendingVerifyButtons s ++ Dashboard.listVerifyButtons s

/-- What the first effect of the Dashboard leaves behind: the hooks, the token
store, and whether it assigned `window.location.href = "/"`. -/
structure DashboardCheck where
  state : DashboardState
  store : TokenStore
  redirected : Bool

/-- The first effect of the Dashboard: the session check that adopts the role
and the identity of the stored token. -/
def Dashboard.tokenEffect (s : DashboardState) (store : TokenStore) (currentTime : ℤ) :
    DashboardCheck :=
  match store with
  | none => ⟨s, store, true⟩
  | some token =>
    if token.isEmpty then ⟨s, store, true⟩
    else
      let checked : Js DashboardCheck := do
        let payload ← decodePayload token
        let exp ← getProp payload (lit "exp")
        if jsLt exp currentTime then pure ⟨s, none, true⟩
        else
          let role ← getProp payload (lit "role")
          let userId ← getProp payload (lit "user_id")
          let s1 := if truthy s.role then s else { s with role := role }
          let s2 := if truthy s.userId then s1 else { s1 with userId := userId }
          pure ⟨s2, store, false⟩
      match checked with
      | .ok r => r
      | .error _ => ⟨s, none, true⟩

/-- The condition `role && userId` under which the second effect of the
Dashboard calls `fetchPropertiesData`. -/
def Dashboard.loadsData (s : DashboardState) : Bool :=
  truthy s.role && truthy s.userId

/-- The handler `handlePropertyCreated` of the Dashboard. -/
def Dashboard.handlePropertyCreated (s : DashboardState) (newProperty : PropertyRecord) :
    DashboardState :=
  if strictEq s.role (.str (lit "admin")) then
    { s with
      properties := s.properties ++ [newProperty]
      unverifiedProperties := s.unverifiedProperties ++ [newProperty] }
  else if strictEq s.role (.str (lit "seller")) && strictEq newProperty.seller_id s.userId then
    { s with properties := s.properties ++ [newProperty] }
  else s

/-- The handler `handleVerifyConfirm` of the Dashboard, from the call to the
end of its `try` statement; `serverOk` tells whether `verifyProperty` resolved.
Reading `selectedProperty.id` of a missing selection throws inside the `try`. -/
def Dashboard.handleVerifyConfirm (s : DashboardState) (serverOk : Bool) : DashboardState :=
  match s.selectedProperty with
  | none => { s with error := lit "Failed to verify property" }
  | some selected =>
    if serverOk then
      { s with
        properties :=
          s.properties.map (fun p => if p.id = selected.id then { p with verified := true } else p)
        unverifiedProperties := s.unverifiedProperties.filter (fun p => p.id ≠ selected.id)
        openVerifyDialog := false }
    else { s with error := lit "Failed to verify property" }

/-- The handler `handleDeleteClick` of the Dashboard. -/
def Dashboard.handleDeleteClick (s : DashboardState) (property : PropertyRecord) : DashboardState :=
  { s with selectedProperty := some property, openDeleteDialog := true }

/-- The handler `handleDeleteConfirm` of the Dashboard, from the call to the
end of its `try` statement; `serverOk` tells whether `deleteProperty` resolved. -/
def Dashboard.handleDeleteConfirm (s : DashboardState) (serverOk : Bool) : DashboardState :=
  match s.selectedProperty with
  | none => { s with error := lit "Failed to delete property" }
  | some selected =>
    if serverOk then
      { s with
        properties := s.properties.filter (fun p => p.id ≠ selected.id)
        unverifiedProperties := s.unverifiedProperties.filter (fun p => p.id ≠ selected.id)
        openDeleteDialog := false }
    else { s with error := lit "Failed to delete property" }

/-- The handler `handleDeleteCancel` of the Dashboard. -/
def Dashboard.handleDeleteCancel (s : DashboardState) : DashboardState :=
  { s with openDeleteDialog := false }

/-- Whether a Refresh button is rendered: in the card of pending records for an
admin, in the card "Properties" for an admin or a seller. -/
def Dashboard.showsRefresh (s : DashboardState) : Bool :=
  strictEq s.role (.str (lit "admin")) || strictEq s.role (.str (lit "seller"))

/-- The records rendered with a delete button that is not disabled: the
pending records for an admin and the listed records for an admin or a seller,
once loading is over, each enabled by `canDeleteProperty`. -/
def Dashboard.deleteButtons (s : DashboardState) : List PropertyRecord :=
  if s.loading then []
  else
    ((if strictEq s.role (.str (lit "admin")) then s.unverifiedProperties else [])
      ++ (if strictEq s.role (.str (lit "admin")) || strictEq s.role (.str (lit "seller"))
          then s.properties else [])).filter (Dashboard.canDeleteProperty s)

/-- What can happen to a mounted Dashboard: its effects run, a response
arrives, or the user operates a control. A click names the button by its
position among the rendered ones. -/
inductive DashboardEvent where
  | tokenCheck (store : TokenStore) (currentTime : ℤ)
  | fetched (res : FetchResponse)
  | propertyCreated (newProperty : PropertyRecord)
  | verifyClick (button : Nat)
  | verifyConfirm (serverOk : Bool)
  | verifyCancel
  | deleteClick (button : Nat)
  | deleteConfirm (serverOk : Bool)
  | deleteCancel

/-- One event on a mounted Dashboard; `none` when the rendered screen does not
offer the event, or when the session check navigates away. -/
def Dashboard.step (s : DashboardState) : DashboardEvent → Option DashboardState
  | .tokenCheck store currentTime =>
    let r := Dashboard.tokenEffect s store currentTime
    if r.redirected then none else some r.state
  | .fetched res =>
    if Dashboard.loadsData s || Dashboard.showsRefresh s then
      some (Dashboard.fetchPropertiesData s res)
    else none
  | .propertyCreated newProperty =>
    if Dashboard.showsRefresh s then some (Dashboard.handlePropertyCreated s newProperty) else none
  | .verifyClick button =>
    match (Dashboard.verifyButtons s)[button]? with
    | some property => some (Dashboard.handleVerifyClick s property)
    | none => none
  | .verifyConfirm serverOk =>
    if s.openVerifyDialog then some (Dashboard.handleVerifyConfirm s serverOk) else none
  | .verifyCancel =>
    if s.openVerifyDialog then some (Dashboard.handleVerifyCancel s) else none
  | .deleteClick button =>
    match (Dashboard.deleteButtons s)[button]? with
    | some property => some (Dashboard.handleDeleteClick s property)
    | none => none
  | .deleteConfirm serverOk =>
    if s.openDeleteDialog then some (Dashboard.handleDeleteConfirm s serverOk) else none
  | .deleteCancel =>
    if s.openDeleteDialog then some (Dashboard.handleDeleteCancel s) else none

/-- The Dashboard after a sequence of events, from the given hooks. -/
def Dashboard.run (s : DashboardState) : List DashboardEvent → Option DashboardState
  | [] => some s
  | e :: es =>
    match Dashboard.step s e with
    | some s1 => Dashboard.run s1 es
    | none => none

/-- The hooks of the Properties screen. -/
structure PropertiesState where
  properties : List PropertyRecord
  loading : Bool
  error : JsString
  role : JsVal

/-- The initial values of the hooks of the Properties screen. -/
def Properties.initial : PropertiesState where
  properties := []
  loading := false
  error := []
  role := .null

/-- The callback `fetchPropertiesData` of the Properties screen, from the
arrival of the response to the end of the `finally` block, with the token store
it reads and may clear. -/
def Properties.fetchPropertiesData (s : PropertiesState) (store : TokenStore) (currentTime : ℤ)
    (res : FetchResponse) : PropertiesState × TokenStore :=
  match res with
  | .failed => ({ s with error := lit "Failed to fetch properties", loading := false }, store)
  | .ok data =>
    let propertiesData := propertiesOrEmpty data
    let guest : PropertiesState × TokenStore :=
      ({ s with properties := propertiesData.filter (fun p => p.verified), loading := false }, store)
    let cleared : PropertiesState × TokenStore :=
      ({ s with
          role := .null
          properties := propertiesData.filter (fun p => p.verified)
          loading := false },
        none)
    match store with
    | none => guest
    | some token =>
      if token.isEmpty then guest
      else
        let checked : Js (PropertiesState × TokenStore) := do
          let payload ← decodePayload token
          let exp ← getProp payload (lit "exp")
          if jsLt exp currentTime then pure cleared
          else
            let role ← getProp payload (lit "role")
            if strictEq role (.str (lit "admin")) then
              pure ({ s with role := role, properties := propertiesData, loading := false }, store)
            else if strictEq role (.str (lit "seller")) then
              let userId ← getProp payload (lit "user_id")
              pure ({ s with
                      role := role
                      properties := propertiesData.filter (fun p => strictEq p.seller_id userId)
                      loading := false },
                    store)
            else
              pure ({ s with
                      role := role
                      properties := propertiesData.filter (fun p => p.verified)
                      loading := false },
                    store)
        match checked with
        | .ok r => r
        | .error _ => cleared

/-- The role the effect of the property detail screen leaves in `userRole`: the
`role` of the decoded payload, or the initial empty string when there is no
token or decoding throws. -/
def PropertyDetail.userRole (store : TokenStore) : JsVal :=
  match store with
  | none => .str []
  | some token =>
    if token.isEmpty then .str []
    else
      match (do let payload ← decodePayload token; getProp payload (lit "role") : Js JsVal) with
      | .ok role => role
      | .error _ => .str []

/-- The constant `isOwner` of the property detail screen, as the condition it
is used for. It compares `property.seller_id` with `userRole`. -/
def PropertyDetail.isOwner (property : Option PropertyRecord) (userRole : JsVal) : Bool :=
  match property with
  | none => false
  | some p => strictEq userRole (.str (lit "seller")) && strictEq p.seller_id userRole

/-- The constant `canEdit` of the property detail screen. -/
def PropertyDetail.canEdit (property : Option PropertyRecord) (userRole : JsVal) : Bool :=
  PropertyDetail.isOwner property userRole || strictEq userRole (.str (lit "admin"))

/-- The constant `canDelete` of the property detail screen. -/
def PropertyDetail.canDelete (property : Option PropertyRecord) (userRole : JsVal) : Bool :=
  PropertyDetail.isOwner property userRole || strictEq userRole (.str (lit "admin"))

/-! ## The request pipeline of api.js -/

/-- An axios request configuration: the fields the interceptors read or write,
and `_retry`, the mark the response interceptor puts on a request. -/
structure RequestConfig where
  method : JsString
  url : JsString
  headers : List (JsString × JsString)
  data : Option JsString
  _retry : Bool
  deriving DecidableEq

/-- The value of a header, when the configuration names it. -/
def lookupHeader (name : JsString) (headers : List (JsString × JsString)) : Option JsString :=
  match headers.find? (fun kv => kv.1 = name) with
  | some kv => some kv.2
  | none => none

/-- The assignment `headers[name] = value`: the value of an existing header is
replaced in place, a new header is added at the end. -/
def setHeader (name value : JsString) (headers : List (JsString × JsString)) :
    List (JsString × JsString) :=
  if headers.any (fun kv => kv.1 = name) then
    headers.map (fun kv => if kv.1 = name then (name, value) else kv)
  else headers ++ [(name, value)]

/-- The request interceptor of api.js: it attaches the stored token, when
`localStorage.getItem("token")` is truthy. -/
def requestInterceptor (store : TokenStore) (config : RequestConfig) : RequestConfig :=
  match getToken store with
  | none => config
  | some token =>
    if token.isEmpty then config
    else { config with headers := setHeader (lit "Authorization") (lit "Bearer " ++ token) config.headers }

/-- What the server answers to a request: the status (`none` when no response
arrives at all) and the member `token` of the body, when it has one. -/
structure Response where
  status : Option Nat
  token : Option JsString
  deriving DecidableEq

/-- The default `validateStatus` of axios: a response resolves the call when its
status is 2xx and rejects it otherwise. -/
def Response.isSuccess (r : Response) : Bool :=
  match r.status with
  | some code => decide (200 ≤ code) && decide (code < 300)
  | none => false

/-- The configuration of the call `api.post("/refresh")`, with the default
headers of the instance. -/
def refreshRequest : RequestConfig where
  method := lit "post"
  url := lit "/refresh"
  headers := [(lit "Content-Type", lit "application/json"), (lit "Accept", lit "application/json")]
  data := none
  _retry := false

/-- How a call through `api` ends: with a response, or with the error of a
failed request (its configuration and the response, if any). -/
inductive ApiResult where
  | resolved (response : Response)
  | rejected (config : RequestConfig) (response : Response)
  deriving DecidableEq

/-- A request on the wire. `awaiting` lists the handlers of the response
interceptor that are suspended at `await api.post("/refresh")` and wait for this
call, innermost first, each by the `originalRequest` it holds; `caller` names
the call of the application that waits for the outermost one. -/
structure ApiCall where
  caller : Nat
  config : RequestConfig
  awaiting : List RequestConfig
  deriving DecidableEq

/-- The state of the pipeline: the token store, every request put on the wire
so far (oldest first), the requests without a response yet, the number of
pending logout timers, the calls of the application that have ended, and
whether `window.location.href = "/"` was assigned. -/
structure ApiState where
  store : TokenStore
  sent : List RequestConfig
  inflight : List ApiCall
  timers : Nat
  settled : List (Nat × ApiResult)
  redirected : Bool
  deriving DecidableEq

/-- The pipeline at start, with the given token store. -/
def ApiState.initial (store : TokenStore) : ApiState where
  store := store
  sent := []
  inflight := []
  timers := 0
  settled := []
  redirected := false

/-- The call `api(config)`: the request interceptor runs and the request goes
on the wire. -/
def ApiState.dispatch (s : ApiState) (caller : Nat) (config : RequestConfig)
    (awaiting : List RequestConfig) : ApiState :=
  let sentConfig := requestInterceptor s.store config
  { s with sent := s.sent ++ [sentConfig], inflight := s.inflight ++ [⟨caller, sentConfig, awaiting⟩] }

/-- A call ends with the given result and the handlers that wait for it resume.
A handler that receives the response of its renewal call stores the new token
(`setItem` stores the string of its argument), sets the header of
`originalRequest` and returns `api(originalRequest)`, so the replay takes its
place. A handler that receives a rejection runs its `catch` block, which starts
the three-second logout timer, and rejects with the same error. -/
def ApiState.deliver (s : ApiState) (caller : Nat) (result : ApiResult) :
    List RequestConfig → ApiState
  | [] => { s with settled := s.settled ++ [(caller, result)] }
  | originalRequest :: outer =>
    match result with
    | .resolved res =>
      let newToken := toStringOrUndefined res.token
      let stored : ApiState := { s with store := some newToken }
      stored.dispatch caller
        { originalRequest with
          headers := setHeader (lit "Authorization") (lit "Bearer " ++ newToken)
            originalRequest.headers }
        outer
    | .rejected config response =>
      ApiState.deliver { s with timers := s.timers + 1 } caller (.rejected config response) outer

/-- What can happen to the pipeline: the application calls `api(config)`, the
request at a position of `inflight` receives its response, or a logout timer
fires. -/
inductive ApiEvent where
  | request (caller : Nat) (config : RequestConfig)
  | respond (position : Nat) (response : Response)
  | timer
  deriving DecidableEq

/-- One event of the pipeline; `none` when the event cannot happen. A response
runs the response interceptor: a 2xx response resolves the call; a 401 for a
request without the mark `_retry` marks it and calls `api.post("/refresh")`,
the handler staying suspended until that call ends; any other error rejects. -/
def ApiState.step (s : ApiState) : ApiEvent → Option ApiState
  | .request caller config => some (s.dispatch caller config [])
  | .respond position response =>
    match s.inflight[position]? with
    | none => none
    | some call =>
      let s1 : ApiState := { s with inflight := s.inflight.eraseIdx position }
      if response.isSuccess then some (s1.deliver call.caller (.resolved response) call.awaiting)
      else if response.status = some 401 ∧ call.config._retry = false then
        some (s1.dispatch call.caller refreshRequest
          ({ call.config with _retry := true } :: call.awaiting))
      else some (s1.deliver call.caller (.rejected call.config response) call.awaiting)
  | .timer =>
    if s.timers = 0 then none
    else some { s with timers := s.timers - 1, store := none, redirected := true }

/-- The pipeline after a sequence of events. -/
def ApiState.run (s : ApiState) : List ApiEvent → Option ApiState
  | [] => some s
  | e :: es =>
    match s.step e with
    | some s1 => s1.run es
    | none => none

/-- The entries a schedule takes from a list, in the order it takes them: each
position counts among the entries that are left. `none` when a position is out
of range. -/
def takeInOrder {α : Type} : List α → List Nat → Option (List α)
  | _, [] => some []
  | l, p :: ps =>
    match l[p]? with
    | none => none
    | some a =>
      match takeInOrder (l.eraseIdx p) ps with
      | none => none
      | some rest => some (a :: rest)

/-- The request that goes on the wire when a handler resumes with the token of
its renewal call: `originalRequest` with the new header, through the request
interceptor, the new token being stored by then. -/
def replayedRequest (originalRequest : RequestConfig) (newToken : JsString) : RequestConfig :=
  requestInterceptor (some newToken)
    { originalRequest with
      headers := setHeader (lit "Authorization") (lit "Bearer " ++ newToken)
        originalRequest.headers }

/-- The renewal call as it goes on the wire while the given token store is
current. -/
def refreshCall (store : TokenStore) : RequestConfig :=
  requestInterceptor store refreshRequest

/-! ## The session context and the route guard -/

/-- The hooks of AuthProvider. -/
structure AuthState where
  token : Option JsString
  user : JsVal
  loading : Bool

/-- The initial values of the hooks of AuthProvider: `getToken()`,
`getUserInfo()` and `true`. -/
def AuthProvider.initial (store : TokenStore) : Js AuthState := do
  let user ← (getUserInfo store).result
  pure { token := getToken store, user := user, loading := true }

/-- The effect of AuthProvider that runs when `token` changes. -/
def AuthProvider.tokenEffect (a : AuthState) (store : TokenStore) : Js AuthState :=
  match a.token with
  | none => pure { a with user := .null, loading := false }
  | some token =>
    if token.isEmpty then pure { a with user := .null, loading := false }
    else do
      let user ← (getUserInfo store).result
      pure { a with user := user, loading := false }

/-- The function `login` of AuthProvider, with the token store it writes. -/
def AuthProvider.login (a : AuthState) (store : TokenStore) (newToken : Option JsString) :
    AuthState × TokenStore :=
  ({ a with token := newToken }, setAuthToken store newToken)

/-- The function `logout` of AuthProvider, with the token store it writes. -/
def AuthProvider.logout (a : AuthState) (store : TokenStore) : AuthState × TokenStore :=
  ({ a with token := none, user := .null }, removeAuthToken store)

/-- The value `isAuthenticated` of the context, `!!token && user`, as the
condition it is used for. -/
def AuthProvider.isAuthenticated (a : AuthState) : Bool :=
  (match a.token with
    | some token => !token.isEmpty
    | none => false) && truthy a.user

/-- What PrivateRoute renders. -/
inductive RouteView where
  | spinner
  | redirect
  | children
  deriving DecidableEq

/-- The render of PrivateRoute from the hooks it reads. -/
def PrivateRoute.render (a : AuthState) (isChecking : Bool) : RouteView :=
  if isChecking || a.loading then .spinner
  else if !truthy a.user then .redirect
  else .children

/-- What PrivateRoute renders once AuthProvider has mounted on the given token
store, its effect has run and the check of PrivateRoute is over. No clock is
read on the way. -/
def PrivateRoute.settledView (store : TokenStore) : Js RouteView := do
  let a0 ← AuthProvider.initial store
  let a1 ← AuthProvider.tokenEffect a0 store
  pure (PrivateRoute.render a1 false)

/-! ## The encoding of claims into a token -/

/-- Modelled from the spec: the character of a six-bit value (the encoder runs
on the server and is not part of the client). The alphabet is that of base64,
which writes 62 and 63 as "+" and "/", or the URL-safe one of a JWT, which
writes them as "-" and "_". -/
def base64Char (urlSafe : Bool) (v : Nat) : Nat :=
  if v < 26 then 65 + v
  else if v < 52 then 71 + v
  else if v < 62 then v - 4
  else if v = 62 then (if urlSafe then 45 else 43)
  else (if urlSafe then 95 else 47)

/-- Modelled from the spec: the six-bit values of a list of bytes, four for every
three bytes, three for two final bytes and two for one final byte. -/
def encodeBytes : List Nat → List Nat
  | a :: b :: c :: rest =>
    (a / 4) :: (a % 4 * 16 + b / 16) :: (b % 16 * 4 + c / 64) :: (c % 64) :: encodeBytes rest
  | [a, b] => [a / 4, a % 4 * 16 + b / 16, b % 16 * 4]
  | [a] => [a / 4, a % 4 * 16]
  | [] => []

/-- Modelled from the spec: the base64-style encoding of a list of bytes, in the
alphabet of base64 or in the URL-safe one, with the padding "=" of base64 when
`pad` is set and without it (as in a JWT) otherwise. -/
def base64Encode (urlSafe pad : Bool) (bytes : List Nat) : JsString :=
  (encodeBytes bytes).map (base64Char urlSafe) ++
    (if pad then List.replicate ((3 - bytes.length % 3) % 3) 61 else [])

/-- Modelled from the spec: the subject identity of the claims, an integer or a
string id. -/
inductive SubjectId where
  | number (n : ℤ)
  | text (s : JsString)

/-- Modelled from the spec: the claims a token carries, a subject identity, a
role and an expiry in unix seconds. -/
structure Claims where
  user_id : SubjectId
  role : JsString
  exp : ℤ

/-- The object `JSON.parse` yields for the claims, with the member names the
client reads. -/
def Claims.toValue (c : Claims) : JsVal :=
  .obj [(lit "user_id",
      match c.user_id with
      | .number n => .num (n : ℚ)
      | .text s => .str s),
    (lit "role", .str c.role),
    (lit "exp", .num (c.exp : ℚ))]

/-- Modelled from the spec: the decimal digits of a number, most significant
first; the fuel bounds the number of digits. -/
def natDigits : Nat → Nat → List Nat
  | 0, _ => []
  | fuel + 1, n => if n < 10 then [n] else natDigits fuel (n / 10) ++ [n % 10]

/-- Modelled from the spec: the JSON text of an integer. -/
def intText (n : ℤ) : JsString :=
  if n < 0 then 45 :: (natDigits (n.natAbs + 1) n.natAbs).map (fun d => d + 48)
  else (natDigits (n.natAbs + 1) n.natAbs).map (fun d => d + 48)

/-- Modelled from the spec: a hexadecimal digit in lower case. -/
def hexDigit (d : Nat) : Nat := if d < 10 then d + 48 else d + 87

/-- Modelled from the spec: a character of a JSON string. The quote and the
backslash are escaped, and every character outside printable ASCII is written
as a `\u` escape, so that the text is a sequence of bytes. -/
def escapeUnit (u : Nat) : JsString :=
  if u = 34 then [92, 34]
  else if u = 92 then [92, 92]
  else if u < 32 ∨ 127 ≤ u then
    [92, 117, hexDigit (u / 4096 % 16), hexDigit (u / 256 % 16), hexDigit (u / 16 % 16),
      hexDigit (u % 16)]
  else [u]

/-- Modelled from the spec: the JSON text of a string. -/
def jsonQuote (s : JsString) : JsString :=
  34 :: (s.flatMap escapeUnit ++ [34])

/-- Modelled from the spec: the JSON text of the claims, without whitespace. -/
def Claims.text (c : Claims) : JsString :=
  lit "\x7b\"user_id\":" ++
    (match c.user_id with
      | .number n => intText n
      | .text s => jsonQuote s) ++
    lit ",\"role\":" ++ jsonQuote c.role ++ lit ",\"exp\":" ++ intText c.exp ++ lit "\x7d"

/-- Modelled from the spec: a token, the header segment, the base64-style
encoding of the JSON text of the claims and the signature segment, joined by
dots. -/
def Claims.token (c : Claims) (urlSafe pad : Bool) (header signature : JsString) : JsString :=
  header ++ 46 :: (base64Encode urlSafe pad c.text ++ 46 :: signature)

/-! ## The calls that open and close a session, and the calls of the screens -/

/-- An exception of an async function of api.js: the error of a failed request,
or the `Error("No token received from server")` of `login`. -/
inductive ApiError where
  | request (config : RequestConfig) (response : Response)
  | noToken
  deriving DecidableEq

/-- What an async function of api.js ends with: the value it resolves with or
the error it rejects with, and the content of the token store afterwards. -/
structure AsyncOutcome (α : Type) where
  result : Except ApiError α
  store : TokenStore

/-- The configuration of the call `api.post("/login", formData.toString(), ...)`
of `login`; `body` is the text of the form data, and the header of the call
replaces the default content type of the instance. -/
def loginRequest (body : JsString) : RequestConfig where
  method := lit "post"
  url := lit "/login"
  headers :=
    [(lit "Content-Type", lit "application/x-www-form-urlencoded"),
      (lit "Accept", lit "application/json")]
  data := some body
  _retry := false

/-- The function `login` of api.js from the point where its
`await api.post("/login", ...)` ends with `posted`, the token store holding
`store` by then. A response without a truthy `token` throws inside the `try`,
and the `catch` block throws the error it caught. -/
def login (store : TokenStore) (posted : ApiResult) : AsyncOutcome Response :=
  match posted with
  | .resolved response =>
    match response.token with
    | none => ⟨.error .noToken, store⟩
    | some token =>
      if token.isEmpty then ⟨.error .noToken, store⟩
      else ⟨.ok response, some token⟩
  | .rejected config response => ⟨.error (.request config response), store⟩

/-- The configuration of the call `api.post("/logout")`. -/
def logoutRequest : RequestConfig where
  method := lit "post"
  url := lit "/logout"
  headers := [(lit "Content-Type", lit "application/json"), (lit "Accept", lit "application/json")]
  data := none
  _retry := false

/-- The function `logout` of api.js from the point where its
`await api.post("/logout")` ends with `posted`, the token store holding `store`
by then. -/
def logout (store : TokenStore) (posted : ApiResult) : AsyncOutcome Unit :=
  match posted with
  | .resolved _ => ⟨.ok (), removeAuthToken store⟩
  | .rejected config response => ⟨.error (.request config response), removeAuthToken store⟩

/-- The handler `handleLogout` of the Sidebar: it removes the item "token" and
navigates to "/" inside the router. It calls no function of the session
context, whose hooks it leaves as they are. -/
def Sidebar.handleLogout (a : AuthState) (_store : TokenStore) : AuthState × TokenStore :=
  (a, none)

/-- The configuration of the call `deleteProperty(id)`: `api.delete` of the
path "/properties/" followed by the decimal text of the id. -/
def deleteProperty (id : ℤ) : RequestConfig where
  method := lit "delete"
  url := lit "/properties/" ++ intText id
  headers := [(lit "Content-Type", lit "application/json"), (lit "Accept", lit "application/json")]
  data := none
  _retry := false

/-- The call `handleDeleteConfirm` of the Dashboard makes first:
`deleteProperty(selectedProperty.id)`. Nothing is sent when reading
`selectedProperty.id` of a missing selection throws. -/
def Dashboard.deleteRequest (s : DashboardState) : Option RequestConfig :=
  match s.selectedProperty with
  | none => none
  | some selected => some (deleteProperty selected.id)

/-- The counter above "All Properties" or "Your Properties" of the Dashboard:
`properties.length`. -/
def Dashboard.propertiesCount (s : DashboardState) : Nat := s.properties.length

/-- The counter "Pending" of the admin's Dashboard:
`unverifiedProperties.length`. -/
def Dashboard.pendingCount (s : DashboardState) : Nat := s.unverifiedProperties.length

/-- The counter "Verified" of the admin's Dashboard:
`properties.filter(p => p.verified).length`. -/
def Dashboard.verifiedCount (s : DashboardState) : Nat :=
  (s.properties.filter (fun p => p.verified)).length

/-- The visibility rule on the displayed list of the Dashboard, in the words of
the spec: for a seller every displayed record has the seller's identity as
seller_id, and for a buyer every displayed record is verified. -/
def Dashboard.listObeysRule (s : DashboardState) : Bool :=
  (!strictEq s.role (.str (lit "seller"))
      || s.properties.all (fun p => strictEq p.seller_id s.userId))
    && (!strictEq s.role (.str (lit "buyer")) || s.properties.all (fun p => p.verified))

/-! ## Sample inputs -/

/-- A token of three segments whose claims are
`{"user_id":5,"role":"seller","exp":1700000000}`. -/
def sellerToken : JsString :=
  lit "eyJhbGciOiJIUzI1NiIsInR5cCI6IkpXVCJ9.eyJ1c2VyX2lkIjo1LCJyb2xlIjoic2VsbGVyIiwiZXhwIjoxNzAwMDAwMDAwfQ.sig"

/-- The claims of `sellerToken` as a value. -/
def sellerClaims : JsVal :=
  .obj [(lit "user_id", .num 5), (lit "role", .str (lit "seller")), (lit "exp", .num 1700000000)]

/-- A token whose claims are
`{"user_id":5,"role":"seller","exp":1700000000.0000001}`: the double nearest to
its exp is 1700000000. -/
def fractionToken : JsString :=
  lit "eyJhbGciOiJIUzI1NiIsInR5cCI6IkpXVCJ9.eyJ1c2VyX2lkIjo1LCJyb2xlIjoic2VsbGVyIiwiZXhwIjoxNzAwMDAwMDAwLjAwMDAwMDF9.sig"

/-- A token of two segments only, with the claims of `sellerToken` in the
second. -/
def twoSegmentToken : JsString :=
  lit "eyJhbGciOiJIUzI1NiIsInR5cCI6IkpXVCJ9.eyJ1c2VyX2lkIjo1LCJyb2xlIjoic2VsbGVyIiwiZXhwIjoxNzAwMDAwMDAwfQ"

/-- A token of three segments whose second segment decodes to the text `abc`,
which is not JSON. -/
def notJsonToken : JsString := lit "eyJhbGciOiJIUzI1NiIsInR5cCI6IkpXVCJ9.YWJj.sig"

/-- The first record of scenario 2: unverified, owned by seller 5. -/
def record1 : PropertyRecord :=
  { id := 1, seller_id := .num 5, verified := false, title := lit "Plot", price := 100 }

/-- The second record of scenario 2: verified, owned by seller 9. -/
def record2 : PropertyRecord :=
  { id := 2, seller_id := .num 9, verified := true, title := lit "House", price := 200 }

/-- The hooks of a Dashboard that has adopted the given role and identity. -/
def dashboardOf (role : String) (userId : ℚ) : DashboardState :=
  { Dashboard.initial with role := .str (lit role), userId := .num userId }

/-- A token whose claims are `{"user_id":7,"role":"buyer","exp":1700000000}`. -/
def buyerToken : JsString :=
  lit "eyJhbGciOiJIUzI1NiIsInR5cCI6IkpXVCJ9.eyJ1c2VyX2lkIjo3LCJyb2xlIjoiYnV5ZXIiLCJleHAiOjE3MDAwMDAwMDB9.sig"

/-- The claims of `buyerToken` as a value. -/
def buyerClaims : JsVal :=
  .obj [(lit "user_id", .num 7), (lit "role", .str (lit "buyer")), (lit "exp", .num 1700000000)]

/-- A token whose claims are `{"user_id":1,"role":"admin","exp":1700000000}`. -/
def adminToken : JsString :=
  lit "eyJhbGciOiJIUzI1NiIsInR5cCI6IkpXVCJ9.eyJ1c2VyX2lkIjoxLCJyb2xlIjoiYWRtaW4iLCJleHAiOjE3MDAwMDAwMDB9.sig"

/-- The claims of `adminToken` as a value. -/
def adminClaims : JsVal :=
  .obj [(lit "user_id", .num 1), (lit "role", .str (lit "admin")), (lit "exp", .num 1700000000)]

/-- A seller's Dashboard after its session check and the arrival of the
records of scenario 2. -/
def sellerSessionEvents : List DashboardEvent :=
  [.tokenCheck (some sellerToken) 1699999999, .fetched (.ok (some [record1, record2]))]

/-- The hooks `sellerSessionEvents` lead to. -/
def sellerSession : DashboardState :=
  { dashboardOf "seller" 5 with properties := [record1] }

/-- The configuration of the call `api.get("/properties")`. -/
def getProperties : RequestConfig where
  method := lit "get"
  url := lit "/properties"
  headers := [(lit "Content-Type", lit "application/json"), (lit "Accept", lit "application/json")]
  data := none
  _retry := false

/-- The configuration of the call `api.get("/users")`. -/
def getUsers : RequestConfig where
  method := lit "get"
  url := lit "/users"
  headers := [(lit "Content-Type", lit "application/json"), (lit "Accept", lit "application/json")]
  data := none
  _retry := false

/-- The response 401 without a body. -/
def unauthorized : Response := { status := some 401, token := none }

/-- The response 500 without a body. -/
def serverError : Response := { status := some 500, token := none }

/-- The response 200 whose body carries the given token. -/
def renewed (token : String) : Response := { status := some 200, token := some (lit token) }

/-- A token whose claims are `{"role":"seller"}`: no subject identity and no
exp. -/
def roleOnlyToken : JsString :=
  lit "eyJhbGciOiJIUzI1NiIsInR5cCI6IkpXVCJ9.eyJyb2xlIjoic2VsbGVyIn0.sig"

/-- Claims with an integer subject identity: those of `sellerToken`. -/
def numberedClaims : Claims := { user_id := .number 5, role := lit "seller", exp := 1700000000 }

/-- Claims whose subject identity is a string with a character outside ASCII
and a quote. -/
def namedClaims : Claims :=
  { user_id := .text [233, 34, 8364], role := lit "seller", exp := 1700000000 }

/-- Claims whose encoding has the six-bit value 63. -/
def questionClaims : Claims :=
  { user_id := .text (lit "ab?"), role := lit "seller", exp := 1700000000 }

/-- Claims whose exp is the integer after `2 ^ 53`, which is not a double. -/
def largeClaims : Claims := { user_id := .number 5, role := lit "seller", exp := 9007199254740993 }

/-- A token whose second segment encodes the text
`{"user_id":"ab?","role":"seller","exp":1700000000}` in the URL-safe alphabet,
where the value 63 is written "_". -/
def urlSafeToken : JsString :=
  lit "eyJhbGciOiJIUzI1NiIsInR5cCI6IkpXVCJ9.eyJ1c2VyX2lkIjoiYWI_Iiwicm9sZSI6InNlbGxlciIsImV4cCI6MTcwMDAwMDAwMH0.sig"

/-- A token whose claims are `{"id":5,"role":"seller","exp":1700000000}`: the
identity is under `id` and there is no `user_id`. -/
def idOnlyToken : JsString :=
  lit "eyJhbGciOiJIUzI1NiIsInR5cCI6IkpXVCJ9.eyJpZCI6NSwicm9sZSI6InNlbGxlciIsImV4cCI6MTcwMDAwMDAwMH0.sig"

/-- The claims of `idOnlyToken` as a value. -/
def idOnlyClaims : JsVal :=
  .obj [(lit "id", .num 5), (lit "role", .str (lit "seller")), (lit "exp", .num 1700000000)]

/-- A token whose claims are `{"user_id":0,"role":"seller","exp":1700000000}`. -/
def zeroIdToken : JsString :=
  lit "eyJhbGciOiJIUzI1NiIsInR5cCI6IkpXVCJ9.eyJ1c2VyX2lkIjowLCJyb2xlIjoic2VsbGVyIiwiZXhwIjoxNzAwMDAwMDAwfQ.sig"

/-- The claims of `zeroIdToken` as a value. -/
def zeroIdClaims : JsVal :=
  .obj [(lit "user_id", .num 0), (lit "role", .str (lit "seller")), (lit "exp", .num 1700000000)]

/-- A record the server returns for a created property with the flag
`verified` set. -/
def record3 : PropertyRecord :=
  { id := 3, seller_id := .num 1, verified := true, title := lit "Farm", price := 300 }

/-- A record the server returns for a property seller 5 has created. -/
def record4 : PropertyRecord :=
  { id := 4, seller_id := .num 5, verified := false, title := lit "Barn", price := 400 }

/-- The hooks of AuthProvider once it has mounted on a store that holds
`sellerToken` and its effect has run. -/
def sellerContext : AuthState :=
  { token := some sellerToken, user := sellerClaims, loading := false }

/-- The text of the form data of a login. -/
def loginBody : JsString := lit "username=ann&password=pw"

/-- A failed login of a client that holds `sellerToken`: the call is answered
with 401, the renewal call the response interceptor makes succeeds with the
token "t2", and the replayed call is answered with 401 again. -/
def failedLoginEvents : List ApiEvent :=
  [.request 0 (loginRequest loginBody), .respond 0 unauthorized, .respond 0 (renewed "t2"),
    .respond 0 unauthorized]

/-- The hooks of a buyer's Dashboard that lists `record2` and holds it as the
selected record. -/
def buyerSelection : DashboardState :=
  { dashboardOf "buyer" 7 with properties := [record2], selectedProperty := some record2 }

/-- The hooks of an admin's Dashboard after the arrival of the records of
scenario 2. -/
def adminSession : DashboardState :=
  { dashboardOf "admin" 1 with
    properties := [record1, record2]
    unverifiedProperties := [record1] }

/-! ## Supporting lemmas -/

/-- The missing segment of a token without a dot is passed to atob as the
string "undefined", which is not base64. -/
theorem atob_undefined : atob (lit "undefined") = .error .invalidCharacter := by decide

theorem decodePayload_no_segment (token : JsString) (h : (splitOn 46 token)[1]? = none) :
    decodePayload token = .error .invalidCharacter := by
  simp only [decodePayload, h, toStringOrUndefined, atob_undefined]
  rfl

theorem decodePayload_ok_iff (token : JsString) (payload : JsVal) :
    decodePayload token = .ok payload ↔
      ∃ segment bytes, (splitOn 46 token)[1]? = some segment ∧ atob segment = .ok bytes ∧
        jsonParse bytes = .ok payload := by
  cases hseg : (splitOn 46 token)[1]? with
  | none =>
    rw [decodePayload_no_segment token hseg]
    constructor
    · intro h; cases h
    · rintro ⟨_, _, h, _⟩; cases h
  | some segment =>
    have hd : decodePayload token = (atob segment >>= jsonParse) := by
      simp only [decodePayload, hseg, toStringOrUndefined]
    rw [hd]
    cases hb : atob segment with
    | error e =>
      constructor
      · intro h; cases h
      · rintro ⟨seg, bytes, h1, h2, _⟩
        cases h1; rw [hb] at h2; cases h2
    | ok bytes =>
      constructor
      · intro h; exact ⟨segment, bytes, rfl, hb, h⟩
      · rintro ⟨seg, bytes', h1, h2, h3⟩
        cases h1; rw [hb] at h2; cases h2; exact h3

theorem decodePayload_empty : decodePayload [] = .error .invalidCharacter :=
  decodePayload_no_segment [] (by decide)

theorem isAuthenticated_store (store : TokenStore) (currentTime : ℤ) :
    (isAuthenticated store currentTime).store = store := by
  unfold isAuthenticated
  split
  · rfl
  · split <;> rfl

theorem isAuthenticated_of_decode_error (token : JsString) (currentTime : ℤ) (e : JsError)
    (hd : decodePayload token = .error e) :
    (isAuthenticated (some token) currentTime).result = .ok false := by
  cases token with
  | nil => rfl
  | cons c cs =>
    simp only [isAuthenticated, getToken, List.isEmpty_cons, Bool.false_eq_true, if_false, hd]
    rfl

theorem isAuthenticated_of_prop_error (token : JsString) (currentTime : ℤ) (payload : JsVal)
    (e : JsError) (hd : decodePayload token = .ok payload)
    (hg : getProp payload (lit "exp") = .error e) :
    (isAuthenticated (some token) currentTime).result = .ok false := by
  cases token with
  | nil => rfl
  | cons c cs =>
    simp only [isAuthenticated, getToken, List.isEmpty_cons, Bool.false_eq_true, if_false, hd]
    simp only [tryCatch, bind, Except.bind, hg]

theorem isAuthenticated_of_exp (token : JsString) (currentTime : ℤ) (payload exp : JsVal)
    (hd : decodePayload token = .ok payload) (hg : getProp payload (lit "exp") = .ok exp) :
    (isAuthenticated (some token) currentTime).result = .ok (jsGt exp currentTime) := by
  cases token with
  | nil => rw [decodePayload_empty] at hd; cases hd
  | cons c cs =>
    simp only [isAuthenticated, getToken, List.isEmpty_cons, Bool.false_eq_true, if_false, hd]
    simp only [tryCatch, bind, Except.bind, hg]
    rfl

theorem getUserInfo_of_decode_error (token : JsString) (e : JsError)
    (hd : decodePayload token = .error e) :
    (getUserInfo (some token)).result = .ok .null := by
  cases token with
  | nil => rfl
  | cons c cs =>
    simp only [getUserInfo, getToken, List.isEmpty_cons, Bool.false_eq_true, if_false, hd]
    rfl

theorem getUserInfo_of_decode_ok (token : JsString) (payload : JsVal)
    (hd : decodePayload token = .ok payload) :
    (getUserInfo (some token)).result = .ok payload := by
  cases token with
  | nil => rw [decodePayload_empty] at hd; cases hd
  | cons c cs =>
    simp only [getUserInfo, getToken, List.isEmpty_cons, Bool.false_eq_true, if_false, hd]
    rfl

theorem sellerToken_decodes : decodePayload sellerToken = .ok sellerClaims := by rfl

theorem twoSegmentToken_decodes : decodePayload twoSegmentToken = .ok sellerClaims := by rfl

theorem sellerClaims_exp : getProp sellerClaims (lit "exp") = .ok (.num 1700000000) := by rfl

/-- The exp of `fractionToken` is rounded to the double 1700000000, so its
claims parse to the value of those of `sellerToken`. -/
theorem fractionToken_decodes : decodePayload fractionToken = .ok sellerClaims := by rfl

/-- The comparison `a > b` holds when the number of `a` is positive infinity or
a finite number above `b`. -/
theorem jsGt_iff (a : JsVal) (b : ℤ) :
    jsGt a b = true ↔ (toNumber a = .posInf ∨ ∃ q, toNumber a = .fin q ∧ (b : ℚ) < q) := by
  unfold jsGt
  cases toNumber a <;> simp

theorem strictEq_num_iff (a : JsVal) (q : ℚ) : strictEq a (.num q) = true ↔ a = .num q := by
  cases a <;> simp [strictEq]

theorem strictEq_str_iff (a : JsVal) (t : JsString) : strictEq a (.str t) = true ↔ a = .str t := by
  cases a <;> simp [strictEq]

theorem strictEq_primitive_iff (a i : JsVal) (hi : (∃ q, i = .num q) ∨ (∃ t, i = .str t)) :
    strictEq a i = true ↔ a = i := by
  rcases hi with ⟨q, rfl⟩ | ⟨t, rfl⟩
  · exact strictEq_num_iff a q
  · exact strictEq_str_iff a t

theorem Dashboard.fetch_admin (s : DashboardState) (data : Option (List PropertyRecord))
    (h : s.role = .str (lit "admin")) :
    (Dashboard.fetchPropertiesData s (.ok data)).properties = propertiesOrEmpty data := by
  have h1 : strictEq s.role (.str (lit "admin")) = true := by rw [h]; decide
  simp only [Dashboard.fetchPropertiesData, h1, if_true]

theorem Dashboard.fetch_seller (s : DashboardState) (data : Option (List PropertyRecord))
    (h : s.role = .str (lit "seller")) :
    (Dashboard.fetchPropertiesData s (.ok data)).properties =
      (propertiesOrEmpty data).filter (fun p => strictEq p.seller_id s.userId) := by
  have h1 : strictEq s.role (.str (lit "admin")) = false := by rw [h]; decide
  have h2 : strictEq s.role (.str (lit "seller")) = true := by rw [h]; decide
  simp only [Dashboard.fetchPropertiesData, h1, h2, if_true, Bool.false_eq_true, if_false]

theorem Dashboard.fetch_other (s : DashboardState) (data : Option (List PropertyRecord))
    (h1 : strictEq s.role (.str (lit "admin")) = false)
    (h2 : strictEq s.role (.str (lit "seller")) = false) :
    (Dashboard.fetchPropertiesData s (.ok data)).properties =
      (propertiesOrEmpty data).filter (fun p => p.verified) := by
  simp only [Dashboard.fetchPropertiesData, h1, h2, Bool.false_eq_true, if_false]

theorem Properties.fetch_of_claims (st : PropertiesState) (token : JsString)
    (payload exp role userId : JsVal) (currentTime : ℤ) (data : Option (List PropertyRecord))
    (hd : decodePayload token = .ok payload) (he : getProp payload (lit "exp") = .ok exp)
    (hlt : jsLt exp currentTime = false) (hr : getProp payload (lit "role") = .ok role)
    (hu : getProp payload (lit "user_id") = .ok userId) :
    (Properties.fetchPropertiesData st (some token) currentTime (.ok data)).1.properties =
      if strictEq role (.str (lit "admin")) then propertiesOrEmpty data
      else if strictEq role (.str (lit "seller")) then
        (propertiesOrEmpty data).filter (fun p => strictEq p.seller_id userId)
      else (propertiesOrEmpty data).filter (fun p => p.verified) := by
  cases token with
  | nil => rw [decodePayload_empty] at hd; cases hd
  | cons c cs =>
    simp only [Properties.fetchPropertiesData, List.isEmpty_cons, Bool.false_eq_true, if_false, hd,
      bind, Except.bind, he, hlt, hr, hu]
    by_cases h1 : strictEq role (.str (lit "admin")) = true
    · simp only [h1, if_true]; rfl
    · by_cases h2 : strictEq role (.str (lit "seller")) = true
      · simp only [h1, h2, if_true, if_false, hu]; rfl
      · simp only [h1, h2, if_false]; rfl

theorem Properties.fetch_guest (st : PropertiesState) (currentTime : ℤ)
    (data : Option (List PropertyRecord)) :
    (Properties.fetchPropertiesData st none currentTime (.ok data)).1.properties =
      (propertiesOrEmpty data).filter (fun p => p.verified) := by
  rfl

theorem Dashboard.tokenEffect_state (s : DashboardState) (store : TokenStore) (currentTime : ℤ) :
    (Dashboard.tokenEffect s store currentTime).state.openVerifyDialog = s.openVerifyDialog ∧
    (truthy s.role = true → (Dashboard.tokenEffect s store currentTime).state.role = s.role) := by
  unfold Dashboard.tokenEffect
  cases store with
  | none => exact ⟨rfl, fun _ => rfl⟩
  | some token =>
    by_cases hem : token.isEmpty = true
    · simp [hem]
    · simp only [hem, if_false]
      cases hd : decodePayload token with
      | error e => exact ⟨rfl, fun _ => rfl⟩
      | ok payload =>
        cases he : getProp payload (lit "exp") with
        | error e => simp only [bind, Except.bind, he]; exact ⟨rfl, fun _ => rfl⟩
        | ok exp =>
          by_cases hlt : jsLt exp currentTime = true
          · simp only [bind, Except.bind, he, hlt, if_true]; exact ⟨rfl, fun _ => rfl⟩
          · cases hr : getProp payload (lit "role") with
            | error e => simp only [bind, Except.bind, he, hlt, if_false, hr]; exact ⟨rfl, fun _ => rfl⟩
            | ok role =>
              cases hu : getProp payload (lit "user_id") with
              | error e =>
                simp only [bind, Except.bind, he, hlt, if_false, hr, hu]; exact ⟨rfl, fun _ => rfl⟩
              | ok userId =>
                simp only [bind, Except.bind, he, hlt, if_false, hr, hu, pure, Except.pure]
                by_cases h1 : truthy s.role = true <;> by_cases h2 : truthy s.userId = true <;>
                  simp [h1, h2]

theorem buyerToken_decodes : decodePayload buyerToken = .ok buyerClaims := by rfl

theorem adminToken_decodes : decodePayload adminToken = .ok adminClaims := by rfl

theorem sellerSession_reached :
    Dashboard.run Dashboard.initial sellerSessionEvents = some sellerSession := by rfl

theorem Dashboard.verifyButtons_nil (s : DashboardState)
    (h : strictEq s.role (.str (lit "admin")) = false) : Dashboard.verifyButtons s = [] := by
  simp [Dashboard.verifyButtons, Dashboard.pendingVerifyButtons, Dashboard.listVerifyButtons, h]

theorem truthy_of_admin (role : JsVal) (h : strictEq role (.str (lit "admin")) = true) :
    truthy role = true := by
  rw [(strictEq_str_iff _ _).1 h]; decide

/-- The Verify dialog is open for role admin only: the property one event
preserves. -/
theorem Dashboard.step_dialog (s s1 : DashboardState) (e : DashboardEvent)
    (hstep : Dashboard.step s e = some s1)
    (hinv : s.openVerifyDialog = true → strictEq s.role (.str (lit "admin")) = true) :
    s1.openVerifyDialog = true → strictEq s1.role (.str (lit "admin")) = true := by
  cases e with
  | tokenCheck store currentTime =>
    simp only [Dashboard.step] at hstep
    split at hstep
    · cases hstep
    · cases hstep
      obtain ⟨h1, h2⟩ := Dashboard.tokenEffect_state s store currentTime
      intro ho
      rw [h1] at ho
      rw [h2 (truthy_of_admin _ (hinv ho))]
      exact hinv ho
  | fetched res =>
    simp only [Dashboard.step] at hstep
    split at hstep
    · cases hstep
      cases res with
      | failed => exact hinv
      | ok data =>
        simp only [Dashboard.fetchPropertiesData]
        split
        · exact hinv
        · split <;> exact hinv
    · cases hstep
  | propertyCreated newProperty =>
    simp only [Dashboard.step] at hstep
    split at hstep
    · cases hstep
      simp only [Dashboard.handlePropertyCreated]
      split
      · exact hinv
      · split <;> exact hinv
    · cases hstep
  | verifyClick button =>
    simp only [Dashboard.step] at hstep
    split at hstep
    · rename_i property hb
      cases hstep
      intro _
      by_contra hna
      have hnil := Dashboard.verifyButtons_nil s (by simpa using hna)
      rw [hnil] at hb
      simp at hb
    · cases hstep
  | verifyConfirm serverOk =>
    simp only [Dashboard.step] at hstep
    split at hstep
    · cases hstep
      simp only [Dashboard.handleVerifyConfirm]
      split
      · exact hinv
      · split
        · intro h; cases h
        · exact hinv
    · cases hstep
  | verifyCancel =>
    simp only [Dashboard.step] at hstep
    split at hstep
    · cases hstep
      intro h; cases h
    · cases hstep
  | deleteClick button =>
    simp only [Dashboard.step] at hstep
    split at hstep
    · cases hstep; exact hinv
    · cases hstep
  | deleteConfirm serverOk =>
    simp only [Dashboard.step] at hstep
    split at hstep
    · cases hstep
      simp only [Dashboard.handleDeleteConfirm]
      split
      · exact hinv
      · split <;> exact hinv
    · cases hstep
  | deleteCancel =>
    simp only [Dashboard.step] at hstep
    split at hstep
    · cases hstep; exact hinv
    · cases hstep

theorem Dashboard.run_dialog (events : List DashboardEvent) (s s1 : DashboardState)
    (hrun : Dashboard.run s events = some s1)
    (hinv : s.openVerifyDialog = true → strictEq s.role (.str (lit "admin")) = true) :
    s1.openVerifyDialog = true → strictEq s1.role (.str (lit "admin")) = true := by
  induction events generalizing s with
  | nil =>
    simp only [Dashboard.run] at hrun
    cases hrun
    exact hinv
  | cons e es ih =>
    simp only [Dashboard.run] at hrun
    cases hs : Dashboard.step s e with
    | none => rw [hs] at hrun; cases hrun
    | some s2 =>
      rw [hs] at hrun
      exact ih s2 hrun (Dashboard.step_dialog s s2 e hs hinv)

theorem lookupHeader_cons (name : JsString) (kv : JsString × JsString)
    (headers : List (JsString × JsString)) :
    lookupHeader name (kv :: headers) =
      if kv.1 = name then some kv.2 else lookupHeader name headers := by
  unfold lookupHeader
  by_cases h : kv.1 = name
  · simp [List.find?, h]
  · simp [List.find?, h]

theorem lookupHeader_none_of_not_any (name : JsString) (headers : List (JsString × JsString))
    (h : headers.any (fun kv => kv.1 = name) = false) : lookupHeader name headers = none := by
  induction headers with
  | nil => rfl
  | cons kv rest ih =>
    rw [List.any_cons, Bool.or_eq_false_iff] at h
    rw [lookupHeader_cons, if_neg (by simpa using h.1), ih h.2]

theorem lookupHeader_append_single (name other value : JsString)
    (headers : List (JsString × JsString)) :
    lookupHeader other (headers ++ [(name, value)]) =
      match lookupHeader other headers with
      | some v => some v
      | none => if name = other then some value else none := by
  induction headers with
  | nil =>
    rw [List.nil_append, lookupHeader_cons]
    rfl
  | cons kv rest ih =>
    rw [List.cons_append, lookupHeader_cons, lookupHeader_cons]
    by_cases h : kv.1 = other
    · rw [if_pos h, if_pos h]
    · rw [if_neg h, if_neg h, ih]

theorem lookupHeader_map_same (name value : JsString) (headers : List (JsString × JsString))
    (h : headers.any (fun kv => kv.1 = name) = true) :
    lookupHeader name (headers.map (fun kv => if kv.1 = name then (name, value) else kv)) =
      some value := by
  induction headers with
  | nil => simp at h
  | cons kv rest ih =>
    rw [List.map_cons, lookupHeader_cons]
    by_cases hk : kv.1 = name
    · rw [if_pos hk, if_pos rfl]
    · rw [if_neg hk, if_neg hk]
      rw [List.any_cons] at h
      have hrest : rest.any (fun kv => kv.1 = name) = true := by
        cases hr : rest.any (fun kv => decide (kv.1 = name)) with
        | true => rfl
        | false => rw [hr] at h; simp [hk] at h
      exact ih hrest

theorem lookupHeader_map_other (name other value : JsString)
    (headers : List (JsString × JsString)) (hne : other ≠ name) :
    lookupHeader other (headers.map (fun kv => if kv.1 = name then (name, value) else kv)) =
      lookupHeader other headers := by
  induction headers with
  | nil => rfl
  | cons kv rest ih =>
    rw [List.map_cons, lookupHeader_cons, lookupHeader_cons, ih]
    by_cases hk : kv.1 = name
    · have hko : ¬ kv.1 = other := fun e => hne (e.symm.trans hk)
      rw [if_pos hk, if_neg (Ne.symm hne), if_neg hko]
    · rw [if_neg hk]

theorem lookupHeader_setHeader_same (name value : JsString) (headers : List (JsString × JsString)) :
    lookupHeader name (setHeader name value headers) = some value := by
  unfold setHeader
  cases h : headers.any (fun kv => decide (kv.1 = name)) with
  | true =>
    rw [if_pos rfl]
    exact lookupHeader_map_same name value headers h
  | false =>
    rw [if_neg (by simp), lookupHeader_append_single, lookupHeader_none_of_not_any name headers h]
    simp

theorem lookupHeader_setHeader_other (name other value : JsString)
    (headers : List (JsString × JsString)) (hne : other ≠ name) :
    lookupHeader other (setHeader name value headers) = lookupHeader other headers := by
  unfold setHeader
  cases h : headers.any (fun kv => decide (kv.1 = name)) with
  | true =>
    rw [if_pos rfl]
    exact lookupHeader_map_other name other value headers hne
  | false =>
    rw [if_neg (by simp), lookupHeader_append_single]
    cases lookupHeader other headers with
    | some v => rfl
    | none => simp [Ne.symm hne]

theorem requestInterceptor_fields (store : TokenStore) (config : RequestConfig) :
    (requestInterceptor store config).method = config.method ∧
    (requestInterceptor store config).url = config.url ∧
    (requestInterceptor store config).data = config.data ∧
    (requestInterceptor store config)._retry = config._retry := by
  unfold requestInterceptor
  split
  · exact ⟨rfl, rfl, rfl, rfl⟩
  · split <;> exact ⟨rfl, rfl, rfl, rfl⟩

theorem requestInterceptor_token (token : JsString) (config : RequestConfig) (h : token ≠ []) :
    requestInterceptor (some token) config =
      { config with
        headers := setHeader (lit "Authorization") (lit "Bearer " ++ token) config.headers } := by
  cases token with
  | nil => exact absurd rfl h
  | cons c cs => rfl

theorem replayedRequest_authorization (originalRequest : RequestConfig) (newToken : JsString) :
    lookupHeader (lit "Authorization") (replayedRequest originalRequest newToken).headers =
      some (lit "Bearer " ++ newToken) := by
  cases newToken with
  | nil => exact lookupHeader_setHeader_same _ _ _
  | cons c cs =>
    unfold replayedRequest
    rw [requestInterceptor_token _ _ (by simp)]
    exact lookupHeader_setHeader_same _ _ _

theorem replayedRequest_other_header (originalRequest : RequestConfig) (newToken other : JsString)
    (hne : other ≠ lit "Authorization") :
    lookupHeader other (replayedRequest originalRequest newToken).headers =
      lookupHeader other originalRequest.headers := by
  cases newToken with
  | nil => exact lookupHeader_setHeader_other _ _ _ _ hne
  | cons c cs =>
    unfold replayedRequest
    rw [requestInterceptor_token _ _ (by simp)]
    show lookupHeader other (setHeader _ _ (setHeader _ _ _)) = _
    rw [lookupHeader_setHeader_other _ _ _ _ hne, lookupHeader_setHeader_other _ _ _ _ hne]

theorem replayedRequest_fields (originalRequest : RequestConfig) (newToken : JsString) :
    (replayedRequest originalRequest newToken).method = originalRequest.method ∧
    (replayedRequest originalRequest newToken).url = originalRequest.url ∧
    (replayedRequest originalRequest newToken).data = originalRequest.data ∧
    (replayedRequest originalRequest newToken)._retry = originalRequest._retry :=
  requestInterceptor_fields _ _

theorem refreshCall_fields (store : TokenStore) :
    (refreshCall store).url = lit "/refresh" ∧ (refreshCall store).method = lit "post" ∧
    (refreshCall store)._retry = false := by
  obtain ⟨h1, h2, _, h4⟩ := requestInterceptor_fields store refreshRequest
  exact ⟨h2, h1, h4⟩

/-- A 401 for a request without the mark: the handler marks it and puts one
renewal call on the wire, behind which it waits. -/
theorem ApiState.step_unauthorized (s : ApiState) (position : Nat) (call : ApiCall)
    (response : Response) (hcall : s.inflight[position]? = some call)
    (hnew : call.config._retry = false) (h401 : response.status = some 401) :
    s.step (.respond position response) =
      some { s with
        sent := s.sent ++ [refreshCall s.store]
        inflight := s.inflight.eraseIdx position ++
          [⟨call.caller, refreshCall s.store, { call.config with _retry := true } :: call.awaiting⟩] } := by
  have hs : response.isSuccess = false := by simp [Response.isSuccess, h401]
  simp only [ApiState.step, hcall, hs, h401, hnew, and_self, if_true, Bool.false_eq_true, if_false]
  rfl

/-- A rejection passes through every waiting handler, starting one timer for
each, and ends the call of the application. -/
theorem ApiState.deliver_rejected (awaiting : List RequestConfig) (s : ApiState) (caller : Nat)
    (config : RequestConfig) (response : Response) :
    s.deliver caller (.rejected config response) awaiting =
      { s with
        timers := s.timers + awaiting.length
        settled := s.settled ++ [(caller, .rejected config response)] } := by
  induction awaiting generalizing s with
  | nil => rfl
  | cons originalRequest outer ih =>
    simp only [ApiState.deliver, ih, List.length_cons]
    have : s.timers + 1 + outer.length = s.timers + (outer.length + 1) := by omega
    rw [this]

/-- The response of a renewal call resumes the innermost waiting handler: the
new token is stored and the replay goes on the wire. -/
theorem ApiState.step_renewed (s : ApiState) (position : Nat) (caller : Nat)
    (config originalRequest : RequestConfig) (outer : List RequestConfig) (response : Response)
    (hcall : s.inflight[position]? = some ⟨caller, config, originalRequest :: outer⟩)
    (hok : response.isSuccess = true) :
    s.step (.respond position response) =
      some { s with
        store := some (toStringOrUndefined response.token)
        sent := s.sent ++ [replayedRequest originalRequest (toStringOrUndefined response.token)]
        inflight := s.inflight.eraseIdx position ++
          [⟨caller, replayedRequest originalRequest (toStringOrUndefined response.token), outer⟩] } := by
  simp only [ApiState.step, hcall, hok, if_true]
  rfl

/-- An error that is not a first 401 rejects the call. -/
theorem ApiState.step_rejected (s : ApiState) (position : Nat) (call : ApiCall)
    (response : Response) (hcall : s.inflight[position]? = some call)
    (hfail : response.isSuccess = false)
    (hrej : ¬ (response.status = some 401 ∧ call.config._retry = false)) :
    s.step (.respond position response) =
      some { s with
        inflight := s.inflight.eraseIdx position
        timers := s.timers + call.awaiting.length
        settled := s.settled ++ [(call.caller, .rejected call.config response)] } := by
  simp only [ApiState.step, hcall, hfail, Bool.false_eq_true, if_false, hrej,
    ApiState.deliver_rejected]

/-- The handler of each of the given requests, suspended behind its own renewal
call. -/
theorem ApiState.run_unauthorized_all (calls : List ApiCall) (s : ApiState) (rest : List ApiCall)
    (hin : s.inflight = calls ++ rest) (hnew : ∀ c ∈ calls, c.config._retry = false) :
    s.run (List.replicate calls.length (.respond 0 unauthorized)) =
      some { s with
        sent := s.sent ++ List.replicate calls.length (refreshCall s.store)
        inflight := rest ++ calls.map (fun c =>
          ⟨c.caller, refreshCall s.store, { c.config with _retry := true } :: c.awaiting⟩) } := by
  induction calls generalizing s rest with
  | nil =>
    simp only [List.length_nil, List.replicate_zero, ApiState.run, List.append_nil, List.map_nil]
    rw [List.nil_append] at hin
    rw [← hin]
  | cons c cs ih =>
    have hc : s.inflight[0]? = some c := by rw [hin]; simp
    have hstep := ApiState.step_unauthorized s 0 c unauthorized hc
      (hnew c (List.mem_cons_self _ _)) rfl
    simp only [List.length_cons, List.replicate_succ, ApiState.run, hstep]
    have herase : s.inflight.eraseIdx 0 = cs ++ rest := by rw [hin]; rfl
    rw [ih _ (rest ++ [⟨c.caller, refreshCall s.store,
        { c.config with _retry := true } :: c.awaiting⟩])
      (by simp only [herase, List.append_assoc])
      (fun x hx => hnew x (List.mem_cons_of_mem _ hx))]
    simp only [List.append_assoc, List.map_cons, List.singleton_append, List.cons_append,
      List.nil_append]

/-- The token store after a sequence of renewals: the last token, if any. -/
theorem ApiState.run_renewed_all (calls : List ApiCall) (tokens : List JsString) (s : ApiState)
    (rest : List ApiCall) (config : RequestConfig) (hlen : tokens.length = calls.length)
    (hin : s.inflight = calls.map (fun c =>
      ⟨c.caller, config, { c.config with _retry := true } :: c.awaiting⟩) ++ rest) :
    s.run (tokens.map (fun t => .respond 0 { status := some 200, token := some t })) =
      some { s with
        store := tokens.foldl (fun _ t => some t) s.store
        sent := s.sent ++ List.zipWith
          (fun c t => replayedRequest { c.config with _retry := true } t) calls tokens
        inflight := rest ++ List.zipWith
          (fun c t => ⟨c.caller, replayedRequest { c.config with _retry := true } t, c.awaiting⟩)
          calls tokens } := by
  induction calls generalizing s rest tokens with
  | nil =>
    cases tokens with
    | nil =>
      simp only [List.map_nil, ApiState.run, List.foldl_nil, List.zipWith_nil_left,
        List.append_nil]
      rw [List.map_nil, List.nil_append] at hin
      rw [← hin]
    | cons t ts => simp at hlen
  | cons c cs ih =>
    cases tokens with
    | nil => simp at hlen
    | cons t ts =>
      have hc : s.inflight[0]? =
          some ⟨c.caller, config, { c.config with _retry := true } :: c.awaiting⟩ := by
        rw [hin]; simp
      have hstep := ApiState.step_renewed s 0 c.caller config { c.config with _retry := true }
        c.awaiting { status := some 200, token := some t } hc rfl
      simp only [toStringOrUndefined] at hstep
      simp only [List.map_cons, ApiState.run, hstep]
      have herase : s.inflight.eraseIdx 0 = cs.map (fun c =>
          (⟨c.caller, config, { c.config with _retry := true } :: c.awaiting⟩ : ApiCall)) ++ rest := by
        rw [hin]; rfl
      rw [ih ts _ (rest ++ [⟨c.caller, replayedRequest { c.config with _retry := true } t,
          c.awaiting⟩]) (by simpa using hlen)
        (by simp only [herase, List.append_assoc])]
      simp only [List.append_assoc, List.zipWith_cons_cons, List.singleton_append,
        List.cons_append, List.nil_append, List.foldl_cons, toStringOrUndefined]

theorem perm_cons_eraseIdx {α : Type} (l : List α) (p : Nat) (a : α) (h : l[p]? = some a) :
    l.Perm (a :: l.eraseIdx p) := by
  induction l generalizing p with
  | nil => simp at h
  | cons x xs ih =>
    cases p with
    | zero =>
      simp at h
      subst h
      exact List.Perm.refl _
    | succ p =>
      simp at h
      simp only [List.eraseIdx_cons_succ]
      exact ((ih p h).cons x).trans (List.Perm.swap a x _)

theorem eraseIdx_map_eq {α β : Type} (f : α → β) (l : List α) (p : Nat) :
    (l.map f).eraseIdx p = (l.eraseIdx p).map f := by
  induction l generalizing p with
  | nil => rfl
  | cons x xs ih =>
    cases p with
    | zero => rfl
    | succ p => simp only [List.map_cons, List.eraseIdx_cons_succ, ih]

/-- A schedule that takes as many entries as the list has takes each entry
once. -/
theorem takeInOrder_perm {α : Type} (l : List α) (ps : List Nat) (order : List α)
    (h : takeInOrder l ps = some order) (hlen : ps.length = l.length) : order.Perm l := by
  induction ps generalizing l order with
  | nil =>
    simp only [takeInOrder] at h
    cases h
    have : l = [] := List.eq_nil_of_length_eq_zero (by simpa using hlen.symm)
    rw [this]
  | cons p ps ih =>
    simp only [takeInOrder] at h
    cases ha : l[p]? with
    | none => rw [ha] at h; cases h
    | some a =>
      rw [ha] at h
      cases hr : takeInOrder (l.eraseIdx p) ps with
      | none => rw [hr] at h; cases h
      | some rest =>
        rw [hr] at h
        cases h
        have hp : p < l.length := (List.getElem?_eq_some_iff.1 ha).1
        have hlen2 : ps.length = (l.eraseIdx p).length := by
          rw [List.length_eraseIdx]
          simp only [hp, if_true]
          simp only [List.length_cons] at hlen
          omega
        exact ((ih _ _ hr hlen2).cons a).trans (perm_cons_eraseIdx l p a ha).symm

theorem takeInOrder_length {α : Type} (l : List α) (ps : List Nat) (order : List α)
    (h : takeInOrder l ps = some order) : order.length = ps.length := by
  induction ps generalizing l order with
  | nil =>
    simp only [takeInOrder] at h
    cases h
    rfl
  | cons p ps ih =>
    simp only [takeInOrder] at h
    cases ha : l[p]? with
    | none => rw [ha] at h; cases h
    | some a =>
      rw [ha] at h
      cases hr : takeInOrder (l.eraseIdx p) ps with
      | none => rw [hr] at h; cases h
      | some rest =>
        rw [hr] at h
        cases h
        simp only [List.length_cons, ih _ _ hr]

/-- A schedule that takes as many entries as the list has leaves none. -/
theorem takeInOrder_rest {α : Type} (l : List α) (ps : List Nat) (order : List α)
    (h : takeInOrder l ps = some order) (hlen : ps.length = l.length) :
    ps.foldl List.eraseIdx l = [] := by
  induction ps generalizing l order with
  | nil =>
    exact List.eq_nil_of_length_eq_zero (by simpa using hlen.symm)
  | cons p ps ih =>
    simp only [takeInOrder] at h
    cases ha : l[p]? with
    | none => rw [ha] at h; cases h
    | some a =>
      rw [ha] at h
      cases hr : takeInOrder (l.eraseIdx p) ps with
      | none => rw [hr] at h; cases h
      | some rest =>
        have hp : p < l.length := (List.getElem?_eq_some_iff.1 ha).1
        have hlen2 : ps.length = (l.eraseIdx p).length := by
          rw [List.length_eraseIdx]
          simp only [hp, if_true]
          simp only [List.length_cons] at hlen
          omega
        exact ih _ _ hr hlen2

/-- The handlers of the requests a schedule of 401 responses reaches, each
suspended behind its own renewal call, in the order of the responses. -/
theorem ApiState.run_unauthorized_order (ps : List Nat) (remaining : List ApiCall)
    (s : ApiState) (waiting first : List ApiCall)
    (hin : s.inflight = remaining ++ waiting)
    (hnew : ∀ c ∈ remaining, c.config._retry = false)
    (htake : takeInOrder remaining ps = some first) :
    s.run (ps.map (fun p => .respond p unauthorized)) =
      some { s with
        sent := s.sent ++ List.replicate ps.length (refreshCall s.store)
        inflight := ps.foldl List.eraseIdx remaining ++ waiting ++ first.map (fun c =>
          ⟨c.caller, refreshCall s.store, { c.config with _retry := true } :: c.awaiting⟩) } := by
  induction ps generalizing s remaining waiting first with
  | nil =>
    simp only [takeInOrder] at htake
    cases htake
    simp only [List.map_nil, ApiState.run, List.length_nil, List.replicate_zero, List.append_nil,
      List.foldl_nil]
    rw [← hin]
  | cons p ps ih =>
    simp only [takeInOrder] at htake
    cases ha : remaining[p]? with
    | none => rw [ha] at htake; cases htake
    | some a =>
      rw [ha] at htake
      cases hr : takeInOrder (remaining.eraseIdx p) ps with
      | none => rw [hr] at htake; cases htake
      | some rest =>
        rw [hr] at htake
        cases htake
        have hp : p < remaining.length := (List.getElem?_eq_some_iff.1 ha).1
        have hc : s.inflight[p]? = some a := by
          rw [hin, List.getElem?_append_left hp, ha]
        have hstep := ApiState.step_unauthorized s p a unauthorized hc
          (hnew a (List.getElem?_mem ha)) rfl
        have herase : s.inflight.eraseIdx p = remaining.eraseIdx p ++ waiting := by
          rw [hin, List.eraseIdx_append_of_lt_length hp]
        simp only [List.map_cons, ApiState.run, hstep]
        rw [ih (remaining.eraseIdx p) _ (waiting ++ [⟨a.caller, refreshCall s.store,
            { a.config with _retry := true } :: a.awaiting⟩]) rest
          (by simp only [herase, List.append_assoc])
          (fun x hx => hnew x (List.mem_of_mem_eraseIdx hx)) hr]
        simp only [List.length_cons, List.replicate_succ, List.foldl_cons, List.map_cons,
          List.append_assoc, List.singleton_append, List.cons_append, List.nil_append]

/-- The renewal calls a schedule of successful responses reaches: each handler
stores the token of its own renewal call and replays its request, in the order
of the responses; the token store ends with the last token. -/
theorem ApiState.run_renewed_order (qs : List Nat) (tokens : List JsString)
    (renewing : List ApiCall) (s : ApiState) (replayed second : List ApiCall)
    (config : RequestConfig) (hlen : tokens.length = qs.length)
    (hin : s.inflight = renewing.map (fun c =>
      ⟨c.caller, config, { c.config with _retry := true } :: c.awaiting⟩) ++ replayed)
    (htake : takeInOrder renewing qs = some second) :
    s.run (List.zipWith (fun q t => .respond q { status := some 200, token := some t })
        qs tokens) =
      some { s with
        store := tokens.foldl (fun _ t => some t) s.store
        sent := s.sent ++ List.zipWith
          (fun c t => replayedRequest { c.config with _retry := true } t) second tokens
        inflight := (qs.foldl List.eraseIdx renewing).map (fun c =>
            ⟨c.caller, config, { c.config with _retry := true } :: c.awaiting⟩) ++ replayed ++
          List.zipWith
            (fun c t => ⟨c.caller, replayedRequest { c.config with _retry := true } t, c.awaiting⟩)
            second tokens } := by
  induction qs generalizing s renewing replayed second tokens with
  | nil =>
    simp only [takeInOrder] at htake
    cases htake
    cases tokens with
    | nil =>
      simp only [List.zipWith_nil_left, ApiState.run, List.foldl_nil, List.append_nil]
      rw [← hin]
    | cons t ts => simp at hlen
  | cons q qs ih =>
    cases tokens with
    | nil => simp at hlen
    | cons t ts =>
      simp only [takeInOrder] at htake
      cases ha : renewing[q]? with
      | none => rw [ha] at htake; cases htake
      | some a =>
        rw [ha] at htake
        cases hr : takeInOrder (renewing.eraseIdx q) qs with
        | none => rw [hr] at htake; cases htake
        | some rest =>
          rw [hr] at htake
          cases htake
          have hq : q < renewing.length := (List.getElem?_eq_some_iff.1 ha).1
          have hq2 : q < (renewing.map (fun c =>
              (⟨c.caller, config, { c.config with _retry := true } :: c.awaiting⟩ : ApiCall))).length := by
            rw [List.length_map]; exact hq
          have hc : s.inflight[q]? =
              some ⟨a.caller, config, { a.config with _retry := true } :: a.awaiting⟩ := by
            rw [hin, List.getElem?_append_left hq2, List.getElem?_map, ha]
            rfl
          have hstep := ApiState.step_renewed s q a.caller config { a.config with _retry := true }
            a.awaiting { status := some 200, token := some t } hc rfl
          simp only [toStringOrUndefined] at hstep
          have herase : s.inflight.eraseIdx q = (renewing.eraseIdx q).map (fun c =>
              (⟨c.caller, config, { c.config with _retry := true } :: c.awaiting⟩ : ApiCall))
                ++ replayed := by
            rw [hin, List.eraseIdx_append_of_lt_length hq2, eraseIdx_map_eq]
          simp only [List.zipWith_cons_cons, ApiState.run, hstep]
          rw [ih ts (renewing.eraseIdx q) _ (replayed ++ [⟨a.caller,
              replayedRequest { a.config with _retry := true } t, a.awaiting⟩]) rest
            (by simpa using hlen) (by simp only [herase, List.append_assoc]) hr]
          simp only [List.foldl_cons, List.zipWith_cons_cons, List.append_assoc,
            List.singleton_append, List.cons_append, List.nil_append]

/-- A pipeline whose only request in flight carries no mark keeps that shape
under 401 responses: each one puts another renewal call on the wire and ends
no call of the application. -/
theorem ApiState.run_unauthorized_loop (n : Nat) (s : ApiState) (c : ApiCall)
    (hin : s.inflight = [c]) (hnew : c.config._retry = false) :
    ∃ s1 c1,
      s.run (List.replicate n (.respond 0 unauthorized)) = some s1 ∧
      s1.inflight = [c1] ∧ c1.config._retry = false ∧
      s1.sent = s.sent ++ List.replicate n (refreshCall s.store) ∧
      s1.settled = s.settled ∧ s1.store = s.store := by
  induction n generalizing s c with
  | zero => exact ⟨s, c, rfl, hin, hnew, by simp, rfl, rfl⟩
  | succ n ih =>
    have hc : s.inflight[0]? = some c := by rw [hin]; rfl
    have hstep := ApiState.step_unauthorized s 0 c unauthorized hc hnew rfl
    have herase : s.inflight.eraseIdx 0 = [] := by rw [hin]; rfl
    rw [herase, List.nil_append] at hstep
    obtain ⟨s1, c1, h1, h2, h3, h4, h5, h6⟩ := ih
      { s with
        sent := s.sent ++ [refreshCall s.store]
        inflight := [⟨c.caller, refreshCall s.store,
          { c.config with _retry := true } :: c.awaiting⟩] }
      ⟨c.caller, refreshCall s.store, { c.config with _retry := true } :: c.awaiting⟩ rfl
      (refreshCall_fields s.store).2.2
    refine ⟨s1, c1, ?_, h2, h3, ?_, h5, h6⟩
    · simp only [List.replicate_succ, ApiState.run, hstep]
      exact h1
    · rw [h4]
      simp only [List.replicate_succ, List.append_assoc, List.singleton_append]

/-- The function atob reads every character of the base64 alphabet, and of the
URL-safe alphabet the characters of the values below 62. -/
theorem base64Value_base64Char (urlSafe : Bool) (v : Nat) (h : v < 64)
    (hsafe : urlSafe = true → v < 62) : base64Value (base64Char urlSafe v) = some v := by
  cases urlSafe with
  | false =>
    unfold base64Char base64Value
    simp only [Bool.false_eq_true, if_false]
    split_ifs <;> congr 1 <;> omega
  | true =>
    have h62 := hsafe rfl
    unfold base64Char base64Value
    split_ifs <;> first | omega | (congr 1; omega)

/-- The characters "-" and "_" of the URL-safe alphabet are not in the alphabet
of atob. -/
theorem base64Value_urlSafe (v : Nat) (h : 62 ≤ v) : base64Value (base64Char true v) = none := by
  have h1 : ¬ v < 26 := by omega
  have h2 : ¬ v < 52 := by omega
  have h3 : ¬ v < 62 := by omega
  simp only [base64Char, h1, h2, h3, if_false, if_true]
  split <;> decide

theorem base64Char_ne_pad (urlSafe : Bool) (v : Nat) : base64Char urlSafe v ≠ 61 := by
  unfold base64Char
  split_ifs <;> omega

theorem base64Char_ne_dot (urlSafe : Bool) (v : Nat) : base64Char urlSafe v ≠ 46 := by
  unfold base64Char
  split_ifs <;> omega

theorem base64Char_not_whitespace (urlSafe : Bool) (v : Nat) :
    isAsciiWhitespace (base64Char urlSafe v) = false := by
  unfold base64Char isAsciiWhitespace
  split_ifs <;> simp <;> omega

theorem encodeBytes_lt (bytes : List Nat) (h : ∀ b ∈ bytes, b < 256) :
    ∀ v ∈ encodeBytes bytes, v < 64 := by
  induction bytes using encodeBytes.induct with
  | case1 a b c rest ih =>
    intro v hv
    simp only [encodeBytes, List.mem_cons] at hv
    have ha := h a (by simp)
    have hb := h b (by simp)
    have hc := h c (by simp)
    rcases hv with hv | hv | hv | hv | hv
    · omega
    · omega
    · omega
    · omega
    · exact ih (fun x hx => h x (by simp [hx])) v hv
  | case2 a b =>
    intro v hv
    simp only [encodeBytes, List.mem_cons, List.mem_singleton, List.not_mem_nil, or_false] at hv
    have ha := h a (by simp)
    have hb := h b (by simp)
    rcases hv with hv | hv | hv <;> omega
  | case3 a =>
    intro v hv
    simp only [encodeBytes, List.mem_cons, List.mem_singleton, List.not_mem_nil, or_false] at hv
    have ha := h a (by simp)
    rcases hv with hv | hv <;> omega
  | case4 =>
    intro v hv
    simp [encodeBytes] at hv

theorem decodeSextets_encodeBytes (bytes : List Nat) (h : ∀ b ∈ bytes, b < 256) :
    decodeSextets (encodeBytes bytes) = bytes := by
  induction bytes using encodeBytes.induct with
  | case1 a b c rest ih =>
    have ha := h a (by simp)
    have hb := h b (by simp)
    have hc := h c (by simp)
    simp only [encodeBytes, decodeSextets]
    rw [ih (fun x hx => h x (by simp [hx]))]
    congr 1
    · omega
    · congr 1
      · omega
      · congr 1
        omega
  | case2 a b =>
    have ha := h a (by simp)
    have hb := h b (by simp)
    simp only [encodeBytes, decodeSextets]
    congr 1
    · omega
    · congr 1
      omega
  | case3 a =>
    have ha := h a (by simp)
    simp only [encodeBytes, decodeSextets]
    congr 1
    omega
  | case4 => rfl

theorem encodeBytes_length (bytes : List Nat) :
    (encodeBytes bytes).length = bytes.length / 3 * 4 +
      (if bytes.length % 3 = 0 then 0 else bytes.length % 3 + 1) := by
  induction bytes using encodeBytes.induct with
  | case1 a b c rest ih =>
    simp only [encodeBytes, List.length_cons, ih]
    split_ifs <;> omega
  | case2 a b => simp [encodeBytes]
  | case3 a => simp [encodeBytes]
  | case4 => rfl

theorem stripPadding_of_no_pad (xs : JsString) (h : ∀ x ∈ xs, x ≠ 61) : stripPadding xs = xs := by
  unfold stripPadding
  split
  · split
    · rename_i r hr
      have : (61 : Nat) ∈ xs := by
        rw [← List.mem_reverse, hr]; simp
      exact absurd rfl (h 61 this)
    · rename_i r _ hr
      have : (61 : Nat) ∈ xs := by
        rw [← List.mem_reverse, hr]; simp
      exact absurd rfl (h 61 this)
    · rfl
  · rfl

theorem stripPadding_one_pad (xs : JsString) (h : ∀ x ∈ xs, x ≠ 61) (hne : xs ≠ [])
    (hlen : (xs.length + 1) % 4 = 0) : stripPadding (xs ++ [61]) = xs := by
  unfold stripPadding
  rw [if_pos (by simpa using hlen)]
  cases hr : xs.reverse with
  | nil => exact absurd (List.reverse_eq_nil_iff.1 hr) hne
  | cons y ys =>
    have hy : y ≠ 61 := h y (by rw [← List.mem_reverse, hr]; simp)
    simp only [List.reverse_append, List.reverse_cons, List.reverse_nil, List.nil_append,
      List.singleton_append, hr]
    split
    · rename_i r heq
      simp only [List.cons.injEq, true_and] at heq
      exact absurd heq.1 hy
    · rename_i r _ heq
      simp only [List.cons.injEq, true_and] at heq
      rw [← heq, ← hr, List.reverse_reverse]
    · rename_i _ hno
      exact absurd rfl (hno (y :: ys))

theorem stripPadding_two_pad (xs : JsString) (hlen : (xs.length + 2) % 4 = 0) :
    stripPadding (xs ++ [61, 61]) = xs := by
  unfold stripPadding
  rw [if_pos (by simpa using hlen)]
  simp [List.reverse_append]

theorem filter_not_whitespace (xs : JsString) (h : ∀ x ∈ xs, isAsciiWhitespace x = false) :
    xs.filter (fun c => !isAsciiWhitespace c) = xs := by
  rw [List.filter_eq_self]
  intro x hx
  simp [h x hx]

theorem mapM_base64Value (urlSafe : Bool) (vs : List Nat) (h : ∀ v ∈ vs, v < 64)
    (hsafe : urlSafe = true → ∀ v ∈ vs, v < 62) :
    (vs.map (base64Char urlSafe)).mapM base64Value = some vs := by
  induction vs with
  | nil => rfl
  | cons v rest ih =>
    rw [List.map_cons, List.mapM_cons,
      base64Value_base64Char urlSafe v (h v (by simp)) (fun hu => hsafe hu v (by simp)),
      ih (fun x hx => h x (by simp [hx])) (fun hu x hx => hsafe hu x (by simp [hx]))]
    rfl

theorem mapM_base64Value_urlSafe (vs : List Nat) (h : ∃ v ∈ vs, 62 ≤ v) :
    (vs.map (base64Char true)).mapM base64Value = none := by
  induction vs with
  | nil => obtain ⟨v, hv, _⟩ := h; cases hv
  | cons v rest ih =>
    rw [List.map_cons, List.mapM_cons]
    by_cases hv : 62 ≤ v
    · rw [base64Value_urlSafe v hv]
      rfl
    · have hrest : ∃ x ∈ rest, 62 ≤ x := by
        obtain ⟨x, hx, hx62⟩ := h
        rcases List.mem_cons.1 hx with rfl | hx
        · exact absurd hx62 hv
        · exact ⟨x, hx, hx62⟩
      rw [ih hrest]
      cases base64Value (base64Char true v) <;> rfl

/-- What atob decodes of an encoded segment, once whitespace and padding are
removed: the characters of the six-bit values. -/
theorem stripPadding_base64Encode (urlSafe pad : Bool) (bytes : List Nat) :
    stripPadding ((base64Encode urlSafe pad bytes).filter (fun c => !isAsciiWhitespace c)) =
      (encodeBytes bytes).map (base64Char urlSafe) := by
  have hlen := encodeBytes_length bytes
  have hchars : ∀ x ∈ (encodeBytes bytes).map (base64Char urlSafe), x ≠ 61 := by
    intro x hx
    obtain ⟨v, _, rfl⟩ := List.mem_map.1 hx
    exact base64Char_ne_pad urlSafe v
  have hclen : ((encodeBytes bytes).map (base64Char urlSafe)).length
      = (encodeBytes bytes).length := List.length_map _ _
  have hws : ∀ x ∈ base64Encode urlSafe pad bytes, isAsciiWhitespace x = false := by
    intro x hx
    unfold base64Encode at hx
    rcases List.mem_append.1 hx with hx | hx
    · obtain ⟨v, _, rfl⟩ := List.mem_map.1 hx
      exact base64Char_not_whitespace urlSafe v
    · have : x = 61 := by
        split at hx
        · exact (List.mem_replicate.1 hx).2
        · simp at hx
      subst this
      decide
  rw [filter_not_whitespace _ hws]
  unfold base64Encode
  cases pad with
  | false =>
    simp only [Bool.false_eq_true, if_false, List.append_nil]
    exact stripPadding_of_no_pad _ hchars
  | true =>
    simp only [if_true]
    have h3 : bytes.length % 3 = 0 ∨ bytes.length % 3 = 1 ∨ bytes.length % 3 = 2 := by omega
    rcases h3 with h3 | h3 | h3
    · rw [h3]
      simp only [List.replicate, List.append_nil]
      exact stripPadding_of_no_pad _ hchars
    · rw [h3]
      have : (3 - 1) % 3 = 2 := rfl
      rw [this]
      simp only [List.replicate]
      apply stripPadding_two_pad
      rw [hclen, hlen, h3]
      simp
      omega
    · rw [h3]
      have : (3 - 2) % 3 = 1 := rfl
      rw [this]
      simp only [List.replicate]
      apply stripPadding_one_pad _ hchars
      · intro hnil
        have := congrArg List.length hnil
        rw [hclen, hlen, h3] at this
        simp at this
      · rw [hclen, hlen, h3]
        simp
        omega

/-- The function atob decodes what the encoder of the server produced, with or
without padding, in the alphabet of base64, and in the URL-safe alphabet when
no six-bit value is 62 or 63. -/
theorem atob_base64Encode (urlSafe pad : Bool) (bytes : List Nat) (h : ∀ b ∈ bytes, b < 256)
    (hsafe : urlSafe = true → ∀ v ∈ encodeBytes bytes, v < 62) :
    atob (base64Encode urlSafe pad bytes) = .ok bytes := by
  have hlt := encodeBytes_lt bytes h
  have hlen := encodeBytes_length bytes
  unfold atob
  simp only [stripPadding_base64Encode]
  rw [if_neg, mapM_base64Value urlSafe _ hlt hsafe]
  · simp only [decodeSextets_encodeBytes bytes h]
  rw [List.length_map, hlen]
  split_ifs <;> omega

/-- The function atob throws on a segment of the URL-safe alphabet that has
one of the characters "-" and "_". -/
theorem atob_base64Encode_urlSafe (pad : Bool) (bytes : List Nat)
    (h : ∃ v ∈ encodeBytes bytes, 62 ≤ v) :
    atob (base64Encode true pad bytes) = .error .invalidCharacter := by
  unfold atob
  simp only [stripPadding_base64Encode, mapM_base64Value_urlSafe _ h]
  split <;> rfl

theorem splitOn_append_sep (sep : Nat) (xs rest : JsString) (h : sep ∉ xs) :
    splitOn sep (xs ++ sep :: rest) = xs :: splitOn sep rest := by
  induction xs with
  | nil => simp [splitOn]
  | cons c cs ih =>
    have hc : c ≠ sep := fun e => h (by simp [e])
    have hcs : sep ∉ cs := fun e => h (by simp [e])
    rw [List.cons_append, splitOn, if_neg hc, ih hcs]

theorem splitOn_middle (header segment signature : JsString) (hh : 46 ∉ header)
    (hs : 46 ∉ segment) :
    (splitOn 46 (header ++ 46 :: (segment ++ 46 :: signature)))[1]? = some segment := by
  rw [splitOn_append_sep 46 header _ hh, splitOn_append_sep 46 segment _ hs]
  simp

theorem base64Encode_no_dot (urlSafe pad : Bool) (bytes : List Nat) :
    46 ∉ base64Encode urlSafe pad bytes := by
  intro hx
  unfold base64Encode at hx
  rcases List.mem_append.1 hx with hx | hx
  · obtain ⟨v, _, hv⟩ := List.mem_map.1 hx
    exact base64Char_ne_dot urlSafe v hv
  · split at hx
    · have := (List.mem_replicate.1 hx).2
      omega
    · simp at hx

theorem digitValue_hexDigit (d : Nat) (h : d < 16) : digitValue 16 (hexDigit d) = some d := by
  unfold hexDigit digitValue
  by_cases h10 : d < 10
  · rw [if_pos h10]
    have h1 : 48 ≤ d + 48 ∧ d + 48 ≤ 57 := by omega
    simp only [h1, and_self, if_true, Nat.add_sub_cancel, h, if_true]
  · rw [if_neg h10]
    have h1 : ¬ (48 ≤ d + 87 ∧ d + 87 ≤ 57) := by omega
    have h2 : 97 ≤ d + 87 ∧ d + 87 ≤ 102 := by omega
    simp only [h1, h2, and_self, if_true, if_false, Nat.add_sub_cancel, h]

theorem parseStringBody_escapeUnit (u : Nat) (hu : u < 65536) (rest body tail : JsString)
    (h : parseStringBody rest = some (body, tail)) :
    parseStringBody (escapeUnit u ++ rest) = some (u :: body, tail) := by
  unfold escapeUnit
  by_cases h34 : u = 34
  · subst h34
    rw [if_pos rfl, List.cons_append, List.cons_append, List.nil_append, parseStringBody.eq_def]
    simp [h]
  · by_cases h92 : u = 92
    · subst h92
      rw [if_neg h34, if_pos rfl, List.cons_append, List.cons_append, List.nil_append,
        parseStringBody.eq_def]
      simp [h]
    · by_cases hesc : u < 32 ∨ 127 ≤ u
      · rw [if_neg h34, if_neg h92, if_pos hesc]
        have d1 := digitValue_hexDigit (u / 4096 % 16) (by omega)
        have d2 := digitValue_hexDigit (u / 256 % 16) (by omega)
        have d3 := digitValue_hexDigit (u / 16 % 16) (by omega)
        have d4 := digitValue_hexDigit (u % 16) (by omega)
        have hval : ((u / 4096 % 16 * 16 + u / 256 % 16) * 16 + u / 16 % 16) * 16 + u % 16 = u := by
          omega
        simp only [List.cons_append, List.nil_append]
        rw [parseStringBody.eq_def]
        simp [d1, d2, d3, d4, h, hval]
      · rw [if_neg h34, if_neg h92, if_neg hesc]
        have hlt : ¬ u < 32 := by omega
        rw [List.cons_append, List.nil_append, parseStringBody.eq_def]
        simp [h34, h92, hlt, h]

theorem parseStringBody_escaped (s : JsString) (hs : ∀ u ∈ s, u < 65536) (rest : JsString) :
    parseStringBody (s.flatMap escapeUnit ++ 34 :: rest) = some (s, rest) := by
  induction s with
  | nil =>
    rw [List.flatMap_nil, List.nil_append, parseStringBody.eq_def]
    simp
  | cons u us ih =>
    rw [List.flatMap_cons, List.append_assoc]
    exact parseStringBody_escapeUnit u (hs u (by simp)) _ us rest
      (ih (fun x hx => hs x (by simp [hx])))

theorem digitsToNat_append_single (ds : List Nat) (d : Nat) :
    digitsToNat 10 (ds ++ [d]) = digitsToNat 10 ds * 10 + d := by
  simp [digitsToNat, List.foldl_append]

theorem natDigits_lt (fuel n : Nat) : ∀ d ∈ natDigits fuel n, d < 10 := by
  induction fuel generalizing n with
  | zero => intro d hd; simp [natDigits] at hd
  | succ fuel ih =>
    intro d hd
    rw [natDigits] at hd
    split at hd
    · simp only [List.mem_singleton] at hd
      omega
    · rcases List.mem_append.1 hd with hd | hd
      · exact ih _ d hd
      · simp only [List.mem_singleton] at hd
        omega

theorem natDigits_value (fuel n : Nat) (h : n < fuel) : digitsToNat 10 (natDigits fuel n) = n := by
  induction fuel generalizing n with
  | zero => omega
  | succ fuel ih =>
    rw [natDigits]
    split
    · simp [digitsToNat]
    · rw [digitsToNat_append_single, ih (n / 10) (by omega)]
      omega

theorem natDigits_head (fuel n : Nat) (h : n < fuel) (hpos : 1 ≤ n) :
    ∃ d ds, natDigits fuel n = d :: ds ∧ d ≠ 0 := by
  induction fuel generalizing n with
  | zero => omega
  | succ fuel ih =>
    rw [natDigits]
    split
    · exact ⟨n, [], rfl, by omega⟩
    · obtain ⟨d, ds, hd, hne⟩ := ih (n / 10) (by omega) (by omega)
      exact ⟨d, ds ++ [n % 10], by rw [hd]; rfl, hne⟩

/-- The digits of a number begin with a zero only when the number is a single
digit. -/
theorem natDigits_lead (n : Nat) :
    (match natDigits (n + 1) n with
      | [] => false
      | [_] => true
      | d :: _ :: _ => d != 0) = true := by
  rw [natDigits]
  by_cases h10 : n < 10
  · rw [if_pos h10]
  · rw [if_neg h10]
    obtain ⟨d, ds, hd, hne⟩ := natDigits_head n (n / 10) (by omega) (by omega)
    rw [hd]
    cases ds with
    | nil => simpa using hne
    | cons e es => simpa using hne

theorem digitValue_digit (d : Nat) (h : d < 10) : digitValue 10 (d + 48) = some d := by
  unfold digitValue
  have h1 : 48 ≤ d + 48 ∧ d + 48 ≤ 57 := by omega
  simp only [h1, and_self, if_true, Nat.add_sub_cancel, h]

theorem takeDigits_digits (ds : List Nat) (c : Nat) (rest : JsString)
    (hds : ∀ d ∈ ds, d < 10) (hc : digitValue 10 c = none) :
    takeDigits 10 (ds.map (fun d => d + 48) ++ c :: rest) = (ds, c :: rest) := by
  induction ds with
  | nil => simp [takeDigits, hc]
  | cons d ds ih =>
    rw [List.map_cons, List.cons_append, takeDigits, digitValue_digit d (hds d (by simp))]
    simp only [ih (fun x hx => hds x (by simp [hx]))]

theorem scale10_zero (m : ℤ) : scale10 m 0 = (m : ℚ) := by
  simp [scale10]


theorem parseNumber_digits (negative : Bool) (d : Nat) (ds : List Nat) (c : Nat) (rest : JsString)
    (hds : ∀ x ∈ d :: ds, x < 10) (hlead : ds = [] ∨ d ≠ 0)
    (hc : digitValue 10 c = none) (h46 : c ≠ 46) (h101 : c ≠ 101) (h69 : c ≠ 69) :
    parseNumber ((if negative then [45] else []) ++ ((d :: ds).map (fun x => x + 48) ++ c :: rest)) =
      some (scale10 (if negative then -(digitsToNat 10 (d :: ds) : ℤ)
        else (digitsToNat 10 (d :: ds) : ℤ)) 0, c :: rest) := by
  have htake := takeDigits_digits (d :: ds) c rest hds hc
  have hd : d < 10 := hds d (by simp)
  have hd45 : d + 48 ≠ 45 := by omega
  cases negative with
  | true =>
    simp only [if_true, List.singleton_append]
    unfold parseNumber
    simp only [htake]
    rcases hlead with rfl | hne
    · simp [h46, h101, h69]
    · cases ds with
      | nil => simp [h46, h101, h69]
      | cons e es => simp [h46, h101, h69, hne]
  | false =>
    simp only [Bool.false_eq_true, if_false, List.nil_append]
    unfold parseNumber
    cases ds with
    | nil =>
      simp only [List.map_cons, List.map_nil, List.nil_append, List.cons_append] at htake ⊢
      simp [hd45, htake, h46, h101, h69]
    | cons e es =>
      have hne : d ≠ 0 := by
        rcases hlead with h | h
        · cases h
        · exact h
      simp only [List.map_cons, List.cons_append] at htake ⊢
      simp [hd45, htake, h46, h101, h69, hne]

/-- The JSON number parser reads the text of an integer back, up to a
following character that cannot continue a number. -/
theorem parseNumber_intText (n : ℤ) (c : Nat) (rest : JsString)
    (hc : digitValue 10 c = none) (h46 : c ≠ 46) (h101 : c ≠ 101) (h69 : c ≠ 69) :
    parseNumber (intText n ++ c :: rest) = some ((n : ℚ), c :: rest) := by
  have hlt := natDigits_lt (n.natAbs + 1) n.natAbs
  have hval := natDigits_value (n.natAbs + 1) n.natAbs (by omega)
  have hlead := natDigits_lead n.natAbs
  obtain ⟨d, ds, hd⟩ : ∃ d ds, natDigits (n.natAbs + 1) n.natAbs = d :: ds := by
    cases hnd : natDigits (n.natAbs + 1) n.natAbs with
    | nil => rw [hnd] at hlead; simp at hlead
    | cons d ds => exact ⟨d, ds, rfl⟩
  rw [hd] at hlt hval hlead
  have hlead2 : ds = [] ∨ d ≠ 0 := by
    cases ds with
    | nil => exact Or.inl rfl
    | cons e es => exact Or.inr (by simpa using hlead)
  have key := parseNumber_digits (decide (n < 0)) d ds c rest hlt hlead2 hc h46 h101 h69
  rw [hval, scale10_zero] at key
  unfold intText
  rw [hd]
  by_cases hneg : n < 0
  · rw [if_pos hneg]
    simp only [hneg, decide_True, if_true, List.singleton_append] at key
    rw [List.cons_append, key]
    have hn : (-(n.natAbs : ℤ)) = n := by omega
    rw [hn]
  · rw [if_neg hneg]
    simp only [hneg, decide_False, Bool.false_eq_true, if_false, List.nil_append] at key
    rw [key]
    have hn : ((n.natAbs : ℤ)) = n := by omega
    rw [hn]

theorem intText_head (n : ℤ) :
    ∃ x xs, intText n = x :: xs ∧ (x = 45 ∨ (48 ≤ x ∧ x ≤ 57)) := by
  unfold intText
  by_cases hneg : n < 0
  · rw [if_pos hneg]
    exact ⟨45, _, rfl, Or.inl rfl⟩
  · rw [if_neg hneg]
    have hlt := natDigits_lt (n.natAbs + 1) n.natAbs
    have hlead := natDigits_lead n.natAbs
    cases hnd : natDigits (n.natAbs + 1) n.natAbs with
    | nil => rw [hnd] at hlead; simp at hlead
    | cons d ds =>
      have := hlt d (by rw [hnd]; simp)
      exact ⟨d + 48, _, rfl, Or.inr ⟨by omega, by omega⟩⟩

/-- The binary digits of a number: it is below the power of two of their
count, and not below the one before. -/
theorem bitLength_bounds (fuel n : Nat) (h : n ≤ fuel) (hn : 0 < n) :
    0 < bitLength fuel n ∧ 2 ^ (bitLength fuel n - 1) ≤ n ∧ n < 2 ^ bitLength fuel n := by
  induction fuel generalizing n with
  | zero => omega
  | succ fuel ih =>
    have hne : n ≠ 0 := by omega
    simp only [bitLength, hne, if_false]
    by_cases h2 : n / 2 = 0
    · have h1 : n = 1 := by omega
      subst h1
      cases fuel <;> simp [bitLength]
    · obtain ⟨h3, h4, h5⟩ := ih (n / 2) (by omega) (by omega)
      refine ⟨by omega, ?_, ?_⟩
      · have : bitLength fuel (n / 2) + 1 - 1 = (bitLength fuel (n / 2) - 1) + 1 := by omega
        rw [this, pow_succ]
        omega
      · rw [pow_succ]
        omega

/-- A whole number is its own nearest integer. -/
theorem roundHalfEven_one (n : Nat) : roundHalfEven n 1 = n := by
  simp [roundHalfEven, Nat.mod_one]

/-- A positive integer below `2 ^ 53` is a double. -/
theorem roundMagnitude_safe (a : Nat) (h0 : 0 < a) (h : a < 2 ^ 53) :
    roundMagnitude a 1 = some (a : ℚ) := by
  obtain ⟨hb0, hb1, hb2⟩ := bitLength_bounds a a (le_refl a) h0
  have hb53 : bitLength a a ≤ 53 := by
    by_contra hgt
    have : 2 ^ 53 ≤ 2 ^ (bitLength a a - 1) := Nat.pow_le_pow_right (by norm_num) (by omega)
    omega
  have h11 : bitLength 1 1 = 1 := by decide
  obtain ⟨b, hb⟩ : ∃ b, bitLength a a = b + 1 := ⟨bitLength a a - 1, by omega⟩
  have hk : ((bitLength a a : ℤ) - (bitLength 1 1 : ℤ)) = (b : ℤ) := by
    rw [h11, hb]; push_cast; ring
  have hb1' : 2 ^ b ≤ a := by rw [hb] at hb1; simpa using hb1
  unfold roundMagnitude
  simp only [hk, Int.toNat_ofNat]
  have hneg : (-(b : ℤ)).toNat = 0 := by omega
  simp only [hneg, pow_zero, mul_one, one_mul, hb1', if_true]
  have he : max ((b : ℤ) - 52) (-1074) = (b : ℤ) - 52 := by omega
  simp only [he]
  have he1 : ((b : ℤ) - 52).toNat = 0 := by omega
  have he2 : (-((b : ℤ) - 52)).toNat = 52 - b := by omega
  simp only [he1, he2, pow_zero, mul_one, roundHalfEven_one]
  have hno : ¬ (971 < (b : ℤ) - 52 ∨ ((b : ℤ) - 52 = 971 ∧ 2 ^ 53 ≤ a * 2 ^ (52 - b))) := by
    omega
  rw [if_neg hno]
  congr 1
  rw [Rat.mkRat_eq_div]
  push_cast
  field_simp

/-- An integer of magnitude below `2 ^ 53` parses to itself. -/
theorem numberValue_int (n : ℤ) (h : n.natAbs < 2 ^ 53) : numberValue (n : ℚ) = .num (n : ℚ) := by
  unfold numberValue
  by_cases h0 : (n : ℚ) = 0
  · simp [h0]
  · have hn0 : n ≠ 0 := by intro hz; apply h0; rw [hz]; rfl
    simp only [h0, if_false, Rat.num_intCast, Rat.den_intCast]
    rw [roundMagnitude_safe n.natAbs (by omega) h]
    by_cases hneg : n < 0
    · have hq : (n : ℚ) < 0 := by exact_mod_cast hneg
      have h1 : (n.natAbs : ℤ) = -n := by omega
      have h2 : (n.natAbs : ℚ) = -(n : ℚ) := by
        rw [← Int.cast_natCast, h1, Int.cast_neg]
      simp only [hq, if_true, h2, neg_neg]
    · have hq : ¬ (n : ℚ) < 0 := by
        intro hc; apply hneg; exact_mod_cast hc
      have h1 : (n.natAbs : ℤ) = n := by omega
      have h2 : (n.natAbs : ℚ) = (n : ℚ) := by
        rw [← Int.cast_natCast, h1]
      simp only [hq, if_false, h2]

theorem parseValue_intText (fuel : Nat) (n : ℤ) (c : Nat) (rest : JsString)
    (hc : digitValue 10 c = none) (h46 : c ≠ 46) (h101 : c ≠ 101) (h69 : c ≠ 69)
    (hsafe : n.natAbs < 2 ^ 53) :
    parseValue (fuel + 1) (intText n ++ c :: rest) = some (.num (n : ℚ), c :: rest) := by
  have hnum := parseNumber_intText n c rest hc h46 h101 h69
  obtain ⟨x, xs, hx, hrange⟩ := intText_head n
  rw [hx, List.cons_append] at hnum ⊢
  have hws : ¬ (x = 32 ∨ x = 9 ∨ x = 10 ∨ x = 13) := by omega
  rw [parseValue]
  simp only [skipWs, hws, if_false]
  have h1 : x ≠ 123 := by omega
  have h2 : x ≠ 91 := by omega
  have h3 : x ≠ 34 := by omega
  have h4 : x ≠ 116 := by omega
  have h5 : x ≠ 102 := by omega
  have h6 : x ≠ 110 := by omega
  simp only [h1, h2, h3, h4, h5, h6, if_false, hnum, numberValue_int n hsafe]

theorem parseValue_jsonQuote (fuel : Nat) (s rest : JsString) (hs : ∀ u ∈ s, u < 65536) :
    parseValue (fuel + 1) (jsonQuote s ++ rest) = some (.str s, rest) := by
  have hbody := parseStringBody_escaped s hs rest
  unfold jsonQuote
  rw [List.cons_append, List.append_assoc, List.singleton_append, parseValue]
  simp [skipWs, hbody]

theorem parseMembers_more (fuel : Nat) (key vtext more after : JsString) (v : JsVal)
    (members : List (JsString × JsVal)) (hkey : ∀ u ∈ key, u < 65536)
    (hv : parseValue fuel vtext = some (v, 44 :: more))
    (hm : parseMembers fuel more = some (members, after)) :
    parseMembers (fuel + 1) (jsonQuote key ++ 58 :: vtext) = some ((key, v) :: members, after) := by
  have hbody := parseStringBody_escaped key hkey (58 :: vtext)
  unfold jsonQuote
  rw [List.cons_append, List.append_assoc, List.singleton_append, parseMembers]
  simp [skipWs, hbody, hv, hm]

theorem parseMembers_last (fuel : Nat) (key vtext after : JsString) (v : JsVal)
    (hkey : ∀ u ∈ key, u < 65536)
    (hv : parseValue fuel vtext = some (v, 125 :: after)) :
    parseMembers (fuel + 1) (jsonQuote key ++ 58 :: vtext) = some ([(key, v)], after) := by
  have hbody := parseStringBody_escaped key hkey (58 :: vtext)
  unfold jsonQuote
  rw [List.cons_append, List.append_assoc, List.singleton_append, parseMembers]
  simp [skipWs, hbody, hv]

theorem parseValue_object (fuel : Nat) (key rest after : JsString)
    (members : List (JsString × JsVal))
    (hm : parseMembers fuel (jsonQuote key ++ rest) = some (members, after)) :
    parseValue (fuel + 1) (123 :: (jsonQuote key ++ rest)) = some (.obj members, after) := by
  unfold jsonQuote at hm ⊢
  rw [List.cons_append, List.append_assoc, List.singleton_append] at hm ⊢
  rw [parseValue]
  simp [skipWs, hm]

theorem Claims.text_eq (c : Claims) :
    c.text = 123 :: (jsonQuote (lit "user_id") ++ 58 ::
      ((match c.user_id with
        | .number n => intText n
        | .text s => jsonQuote s) ++ 44 ::
      (jsonQuote (lit "role") ++ 58 :: (jsonQuote c.role ++ 44 ::
      (jsonQuote (lit "exp") ++ 58 :: (intText c.exp ++ [125])))))) := by
  have h1 : lit "\x7b\"user_id\":" = 123 :: (jsonQuote (lit "user_id") ++ [58]) := by decide
  have h2 : lit ",\"role\":" = 44 :: (jsonQuote (lit "role") ++ [58]) := by decide
  have h3 : lit ",\"exp\":" = 44 :: (jsonQuote (lit "exp") ++ [58]) := by decide
  have h4 : lit "\x7d" = [125] := by decide
  unfold Claims.text
  rw [h1, h2, h3, h4]
  simp only [List.cons_append, List.append_assoc, List.singleton_append, List.nil_append]

/-- The JSON parser reads the text of the claims back as their value, when
their integers are of magnitude below `2 ^ 53`. -/
theorem jsonParse_claims (c : Claims)
    (hid : ∀ s, c.user_id = .text s → ∀ u ∈ s, u < 65536) (hrole : ∀ u ∈ c.role, u < 65536)
    (hnum : ∀ n, c.user_id = .number n → n.natAbs < 2 ^ 53) (hexpSafe : c.exp.natAbs < 2 ^ 53) :
    jsonParse c.text = .ok c.toValue := by
  have hfuel : ∃ fuel, 2 * c.text.length + 2 = fuel + 5 := by
    refine ⟨2 * c.text.length - 3, ?_⟩
    have : 2 ≤ c.text.length := by
      rw [Claims.text_eq]
      unfold jsonQuote
      simp only [List.length_cons, List.length_append]
      omega
    omega
  obtain ⟨fuel, hfuel⟩ := hfuel
  unfold jsonParse
  rw [hfuel]
  have hexp : parseValue (fuel + 1) (intText c.exp ++ [125]) =
      some (.num (c.exp : ℚ), [125]) :=
    parseValue_intText fuel c.exp 125 [] (by decide) (by decide) (by decide) (by decide) hexpSafe
  have hm3 := parseMembers_last (fuel + 1) (lit "exp") (intText c.exp ++ [125]) [] _
    (by decide) hexp
  have hr : parseValue (fuel + 2) (jsonQuote c.role ++ 44 ::
      (jsonQuote (lit "exp") ++ 58 :: (intText c.exp ++ [125]))) = some (.str c.role, _) :=
    parseValue_jsonQuote (fuel + 1) c.role _ hrole
  have hm2 := parseMembers_more (fuel + 2) (lit "role") _ _ [] _ _ (by decide) hr hm3
  have hs : parseValue (fuel + 3) ((match c.user_id with
        | .number n => intText n
        | .text s => jsonQuote s) ++ 44 ::
      (jsonQuote (lit "role") ++ 58 :: (jsonQuote c.role ++ 44 ::
      (jsonQuote (lit "exp") ++ 58 :: (intText c.exp ++ [125]))))) =
      some ((match c.user_id with
        | .number n => JsVal.num (n : ℚ)
        | .text s => JsVal.str s), 44 ::
      (jsonQuote (lit "role") ++ 58 :: (jsonQuote c.role ++ 44 ::
      (jsonQuote (lit "exp") ++ 58 :: (intText c.exp ++ [125]))))) := by
    cases hcase : c.user_id with
    | number n =>
      exact parseValue_intText (fuel + 2) n 44 _ (by decide) (by decide) (by decide) (by decide)
        (hnum n hcase)
    | text s => exact parseValue_jsonQuote (fuel + 2) s _ (hid s hcase)
  have hm1 := parseMembers_more (fuel + 3) (lit "user_id") _ _ [] _ _ (by decide) hs hm2
  have hv := parseValue_object (fuel + 4) (lit "user_id") _ [] _ hm1
  rw [Claims.text_eq, hv]
  rfl

theorem hexDigit_lt (d : Nat) (h : d < 16) : hexDigit d < 128 := by
  unfold hexDigit
  split <;> omega

theorem escapeUnit_bytes (u : Nat) : ∀ b ∈ escapeUnit u, b < 128 := by
  intro b hb
  unfold escapeUnit at hb
  split at hb
  · simp only [List.mem_cons, List.mem_singleton, List.not_mem_nil, or_false] at hb
    omega
  · split at hb
    · simp only [List.mem_cons, List.mem_singleton, List.not_mem_nil, or_false] at hb
      omega
    · split at hb
      · have h1 := hexDigit_lt (u / 4096 % 16) (by omega)
        have h2 := hexDigit_lt (u / 256 % 16) (by omega)
        have h3 := hexDigit_lt (u / 16 % 16) (by omega)
        have h4 := hexDigit_lt (u % 16) (by omega)
        simp only [List.mem_cons, List.mem_singleton, List.not_mem_nil, or_false] at hb
        rcases hb with hb | hb | hb | hb | hb | hb <;> omega
      · simp only [List.mem_singleton] at hb
        omega

theorem jsonQuote_bytes (s : JsString) : ∀ b ∈ jsonQuote s, b < 128 := by
  intro b hb
  unfold jsonQuote at hb
  simp only [List.mem_cons, List.mem_append, List.mem_flatMap, List.mem_singleton,
    List.not_mem_nil, or_false] at hb
  rcases hb with hb | ⟨u, _, hu⟩ | hb
  · omega
  · exact escapeUnit_bytes u b hu
  · omega

theorem intText_bytes (n : ℤ) : ∀ b ∈ intText n, b < 128 := by
  intro b hb
  have hlt := natDigits_lt (n.natAbs + 1) n.natAbs
  unfold intText at hb
  split at hb
  · simp only [List.mem_cons, List.mem_map] at hb
    rcases hb with hb | ⟨d, hd, rfl⟩
    · omega
    · have := hlt d hd
      omega
  · simp only [List.mem_map] at hb
    obtain ⟨d, hd, rfl⟩ := hb
    have := hlt d hd
    omega

theorem Claims.text_bytes (c : Claims) : ∀ b ∈ c.text, b < 256 := by
  intro b hb
  rw [Claims.text_eq] at hb
  have hq1 := jsonQuote_bytes (lit "user_id") b
  have hq2 := jsonQuote_bytes (lit "role") b
  have hq3 := jsonQuote_bytes (lit "exp") b
  have hq4 := jsonQuote_bytes c.role b
  have hi := intText_bytes c.exp b
  have hsub : b ∈ (match c.user_id with
      | .number n => intText n
      | .text s => jsonQuote s) → b < 128 := by
    cases c.user_id with
    | number n => exact intText_bytes n b
    | text s => exact jsonQuote_bytes s b
  simp only [List.mem_cons, List.mem_append, List.mem_singleton, List.not_mem_nil, or_false] at hb
  rcases hb with hb | hb | hb | hb | hb | hb | hb | hb | hb | hb | hb | hb | hb | hb
  · omega
  · exact Nat.lt_trans (hq1 hb) (by omega)
  · omega
  · exact Nat.lt_trans (hsub hb) (by omega)
  · omega
  · exact Nat.lt_trans (hq2 hb) (by omega)
  · omega
  · exact Nat.lt_trans (hq4 hb) (by omega)
  · omega
  · exact Nat.lt_trans (hq3 hb) (by omega)
  · omega
  · exact Nat.lt_trans (hi hb) (by omega)
  · omega

/-- The expression every session check evaluates, on a token the encoder of the
server built from claims. -/
theorem decodePayload_claims_token (c : Claims) (urlSafe pad : Bool)
    (header signature : JsString)
    (hheader : 46 ∉ header) (hid : ∀ s, c.user_id = .text s → ∀ u ∈ s, u < 65536)
    (hrole : ∀ u ∈ c.role, u < 65536)
    (hnum : ∀ n, c.user_id = .number n → n.natAbs < 2 ^ 53) (hexpSafe : c.exp.natAbs < 2 ^ 53)
    (hsafe : urlSafe = true → ∀ v ∈ encodeBytes c.text, v < 62) :
    decodePayload (c.token urlSafe pad header signature) = .ok c.toValue :=
  (decodePayload_ok_iff _ _).2 ⟨base64Encode urlSafe pad c.text, c.text,
    splitOn_middle header _ signature hheader (base64Encode_no_dot urlSafe pad c.text),
    atob_base64Encode urlSafe pad c.text c.text_bytes hsafe,
    jsonParse_claims c hid hrole hnum hexpSafe⟩

/-- The expression every session check evaluates throws on a token in the
URL-safe alphabet whose claims segment has one of the characters "-" and "_". -/
theorem decodePayload_urlSafe_token (c : Claims) (pad : Bool) (header signature : JsString)
    (hheader : 46 ∉ header) (h : ∃ v ∈ encodeBytes c.text, 62 ≤ v) :
    decodePayload (c.token true pad header signature) = .error .invalidCharacter := by
  unfold decodePayload Claims.token
  rw [splitOn_middle header _ signature hheader (base64Encode_no_dot true pad c.text)]
  simp only [toStringOrUndefined, atob_base64Encode_urlSafe pad c.text h]
  rfl

/-- The session check of the Dashboard on a token whose claims decode and are
not expired: no redirect, the store is kept, and the role and the identity are
adopted where the hooks are still falsy. -/
theorem Dashboard.tokenEffect_of_claims (s : DashboardState) (token : JsString)
    (payload exp role userId : JsVal) (currentTime : ℤ)
    (hd : decodePayload token = .ok payload) (he : getProp payload (lit "exp") = .ok exp)
    (hlt : jsLt exp currentTime = false) (hr : getProp payload (lit "role") = .ok role)
    (hu : getProp payload (lit "user_id") = .ok userId) :
    (Dashboard.tokenEffect s (some token) currentTime).redirected = false ∧
    (Dashboard.tokenEffect s (some token) currentTime).store = some token ∧
    (Dashboard.tokenEffect s (some token) currentTime).state.role
      = (if truthy s.role then s.role else role) ∧
    (Dashboard.tokenEffect s (some token) currentTime).state.userId
      = (if truthy s.userId then s.userId else userId) := by
  cases token with
  | nil => rw [decodePayload_empty] at hd; cases hd
  | cons c cs =>
    simp only [Dashboard.tokenEffect, List.isEmpty_cons, Bool.false_eq_true, if_false, hd,
      bind, Except.bind, he, hlt, hr, hu, pure, Except.pure]
    by_cases h1 : truthy s.role = true <;> by_cases h2 : truthy s.userId = true <;>
      simp [h1, h2]

theorem idOnlyToken_decodes : decodePayload idOnlyToken = .ok idOnlyClaims := by rfl

theorem zeroIdToken_decodes : decodePayload zeroIdToken = .ok zeroIdClaims := by rfl

theorem strictEq_undefined_iff (a : JsVal) : strictEq a .undefined = true ↔ a = .undefined := by
  cases a <;> simp [strictEq]

/-- A delete button that is not disabled belongs to a record the policy lets
the caller delete. -/
theorem Dashboard.deleteButtons_allowed (s : DashboardState) (property : PropertyRecord)
    (h : property ∈ Dashboard.deleteButtons s) : Dashboard.canDeleteProperty s property = true := by
  unfold Dashboard.deleteButtons at h
  split at h
  · cases h
  · exact (List.mem_filter.1 h).2

/-- Marking the records of one id as verified and then keeping the unverified
records is the same as keeping the unverified records of any other id. -/
theorem filter_unverified_map_verified (id : ℤ) (l : List PropertyRecord) :
    (l.map (fun p => if p.id = id then { p with verified := true } else p)).filter
        (fun p => !p.verified) =
      (l.filter (fun p => !p.verified)).filter (fun p => p.id ≠ id) := by
  induction l with
  | nil => rfl
  | cons p ps ih =>
    by_cases hid : p.id = id
    · cases hv : p.verified <;> simp [List.filter_cons, hid, hv, ih]
    · cases hv : p.verified <;> simp [List.filter_cons, hid, hv, ih]

/-- The pending list of an admin's Dashboard is the unverified part of the
listed records after a fetch, and stays so when a record is verified or
deleted, or when a created record that is not verified is added. -/
theorem Dashboard.pending_list_steps (s : DashboardState)
    (data : Option (List PropertyRecord)) (newProperty : PropertyRecord) (serverOk : Bool)
    (hrole : s.role = .str (lit "admin")) :
    ((Dashboard.fetchPropertiesData s (.ok data)).unverifiedProperties =
      (Dashboard.fetchPropertiesData s (.ok data)).properties.filter (fun p => !p.verified)) ∧
    (s.unverifiedProperties = s.properties.filter (fun p => !p.verified) →
      (newProperty.verified = false →
        (Dashboard.handlePropertyCreated s newProperty).unverifiedProperties =
          (Dashboard.handlePropertyCreated s newProperty).properties.filter
            (fun p => !p.verified)) ∧
      ((Dashboard.handleVerifyConfirm s serverOk).unverifiedProperties =
        (Dashboard.handleVerifyConfirm s serverOk).properties.filter (fun p => !p.verified)) ∧
      ((Dashboard.handleDeleteConfirm s serverOk).unverifiedProperties =
        (Dashboard.handleDeleteConfirm s serverOk).properties.filter (fun p => !p.verified))) := by
  have h1 : strictEq s.role (.str (lit "admin")) = true := by rw [hrole]; decide
  refine ⟨?_, fun hinv => ⟨fun hnew => ?_, ?_, ?_⟩⟩
  · simp only [Dashboard.fetchPropertiesData, h1, if_true]
  · simp only [Dashboard.handlePropertyCreated, h1, if_true, hinv, List.filter_append]
    simp [List.filter_cons, hnew]
  · unfold Dashboard.handleVerifyConfirm
    cases hsel : s.selectedProperty with
    | none => exact hinv
    | some selected =>
      cases serverOk with
      | false => exact hinv
      | true =>
        simp only [if_true]
        rw [filter_unverified_map_verified, hinv]
  · unfold Dashboard.handleDeleteConfirm
    cases hsel : s.selectedProperty with
    | none => exact hinv
    | some selected =>
      cases serverOk with
      | false => exact hinv
      | true =>
        simp only [if_true]
        rw [hinv, List.filter_filter, List.filter_filter]
        congr 1
        funext p
        exact Bool.and_comm _ _

/-- What the visibility rule says of the hooks. -/
theorem Dashboard.listObeysRule_iff (s : DashboardState) :
    Dashboard.listObeysRule s = true ↔
      (s.role = .str (lit "seller") →
        ∀ p ∈ s.properties, strictEq p.seller_id s.userId = true) ∧
      (s.role = .str (lit "buyer") → ∀ p ∈ s.properties, p.verified = true) := by
  simp only [Dashboard.listObeysRule, Bool.and_eq_true, Bool.or_eq_true, Bool.not_eq_true',
    List.all_eq_true]
  constructor
  · rintro ⟨h1, h2⟩
    refine ⟨fun hs => ?_, fun hb => ?_⟩
    · rcases h1 with h1 | h1
      · rw [hs] at h1; exact absurd h1 (by decide)
      · exact h1
    · rcases h2 with h2 | h2
      · rw [hb] at h2; exact absurd h2 (by decide)
      · exact h2
  · rintro ⟨h1, h2⟩
    constructor
    · cases h : strictEq s.role (.str (lit "seller")) with
      | false => exact Or.inl rfl
      | true => exact Or.inr (h1 ((strictEq_str_iff _ _).1 h))
    · cases h : strictEq s.role (.str (lit "buyer")) with
      | false => exact Or.inl rfl
      | true => exact Or.inr (h2 ((strictEq_str_iff _ _).1 h))

/-- The fetch and the handlers of the Dashboard leave the role and the identity
as they are. -/
theorem Dashboard.handlers_keep_identity (s : DashboardState) (res : FetchResponse)
    (newProperty : PropertyRecord) (serverOk : Bool) :
    ((Dashboard.fetchPropertiesData s res).role = s.role ∧
      (Dashboard.fetchPropertiesData s res).userId = s.userId) ∧
    ((Dashboard.handlePropertyCreated s newProperty).role = s.role ∧
      (Dashboard.handlePropertyCreated s newProperty).userId = s.userId) ∧
    ((Dashboard.handleVerifyConfirm s serverOk).role = s.role ∧
      (Dashboard.handleVerifyConfirm s serverOk).userId = s.userId) ∧
    ((Dashboard.handleDeleteConfirm s serverOk).role = s.role ∧
      (Dashboard.handleDeleteConfirm s serverOk).userId = s.userId) := by
  refine ⟨?_, ?_, ?_, ?_⟩
  · cases res with
    | failed => exact ⟨rfl, rfl⟩
    | ok data =>
      simp only [Dashboard.fetchPropertiesData]
      split
      · exact ⟨rfl, rfl⟩
      · split <;> exact ⟨rfl, rfl⟩
  · simp only [Dashboard.handlePropertyCreated]
    split
    · exact ⟨rfl, rfl⟩
    · split <;> exact ⟨rfl, rfl⟩
  · simp only [Dashboard.handleVerifyConfirm]
    split
    · exact ⟨rfl, rfl⟩
    · split <;> exact ⟨rfl, rfl⟩
  · simp only [Dashboard.handleDeleteConfirm]
    split
    · exact ⟨rfl, rfl⟩
    · split <;> exact ⟨rfl, rfl⟩

/-- A record listed after handlePropertyCreated was listed before, or is the
created record, which a seller's Dashboard adds only when its seller_id is the
seller's identity and a buyer's Dashboard never adds. -/
theorem Dashboard.mem_handlePropertyCreated (s : DashboardState) (newProperty p : PropertyRecord)
    (h : p ∈ (Dashboard.handlePropertyCreated s newProperty).properties) :
    p ∈ s.properties ∨
      (p = newProperty ∧
        (strictEq s.role (.str (lit "admin")) = true ∨
          (strictEq s.role (.str (lit "seller")) = true ∧
            strictEq newProperty.seller_id s.userId = true))) := by
  simp only [Dashboard.handlePropertyCreated] at h
  split at h
  · rename_i ha
    rcases List.mem_append.1 h with h | h
    · exact Or.inl h
    · exact Or.inr ⟨List.mem_singleton.1 h, Or.inl ha⟩
  · split at h
    · rename_i hs
      rcases List.mem_append.1 h with h | h
      · exact Or.inl h
      · exact Or.inr ⟨List.mem_singleton.1 h, Or.inr (by simpa using hs)⟩
    · exact Or.inl h

/-- A record listed after handleVerifyConfirm is a record listed before, with
the same seller_id, and verified if it was. -/
theorem Dashboard.mem_handleVerifyConfirm (s : DashboardState) (serverOk : Bool)
    (p : PropertyRecord) (h : p ∈ (Dashboard.handleVerifyConfirm s serverOk).properties) :
    ∃ q ∈ s.properties, p.seller_id = q.seller_id ∧ (q.verified = true → p.verified = true) := by
  simp only [Dashboard.handleVerifyConfirm] at h
  split at h
  · exact ⟨p, h, rfl, id⟩
  · split at h
    · obtain ⟨q, hq, rfl⟩ := List.mem_map.1 h
      refine ⟨q, hq, ?_, ?_⟩
      · split <;> rfl
      · intro hv
        split
        · rfl
        · exact hv
    · exact ⟨p, h, rfl, id⟩

/-- A record listed after handleDeleteConfirm was listed before. -/
theorem Dashboard.mem_handleDeleteConfirm (s : DashboardState) (serverOk : Bool)
    (p : PropertyRecord) (h : p ∈ (Dashboard.handleDeleteConfirm s serverOk).properties) :
    p ∈ s.properties := by
  simp only [Dashboard.handleDeleteConfirm] at h
  split at h
  · exact h
  · split at h
    · exact (List.mem_filter.1 h).1
    · exact h

/-! ## The session functions of api.js -/

/-- C1: for every content of the token store and every current time,
isAuthenticated returns true exactly when a token is stored, its segment in
the middle position (index 1 of the split at the dots) decodes with atob and
parses as JSON, and the exp of the parsed value, converted to a number as the
operator of the source does, is positive infinity or a finite number strictly
greater than the current time; for a parsed exp that is a finite number q this
is the inequality now < q. In every other case isAuthenticated returns false,
and it never throws. -/
theorem isAuthenticated_iff_active (store : TokenStore) (currentTime : ℤ) :
    ((isAuthenticated store currentTime).result = .ok true ↔
      ∃ token segment bytes payload exp,
        store = some token ∧ (splitOn 46 token)[1]? = some segment ∧
        atob segment = .ok bytes ∧ jsonParse bytes = .ok payload ∧
        getProp payload (lit "exp") = .ok exp ∧
        (toNumber exp = .posInf ∨ ∃ q, toNumber exp = .fin q ∧ (currentTime : ℚ) < q)) ∧
    (∀ token payload q, store = some token → decodePayload token = .ok payload →
      getProp payload (lit "exp") = .ok (.num q) →
      ((isAuthenticated store currentTime).result = .ok true ↔ (currentTime : ℚ) < q)) ∧
    ((isAuthenticated store currentTime).result = .ok true ∨
      (isAuthenticated store currentTime).result = .ok false) := by
  cases store with
  | none =>
    refine ⟨⟨fun h => ?_, ?_⟩, fun token payload q h => ?_, Or.inr rfl⟩
    · cases h
    · rintro ⟨_, _, _, _, _, h, _⟩; cases h
    · cases h
  | some token =>
    have hnum : ∀ t payload q, some token = some t → decodePayload t = .ok payload →
        getProp payload (lit "exp") = .ok (.num q) →
        ((isAuthenticated (some token) currentTime).result = .ok true ↔
          (currentTime : ℚ) < q) := by
      intro t payload q h1 hd hg
      cases h1
      rw [isAuthenticated_of_exp token currentTime payload (.num q) hd hg]
      constructor
      · intro h
        have h2 : jsGt (.num q) currentTime = true := by simpa using h
        rcases (jsGt_iff _ _).1 h2 with h3 | ⟨q1, h3, h4⟩
        · cases h3
        · cases h3; exact h4
      · intro h
        rw [(jsGt_iff (.num q) currentTime).2 (Or.inr ⟨q, rfl, h⟩)]
    refine ⟨?_, hnum, ?_⟩
    · cases hd : decodePayload token with
      | error e =>
        rw [isAuthenticated_of_decode_error token currentTime e hd]
        refine ⟨fun h => ?_, ?_⟩
        · cases h
        · rintro ⟨t, seg, bytes, payload, exp, h1, h2, h3, h4, _⟩
          cases h1
          have := (decodePayload_ok_iff _ payload).2 ⟨seg, bytes, h2, h3, h4⟩
          rw [hd] at this; cases this
      | ok payload =>
        have huniq : ∀ t seg1 bytes1 payload1, some token = some t →
            (splitOn 46 t)[1]? = some seg1 → atob seg1 = .ok bytes1 →
            jsonParse bytes1 = .ok payload1 → payload1 = payload := by
          intro t seg1 bytes1 payload1 h1 h2 h3 h4
          cases h1
          have := (decodePayload_ok_iff _ payload1).2 ⟨seg1, bytes1, h2, h3, h4⟩
          rw [hd] at this; cases this; rfl
        obtain ⟨seg, bytes, h2, h3, h4⟩ := (decodePayload_ok_iff token payload).1 hd
        cases hg : getProp payload (lit "exp") with
        | error e =>
          rw [isAuthenticated_of_prop_error token currentTime payload e hd hg]
          refine ⟨fun h => ?_, ?_⟩
          · cases h
          · rintro ⟨t, seg1, bytes1, payload1, exp, h1, h21, h31, h41, h5, _⟩
            have := huniq t seg1 bytes1 payload1 h1 h21 h31 h41
            subst this
            rw [hg] at h5; cases h5
        | ok exp =>
          rw [isAuthenticated_of_exp token currentTime payload exp hd hg]
          refine ⟨fun h => ?_, ?_⟩
          · exact ⟨token, seg, bytes, payload, exp, rfl, h2, h3, h4, hg,
              (jsGt_iff _ _).1 (by simpa using h)⟩
          · rintro ⟨t, seg1, bytes1, payload1, exp1, h1, h21, h31, h41, h5, h6⟩
            have := huniq t seg1 bytes1 payload1 h1 h21 h31 h41
            subst this
            rw [hg] at h5; cases h5
            rw [(jsGt_iff _ _).2 h6]
    · cases hd : decodePayload token with
      | error e =>
        rw [isAuthenticated_of_decode_error token currentTime e hd]
        exact Or.inr rfl
      | ok payload =>
        cases hg : getProp payload (lit "exp") with
        | error e =>
          rw [isAuthenticated_of_prop_error token currentTime payload e hd hg]
          exact Or.inr rfl
        | ok exp =>
          rw [isAuthenticated_of_exp token currentTime payload exp hd hg]
          cases jsGt exp currentTime
          · exact Or.inr rfl
          · exact Or.inl rfl

theorem isAuthenticated_iff_active_witness :
    (isAuthenticated (some sellerToken) 1699999999).result = .ok true ∧
    (isAuthenticated (some sellerToken) 1700000000).result = .ok false ∧
    (isAuthenticated (some fractionToken) 1700000000).result = .ok false :=
  ⟨((isAuthenticated_iff_active (some sellerToken) 1699999999).2.1 sellerToken sellerClaims
      1700000000 rfl sellerToken_decodes sellerClaims_exp).2 (by decide),
    (isAuthenticated_iff_active (some sellerToken) 1700000000).2.2.resolve_left
      (fun h => absurd
        (((isAuthenticated_iff_active (some sellerToken) 1700000000).2.1 sellerToken sellerClaims
          1700000000 rfl sellerToken_decodes sellerClaims_exp).1 h) (by decide)),
    (isAuthenticated_iff_active (some fractionToken) 1700000000).2.2.resolve_left
      (fun h => absurd
        (((isAuthenticated_iff_active (some fractionToken) 1700000000).2.1 fractionToken
          sellerClaims 1700000000 rfl fractionToken_decodes sellerClaims_exp).1 h) (by decide))⟩

/-- C2, as stated, fails: the token of scenario 1 (exp ten seconds in the past)
is reported as not active, and the token store still holds it afterwards. -/
theorem isAuthenticated_expired_not_cleared :
    decodePayload sellerToken = .ok sellerClaims ∧
    getProp sellerClaims (lit "exp") = .ok (.num 1700000000) ∧
    (isAuthenticated (some sellerToken) 1700000010).result = .ok false ∧
    getToken (isAuthenticated (some sellerToken) 1700000010).store ≠ none := by
  refine ⟨sellerToken_decodes, sellerClaims_exp, ?_, ?_⟩
  · rw [isAuthenticated_of_exp sellerToken _ sellerClaims _ sellerToken_decodes sellerClaims_exp]
    decide
  · rw [isAuthenticated_store]
    intro h; cases h

/-- C2, amended: for every stored token whose claims carry a number exp that is
at most the current time, isAuthenticated returns false and leaves the token
store as it was, so that a subsequent getToken returns the same token. -/
theorem isAuthenticated_expired_keeps_token (token : JsString) (payload : JsVal) (q : ℚ)
    (currentTime : ℤ) (hd : decodePayload token = .ok payload)
    (hexp : getProp payload (lit "exp") = .ok (.num q)) (hle : q ≤ (currentTime : ℚ)) :
    (isAuthenticated (some token) currentTime).result = .ok false ∧
    getToken (isAuthenticated (some token) currentTime).store = some token := by
  refine ⟨?_, ?_⟩
  · rw [isAuthenticated_of_exp token currentTime payload _ hd hexp]
    simp only [jsGt, toNumber]
    rw [decide_eq_false (not_lt.mpr hle)]
  · rw [isAuthenticated_store]; rfl

theorem isAuthenticated_expired_keeps_token_witness :
    (isAuthenticated (some sellerToken) 1700000000).result = .ok false ∧
    getToken (isAuthenticated (some sellerToken) 1700000000).store = some sellerToken :=
  isAuthenticated_expired_keeps_token sellerToken sellerClaims 1700000000 1700000000
    sellerToken_decodes sellerClaims_exp (by norm_num)

/-- C3, as stated, fails: a token of two dot-separated segments whose second
segment holds unexpired claims is accepted by isAuthenticated, and getUserInfo
returns its claims instead of null. -/
theorem two_segment_token_accepted :
    (splitOn 46 twoSegmentToken).length = 2 ∧
    (isAuthenticated (some twoSegmentToken) 1699999999).result = .ok true ∧
    (getUserInfo (some twoSegmentToken)).result ≠ .ok .null := by
  refine ⟨by decide, ?_, ?_⟩
  · rw [isAuthenticated_of_exp twoSegmentToken _ sellerClaims _ twoSegmentToken_decodes
      sellerClaims_exp]
    decide
  · rw [getUserInfo_of_decode_ok twoSegmentToken sellerClaims twoSegmentToken_decodes]
    intro h; cases h

/-- C3, amended: for every stored token whose second dot-separated segment is
missing, is not decodable by atob, or decodes to a text that is not JSON,
isAuthenticated returns false and getUserInfo returns null, and neither call
throws; the number of segments is not checked. -/
theorem malformed_token_rejected (token : JsString) (currentTime : ℤ)
    (h : (splitOn 46 token)[1]? = none ∨
      (∃ segment e, (splitOn 46 token)[1]? = some segment ∧ atob segment = .error e) ∨
      (∃ segment bytes e, (splitOn 46 token)[1]? = some segment ∧ atob segment = .ok bytes ∧
        jsonParse bytes = .error e)) :
    (isAuthenticated (some token) currentTime).result = .ok false ∧
    (getUserInfo (some token)).result = .ok .null := by
  have hd : ∃ e, decodePayload token = .error e := by
    cases hr : decodePayload token with
    | error e => exact ⟨e, rfl⟩
    | ok payload =>
      obtain ⟨seg, bytes, h1, h2, h3⟩ := (decodePayload_ok_iff token payload).1 hr
      rcases h with h | ⟨seg', e, h1', h2'⟩ | ⟨seg', bytes', e, h1', h2', h3'⟩
      · rw [h] at h1; cases h1
      · rw [h1] at h1'; cases h1'
        rw [h2] at h2'; cases h2'
      · rw [h1] at h1'; cases h1'
        rw [h2] at h2'; cases h2'
        rw [h3] at h3'; cases h3'
  obtain ⟨e, hd⟩ := hd
  exact ⟨isAuthenticated_of_decode_error token currentTime e hd,
    getUserInfo_of_decode_error token e hd⟩

theorem malformed_token_rejected_witness :
    (isAuthenticated (some notJsonToken) 0).result = .ok false ∧
    (getUserInfo (some notJsonToken)).result = .ok .null :=
  malformed_token_rejected notJsonToken 0
    (Or.inr (Or.inr ⟨lit "YWJj", lit "abc", .syntaxError, by decide, by decide, by rfl⟩))

/-! ## Visibility of records -/

/-- C4: for role seller with identity i and every fetched list, the list the
Dashboard displays and the list the Properties screen displays are the fetched
records whose seller_id is strictly equal to i, in their order, whatever their
verified flag; for an identity that is a number or a string a record is
displayed exactly when it was fetched and its seller_id is i. -/
theorem seller_sees_exactly_own_records (s : DashboardState) (st : PropertiesState)
    (token : JsString) (payload exp i : JsVal) (currentTime : ℤ)
    (data : Option (List PropertyRecord))
    (hrole : s.role = .str (lit "seller")) (hid : s.userId = i)
    (hd : decodePayload token = .ok payload) (he : getProp payload (lit "exp") = .ok exp)
    (hlt : jsLt exp currentTime = false)
    (hr : getProp payload (lit "role") = .ok (.str (lit "seller")))
    (hu : getProp payload (lit "user_id") = .ok i) :
    (Dashboard.fetchPropertiesData s (.ok data)).properties =
      (propertiesOrEmpty data).filter (fun p => strictEq p.seller_id i) ∧
    (Properties.fetchPropertiesData st (some token) currentTime (.ok data)).1.properties =
      (propertiesOrEmpty data).filter (fun p => strictEq p.seller_id i) ∧
    (((∃ q, i = .num q) ∨ (∃ t, i = .str t)) →
      ∀ p, p ∈ (propertiesOrEmpty data).filter (fun p => strictEq p.seller_id i) ↔
        p ∈ propertiesOrEmpty data ∧ p.seller_id = i) := by
  refine ⟨?_, ?_, ?_⟩
  · rw [Dashboard.fetch_seller s data hrole, hid]
  · rw [Properties.fetch_of_claims st token payload exp _ i currentTime data hd he hlt hr hu]
    have h1 : strictEq (.str (lit "seller")) (.str (lit "admin")) = false := by decide
    have h2 : strictEq (.str (lit "seller")) (.str (lit "seller")) = true := by decide
    simp only [h1, h2, if_true, Bool.false_eq_true, if_false]
  · intro hi p
    rw [List.mem_filter, strictEq_primitive_iff _ _ hi]

theorem seller_sees_exactly_own_records_witness :
    (Dashboard.fetchPropertiesData (dashboardOf "seller" 5) (.ok (some [record1, record2]))).properties
      = [record1] ∧
    (Properties.fetchPropertiesData Properties.initial (some sellerToken) 1699999999
      (.ok (some [record1, record2]))).1.properties = [record1] :=
  have h := seller_sees_exactly_own_records (dashboardOf "seller" 5) Properties.initial sellerToken
    sellerClaims (.num 1700000000) (.num 5) 1699999999 (some [record1, record2]) rfl rfl
    sellerToken_decodes sellerClaims_exp (by decide) (by rfl) (by rfl)
  ⟨h.1, h.2.1⟩

/-- C5: for role buyer, and when no token is stored, and for every fetched
list, the displayed list is the fetched records whose verified flag is true, in
their order: on the Dashboard for role buyer, on the Properties screen for an
unexpired token of role buyer and for an empty token store. -/
theorem buyer_and_guest_see_exactly_verified (s : DashboardState) (st : PropertiesState)
    (token : JsString) (payload exp userId : JsVal) (currentTime : ℤ)
    (data : Option (List PropertyRecord))
    (hrole : s.role = .str (lit "buyer"))
    (hd : decodePayload token = .ok payload) (he : getProp payload (lit "exp") = .ok exp)
    (hlt : jsLt exp currentTime = false)
    (hr : getProp payload (lit "role") = .ok (.str (lit "buyer")))
    (hu : getProp payload (lit "user_id") = .ok userId) :
    (Dashboard.fetchPropertiesData s (.ok data)).properties =
      (propertiesOrEmpty data).filter (fun p => p.verified) ∧
    (Properties.fetchPropertiesData st (some token) currentTime (.ok data)).1.properties =
      (propertiesOrEmpty data).filter (fun p => p.verified) ∧
    (Properties.fetchPropertiesData st none currentTime (.ok data)).1.properties =
      (propertiesOrEmpty data).filter (fun p => p.verified) ∧
    (∀ p, p ∈ (propertiesOrEmpty data).filter (fun p => p.verified) ↔
      p ∈ propertiesOrEmpty data ∧ p.verified = true) := by
  have h1 : strictEq (.str (lit "buyer")) (.str (lit "admin")) = false := by decide
  have h2 : strictEq (.str (lit "buyer")) (.str (lit "seller")) = false := by decide
  refine ⟨?_, ?_, Properties.fetch_guest st currentTime data, ?_⟩
  · exact Dashboard.fetch_other s data (by rw [hrole]; exact h1) (by rw [hrole]; exact h2)
  · rw [Properties.fetch_of_claims st token payload exp _ userId currentTime data hd he hlt hr hu]
    simp only [h1, h2, Bool.false_eq_true, if_false]
  · intro p
    rw [List.mem_filter]

theorem buyer_and_guest_see_exactly_verified_witness :
    (Dashboard.fetchPropertiesData (dashboardOf "buyer" 7) (.ok (some [record1, record2]))).properties
      = [record2] ∧
    (Properties.fetchPropertiesData Properties.initial (some buyerToken) 1699999999
      (.ok (some [record1, record2]))).1.properties = [record2] ∧
    (Properties.fetchPropertiesData Properties.initial none 1699999999
      (.ok (some [record1, record2]))).1.properties = [record2] :=
  have h := buyer_and_guest_see_exactly_verified (dashboardOf "buyer" 7) Properties.initial
    buyerToken buyerClaims (.num 1700000000) (.num 7) 1699999999 (some [record1, record2]) rfl
    buyerToken_decodes (by rfl) (by decide) (by rfl) (by rfl)
  ⟨h.1, h.2.1, h.2.2.1⟩

/-- C6: for role admin and every fetched list, the displayed list is the whole
fetched list, on the Dashboard and on the Properties screen. -/
theorem admin_sees_all_records (s : DashboardState) (st : PropertiesState)
    (token : JsString) (payload exp userId : JsVal) (currentTime : ℤ)
    (data : Option (List PropertyRecord))
    (hrole : s.role = .str (lit "admin"))
    (hd : decodePayload token = .ok payload) (he : getProp payload (lit "exp") = .ok exp)
    (hlt : jsLt exp currentTime = false)
    (hr : getProp payload (lit "role") = .ok (.str (lit "admin")))
    (hu : getProp payload (lit "user_id") = .ok userId) :
    (Dashboard.fetchPropertiesData s (.ok data)).properties = propertiesOrEmpty data ∧
    (Properties.fetchPropertiesData st (some token) currentTime (.ok data)).1.properties =
      propertiesOrEmpty data := by
  refine ⟨Dashboard.fetch_admin s data hrole, ?_⟩
  rw [Properties.fetch_of_claims st token payload exp _ userId currentTime data hd he hlt hr hu]
  have h1 : strictEq (.str (lit "admin")) (.str (lit "admin")) = true := by decide
  simp only [h1, if_true]

theorem admin_sees_all_records_witness :
    (Dashboard.fetchPropertiesData (dashboardOf "admin" 1) (.ok (some [record1, record2]))).properties
      = [record1, record2] ∧
    (Properties.fetchPropertiesData Properties.initial (some adminToken) 1699999999
      (.ok (some [record1, record2]))).1.properties = [record1, record2] :=
  admin_sees_all_records (dashboardOf "admin" 1) Properties.initial adminToken adminClaims
    (.num 1700000000) (.num 1) 1699999999 (some [record1, record2]) rfl adminToken_decodes
    (by rfl) (by decide) (by rfl) (by rfl)

/-- C7: the list the Dashboard displays after a fetch depends on the role, the
identity and the fetched records only, not on the other hooks, and fetching a
permutation of the records displays a permutation of the list. -/
theorem visible_records_order_independent (s s' : DashboardState)
    (records records' : List PropertyRecord)
    (hrole : s.role = s'.role) (hid : s.userId = s'.userId) (hperm : records.Perm records') :
    (Dashboard.fetchPropertiesData s (.ok (some records))).properties =
      (Dashboard.fetchPropertiesData s' (.ok (some records))).properties ∧
    ((Dashboard.fetchPropertiesData s (.ok (some records))).properties).Perm
      ((Dashboard.fetchPropertiesData s (.ok (some records'))).properties) := by
  constructor
  · simp only [Dashboard.fetchPropertiesData, hrole, hid]
    split
    · rfl
    · split <;> rfl
  · simp only [Dashboard.fetchPropertiesData, propertiesOrEmpty]
    split
    · exact hperm
    · split
      · exact hperm.filter _
      · exact hperm.filter _

theorem visible_records_order_independent_witness :
    (Dashboard.fetchPropertiesData (dashboardOf "seller" 5) (.ok (some [record1, record2]))).properties
      = (Dashboard.fetchPropertiesData sellerSession (.ok (some [record1, record2]))).properties ∧
    ((Dashboard.fetchPropertiesData (dashboardOf "seller" 5)
        (.ok (some [record1, record2]))).properties).Perm
      ((Dashboard.fetchPropertiesData (dashboardOf "seller" 5)
        (.ok (some [record2, record1]))).properties) :=
  visible_records_order_independent (dashboardOf "seller" 5) sellerSession [record1, record2]
    [record2, record1] rfl rfl (List.Perm.swap record2 record1 [])

/-! ## Permitted actions -/

/-- C8: canDeleteProperty of the Dashboard is true for role admin on every
record, for role seller it is the strict equality of the record's seller_id and
the seller's identity, and for role buyer it is false on every record. -/
theorem canDeleteProperty_by_role (s : DashboardState) (property : PropertyRecord) :
    (s.role = .str (lit "admin") → Dashboard.canDeleteProperty s property = true) ∧
    (s.role = .str (lit "seller") →
      Dashboard.canDeleteProperty s property = strictEq property.seller_id s.userId) ∧
    (s.role = .str (lit "buyer") → Dashboard.canDeleteProperty s property = false) := by
  refine ⟨fun h => ?_, fun h => ?_, fun h => ?_⟩
  · have h1 : strictEq s.role (.str (lit "admin")) = true := by rw [h]; decide
    simp only [Dashboard.canDeleteProperty, h1, Bool.true_or]
  · have h1 : strictEq s.role (.str (lit "admin")) = false := by rw [h]; decide
    have h2 : strictEq s.role (.str (lit "seller")) = true := by rw [h]; decide
    simp only [Dashboard.canDeleteProperty, h1, h2, Bool.false_or, Bool.true_and]
  · have h1 : strictEq s.role (.str (lit "admin")) = false := by rw [h]; decide
    have h2 : strictEq s.role (.str (lit "seller")) = false := by rw [h]; decide
    simp only [Dashboard.canDeleteProperty, h1, h2, Bool.false_or, Bool.false_and]

theorem canDeleteProperty_by_role_witness :
    Dashboard.canDeleteProperty (dashboardOf "admin" 1) record2 = true ∧
    Dashboard.canDeleteProperty (dashboardOf "seller" 5) record1 = true ∧
    Dashboard.canDeleteProperty (dashboardOf "seller" 5) record2 = false ∧
    Dashboard.canDeleteProperty (dashboardOf "buyer" 7) record2 = false :=
  ⟨(canDeleteProperty_by_role (dashboardOf "admin" 1) record2).1 rfl,
    (canDeleteProperty_by_role (dashboardOf "seller" 5) record1).2.1 rfl,
    (canDeleteProperty_by_role (dashboardOf "seller" 5) record2).2.1 rfl,
    (canDeleteProperty_by_role (dashboardOf "buyer" 7) record2).2.2 rfl⟩

/-- C9, at the failing input: on the property detail screen a seller whose
token carries identity 5 can neither edit nor delete the record whose seller_id
is 5, while canDeleteProperty of the Dashboard permits the same seller to
delete the same record. -/
theorem propertyDetail_owner_denied :
    PropertyDetail.userRole (some sellerToken) = .str (lit "seller") ∧
    (decodePayload sellerToken >>= fun payload => getProp payload (lit "user_id")) = .ok (.num 5) ∧
    record1.seller_id = .num 5 ∧
    PropertyDetail.canEdit (some record1) (PropertyDetail.userRole (some sellerToken)) = false ∧
    PropertyDetail.canDelete (some record1) (PropertyDetail.userRole (some sellerToken)) = false ∧
    Dashboard.canDeleteProperty (dashboardOf "seller" 5) record1 = true := by
  refine ⟨by rfl, by rfl, rfl, by rfl, by rfl, by rfl⟩

/-- C10: for every role other than admin the rendered Dashboard shows no Verify
button, for any record, in the card of pending records or in the card of
listed records; and in every state the Dashboard reaches from its initial hooks
with such a role the Verify dialog is closed. -/
theorem verify_offered_to_admin_only (s : DashboardState)
    (hrole : s.role ≠ .str (lit "admin")) :
    Dashboard.verifyButtons s = [] ∧
    (∀ events, Dashboard.run Dashboard.initial events = some s → s.openVerifyDialog = false) := by
  have hne : strictEq s.role (.str (lit "admin")) = false := by
    cases h : strictEq s.role (.str (lit "admin")) with
    | false => rfl
    | true => exact absurd ((strictEq_str_iff _ _).1 h) hrole
  refine ⟨Dashboard.verifyButtons_nil s hne, fun events hrun => ?_⟩
  cases ho : s.openVerifyDialog with
  | false => rfl
  | true =>
    have := Dashboard.run_dialog events Dashboard.initial s hrun (fun h => by cases h) ho
    rw [hne] at this
    cases this

theorem verify_offered_to_admin_only_witness :
    Dashboard.verifyButtons sellerSession = [] ∧ sellerSession.openVerifyDialog = false :=
  have h := verify_offered_to_admin_only sellerSession (fun h => by cases h)
  ⟨h.1, h.2 sellerSessionEvents sellerSession_reached⟩

/-! ## The request pipeline -/

/-- C11, as stated, fails: two requests that both receive a 401 before any
renewal completes put two POST /refresh calls on the wire, and after the two
renewals answer with different tokens the two requests are replayed with
different tokens, the first of which is no longer the stored one. -/
theorem two_unauthorized_two_renewals :
    (((ApiState.initial (some (lit "old"))).run
        [.request 0 getProperties, .request 1 getUsers,
          .respond 0 unauthorized, .respond 0 unauthorized]).map
      (fun s => (s.sent.filter (fun c => c.url = lit "/refresh")).length) = some 2) ∧
    (((ApiState.initial (some (lit "old"))).run
        [.request 0 getProperties, .request 1 getUsers,
          .respond 0 unauthorized, .respond 0 unauthorized,
          .respond 0 (renewed "t1"), .respond 0 (renewed "t2")]).map
      (fun s => ((s.sent.drop 4).map (fun c => (c.url, lookupHeader (lit "Authorization") c.headers)),
        s.store)) =
      some ([(lit "/properties", some (lit "Bearer t1")), (lit "/users", some (lit "Bearer t2"))],
        some (lit "t2"))) := by
  constructor <;> decide

/-- C11, amended: for every N requests in flight, none of them retried, that
each receive a 401 before any renewal completes, in whatever order the 401
responses arrive, the response interceptor puts one POST /refresh call per
request on the wire, N in total, each handler waiting for its own call; and in
whatever order the renewal calls are then answered, each with a token, each
request is replayed once, marked retried, with the token of its own renewal
call in the header Authorization; the token store ends with the token of the
renewal that was answered last. -/
theorem each_unauthorized_request_renews (s : ApiState) (ps qs : List Nat)
    (tokens : List JsString) (first second : List ApiCall)
    (hnew : ∀ c ∈ s.inflight, c.config._retry = false)
    (hps : ps.length = s.inflight.length) (hfirst : takeInOrder s.inflight ps = some first)
    (hqs : qs.length = s.inflight.length) (hsecond : takeInOrder first qs = some second)
    (hlen : tokens.length = s.inflight.length) :
    ∃ s1 s2,
      s.run (ps.map (fun p => .respond p unauthorized)) = some s1 ∧
      s1.sent = s.sent ++ List.replicate s.inflight.length (refreshCall s.store) ∧
      (refreshCall s.store).url = lit "/refresh" ∧ (refreshCall s.store).method = lit "post" ∧
      s1.inflight = first.map (fun c =>
        ⟨c.caller, refreshCall s.store, { c.config with _retry := true } :: c.awaiting⟩) ∧
      first.Perm s.inflight ∧
      s1.run (List.zipWith (fun q t => .respond q { status := some 200, token := some t })
        qs tokens) = some s2 ∧
      s2.sent = s1.sent ++ List.zipWith
        (fun c t => replayedRequest { c.config with _retry := true } t) second tokens ∧
      second.Perm s.inflight ∧
      s2.store = tokens.foldl (fun _ t => some t) s.store ∧
      (∀ earlier last, tokens = earlier ++ [last] → s2.store = some last) ∧
      (∀ (c : ApiCall) (t : JsString),
        lookupHeader (lit "Authorization")
            (replayedRequest { c.config with _retry := true } t).headers
          = some (lit "Bearer " ++ t) ∧
        (replayedRequest { c.config with _retry := true } t).url = c.config.url ∧
        (replayedRequest { c.config with _retry := true } t).method = c.config.method ∧
        (replayedRequest { c.config with _retry := true } t)._retry = true) := by
  have hperm1 := takeInOrder_perm s.inflight ps first hfirst hps
  have hlen1 : first.length = s.inflight.length := hperm1.length_eq
  have hperm2 := (takeInOrder_perm first qs second hsecond (by rw [hqs, hlen1])).trans hperm1
  have hleft1 : ps.foldl List.eraseIdx s.inflight = [] :=
    takeInOrder_rest s.inflight ps first hfirst hps
  have hleft2 : qs.foldl List.eraseIdx first = [] :=
    takeInOrder_rest first qs second hsecond (by rw [hqs, hlen1])
  have h1 := ApiState.run_unauthorized_order ps s.inflight s [] first (by simp) hnew hfirst
  rw [hleft1, hps] at h1
  have h2 := ApiState.run_renewed_order qs tokens first
    { s with
      sent := s.sent ++ List.replicate s.inflight.length (refreshCall s.store)
      inflight := [] ++ [] ++ first.map (fun c =>
        ⟨c.caller, refreshCall s.store, { c.config with _retry := true } :: c.awaiting⟩) }
    [] second (refreshCall s.store) (by rw [hlen, hqs]) (by simp) hsecond
  rw [hleft2] at h2
  refine ⟨_, _, h1, rfl, (refreshCall_fields s.store).1, (refreshCall_fields s.store).2.1,
    by simp, hperm1, h2, rfl, hperm2, rfl, ?_, ?_⟩
  · intro earlier last ht
    show tokens.foldl (fun _ t => some t) s.store = some last
    rw [ht, List.foldl_append]
    rfl
  · intro c t
    obtain ⟨hm, hu, _, hr⟩ := replayedRequest_fields { c.config with _retry := true } t
    exact ⟨replayedRequest_authorization _ t, hu, hm, hr⟩

theorem each_unauthorized_request_renews_witness :
    ∃ s1 s2,
      (((ApiState.initial (some (lit "old"))).dispatch 0 getProperties []).dispatch 1 getUsers []).run
        ([1, 0].map (fun p => .respond p unauthorized)) = some s1 ∧
      s1.sent = [requestInterceptor (some (lit "old")) getProperties,
          requestInterceptor (some (lit "old")) getUsers] ++
        List.replicate 2 (refreshCall (some (lit "old"))) ∧
      s1.run (List.zipWith (fun q t => .respond q { status := some 200, token := some t })
        [0, 0] [lit "t2", lit "t1"]) = some s2 ∧
      (s2.sent.drop 4).map (fun c => (c.url, lookupHeader (lit "Authorization") c.headers)) =
        [(lit "/users", some (lit "Bearer t2")), (lit "/properties", some (lit "Bearer t1"))] ∧
      s2.store = some (lit "t1") :=
  have h := each_unauthorized_request_renews
    (((ApiState.initial (some (lit "old"))).dispatch 0 getProperties []).dispatch 1 getUsers [])
    [1, 0] [0, 0] [lit "t2", lit "t1"]
    [⟨1, requestInterceptor (some (lit "old")) getUsers, []⟩,
      ⟨0, requestInterceptor (some (lit "old")) getProperties, []⟩]
    [⟨1, requestInterceptor (some (lit "old")) getUsers, []⟩,
      ⟨0, requestInterceptor (some (lit "old")) getProperties, []⟩]
    (by decide) (by decide) (by decide) (by decide) (by decide) (by decide)
  match h with
  | ⟨s1, s2, h1, h2, _, _, _, _, h3, h4, _, h5, _, _⟩ =>
    ⟨s1, s2, h1, h2, h3, by rw [h4, h2]; decide, h5⟩

/-- C12: for every request in flight without the mark that receives a 401, the
handler marks it and puts one renewal call on the wire; and in every later
state in which that renewal call is still in flight, its success with token t
stores t and puts the request on the wire once more, exactly once, marked
retried, with the header Authorization set to Bearer t and its method, url,
body and other headers unchanged. -/
theorem unauthorized_request_renewed_and_replayed (s : ApiState) (position : Nat)
    (call : ApiCall) (response : Response)
    (hcall : s.inflight[position]? = some call) (hnew : call.config._retry = false)
    (h401 : response.status = some 401) :
    ∃ s1,
      s.step (.respond position response) = some s1 ∧
      s1.store = s.store ∧ s1.sent = s.sent ++ [refreshCall s.store] ∧
      s1.inflight = s.inflight.eraseIdx position ++
        [⟨call.caller, refreshCall s.store, { call.config with _retry := true } :: call.awaiting⟩] ∧
      ∀ (later : ApiState) (at_ : Nat) (renewal : Response) (t : JsString),
        later.inflight[at_]? = some
          ⟨call.caller, refreshCall s.store, { call.config with _retry := true } :: call.awaiting⟩ →
        renewal.isSuccess = true → renewal.token = some t →
        ∃ s2 replay,
          later.step (.respond at_ renewal) = some s2 ∧
          s2.store = some t ∧
          s2.sent = later.sent ++ [replay] ∧
          s2.inflight = later.inflight.eraseIdx at_ ++ [⟨call.caller, replay, call.awaiting⟩] ∧
          replay._retry = true ∧
          lookupHeader (lit "Authorization") replay.headers = some (lit "Bearer " ++ t) ∧
          replay.method = call.config.method ∧ replay.url = call.config.url ∧
          replay.data = call.config.data ∧
          ∀ name, name ≠ lit "Authorization" →
            lookupHeader name replay.headers = lookupHeader name call.config.headers := by
  refine ⟨_, ApiState.step_unauthorized s position call response hcall hnew h401, rfl, rfl, rfl, ?_⟩
  intro later at_ renewal t hlater hok ht
  have hstep := ApiState.step_renewed later at_ call.caller (refreshCall s.store)
    { call.config with _retry := true } call.awaiting renewal hlater hok
  rw [ht] at hstep
  simp only [toStringOrUndefined] at hstep
  obtain ⟨hm, hu, hd, hr⟩ := replayedRequest_fields { call.config with _retry := true } t
  exact ⟨_, _, hstep, rfl, rfl, rfl, hr, replayedRequest_authorization _ t, hm, hu, hd,
    fun name hne => replayedRequest_other_header _ t name hne⟩

theorem unauthorized_request_renewed_and_replayed_witness :
    ∃ s1,
      ((ApiState.initial (some (lit "old"))).dispatch 0 getProperties []).step
        (.respond 0 unauthorized) = some s1 ∧
      s1.sent = [requestInterceptor (some (lit "old")) getProperties] ++
        [refreshCall (some (lit "old"))] :=
  have h := unauthorized_request_renewed_and_replayed
    ((ApiState.initial (some (lit "old"))).dispatch 0 getProperties []) 0
    ⟨0, requestInterceptor (some (lit "old")) getProperties, []⟩ unauthorized rfl rfl rfl
  match h with
  | ⟨s1, h1, _, h2, _⟩ => ⟨s1, h1, h2⟩

/-- C13: a request in flight that carries the mark and fails again with 401 is
not retried: the handler puts nothing on the wire, leaves the token store as it
is, and the call of the application is rejected with the error of this
request. -/
theorem retried_request_not_retried_again (s : ApiState) (position : Nat) (call : ApiCall)
    (response : Response) (hcall : s.inflight[position]? = some call)
    (hretried : call.config._retry = true) (h401 : response.status = some 401) :
    ∃ s1,
      s.step (.respond position response) = some s1 ∧
      s1.sent = s.sent ∧ s1.store = s.store ∧
      s1.inflight = s.inflight.eraseIdx position ∧
      s1.settled = s.settled ++ [(call.caller, .rejected call.config response)] := by
  have hs : response.isSuccess = false := by simp [Response.isSuccess, h401]
  exact ⟨_, ApiState.step_rejected s position call response hcall hs (by simp [hretried]),
    rfl, rfl, rfl, rfl⟩

theorem retried_request_not_retried_again_witness :
    ∃ s1,
      (ApiState.mk (some (lit "t1")) [] [⟨0, { getProperties with _retry := true }, []⟩] 0 [] false).step
        (.respond 0 unauthorized) = some s1 ∧
      s1.sent = [] ∧ s1.store = some (lit "t1") ∧
      s1.settled = [(0, .rejected { getProperties with _retry := true } unauthorized)] :=
  have h := retried_request_not_retried_again
    (ApiState.mk (some (lit "t1")) [] [⟨0, { getProperties with _retry := true }, []⟩] 0 [] false)
    0 ⟨0, { getProperties with _retry := true }, []⟩ unauthorized rfl rfl rfl
  match h with
  | ⟨s1, h1, h2, h3, _, h4⟩ => ⟨s1, h1, h2, h3, h4⟩

/-- C14, at the failing input: when the request receives a 401 and the server
answers every POST /refresh with 401, each of these answers makes the response
interceptor put another POST /refresh call on the wire, so that after n + 1
answers n + 1 renewal calls have been issued for the one trigger, one is still
in flight, and the call of the application has not been rejected. -/
theorem refresh_unauthorized_renews_again (store : TokenStore) (n : Nat) :
    ∃ s,
      (ApiState.initial store).run
        (.request 0 getProperties :: List.replicate (n + 1) (.respond 0 unauthorized)) = some s ∧
      s.sent = requestInterceptor store getProperties ::
        List.replicate (n + 1) (refreshCall store) ∧
      (refreshCall store).url = lit "/refresh" ∧
      s.inflight.length = 1 ∧ s.settled = [] := by
  obtain ⟨s1, c1, h1, h2, _, h4, h5, _⟩ := ApiState.run_unauthorized_loop (n + 1)
    ((ApiState.initial store).dispatch 0 getProperties [])
    ⟨0, requestInterceptor store getProperties, []⟩ rfl
    (requestInterceptor_fields store getProperties).2.2.2
  refine ⟨s1, ?_, ?_, (refreshCall_fields store).1, by rw [h2]; rfl, by rw [h5]; rfl⟩
  · simp only [ApiState.run, ApiState.step]
    exact h1
  · rw [h4]; rfl

/-- C15, as stated, fails: when the renewal call is answered with 500 the call
of the application is rejected while the token store still holds the old token
(one logout timer is pending), and when the renewal call is answered with 401
the call of the application is not rejected at all, a second renewal call being
in flight. -/
theorem failed_renewal_keeps_token :
    (((ApiState.initial (some (lit "old"))).run
        [.request 0 getProperties, .respond 0 unauthorized, .respond 0 serverError]).map
      (fun s => (s.settled.map (fun r => r.1), getToken s.store, s.timers)) =
        some ([0], some (lit "old"), 1)) ∧
    (((ApiState.initial (some (lit "old"))).run
        [.request 0 getProperties, .respond 0 unauthorized, .respond 0 unauthorized]).map
      (fun s => (s.settled, s.inflight.map (fun c => c.config.url))) =
        some ([], [lit "/refresh"])) := by
  constructor <;> decide

/-- C15, amended: when a renewal call is answered with an error other than 401,
or is not answered at all, every handler that waits for it rejects with the
error of the renewal call, so the call of the application is rejected; nothing
is put on the wire, the token store still holds what it held, and one logout
timer per handler is pending; when such a timer fires the token store is
empty. -/
theorem failed_renewal_rejects_then_timer_clears (s : ApiState) (position caller : Nat)
    (config originalRequest : RequestConfig) (outer : List RequestConfig) (response : Response)
    (hcall : s.inflight[position]? = some ⟨caller, config, originalRequest :: outer⟩)
    (hfail : response.isSuccess = false) (hnot401 : response.status ≠ some 401) :
    ∃ s1 s2,
      s.step (.respond position response) = some s1 ∧
      s1.settled = s.settled ++ [(caller, .rejected config response)] ∧
      s1.sent = s.sent ∧ s1.store = s.store ∧
      s1.timers = s.timers + (outer.length + 1) ∧
      s1.step .timer = some s2 ∧ getToken s2.store = none ∧ s2.redirected = true := by
  have hstep := ApiState.step_rejected s position ⟨caller, config, originalRequest :: outer⟩
    response hcall hfail (fun h => hnot401 h.1)
  have htimer : ∀ s1 : ApiState, s1.timers = s.timers + (outer.length + 1) →
      s1.step .timer = some { s1 with timers := s1.timers - 1, store := none, redirected := true } := by
    intro s1 h1
    simp only [ApiState.step]
    rw [if_neg (by omega)]
  exact ⟨_, _, hstep, rfl, rfl, rfl, rfl, htimer _ rfl, rfl, rfl⟩

theorem failed_renewal_rejects_then_timer_clears_witness :
    ∃ s1 s2,
      (ApiState.mk (some (lit "old")) [] [⟨0, refreshCall (some (lit "old")),
          [{ getProperties with _retry := true }]⟩] 0 [] false).step
        (.respond 0 serverError) = some s1 ∧
      s1.settled = [(0, .rejected (refreshCall (some (lit "old"))) serverError)] ∧
      s1.store = some (lit "old") ∧
      s1.step .timer = some s2 ∧ getToken s2.store = none :=
  have h := failed_renewal_rejects_then_timer_clears
    (ApiState.mk (some (lit "old")) [] [⟨0, refreshCall (some (lit "old")),
      [{ getProperties with _retry := true }]⟩] 0 [] false)
    0 0 (refreshCall (some (lit "old"))) { getProperties with _retry := true } [] serverError
    rfl rfl (by decide)
  match h with
  | ⟨s1, s2, h1, h2, _, h3, _, h4, h5, _⟩ => ⟨s1, s2, h1, h2, h3, h4, h5⟩

/-- C16: for every request configuration the request interceptor sets the
header Authorization to "Bearer " followed by the stored token when a token (a
non-empty string) is stored and leaves every other header as it was; it
returns the configuration unchanged when nothing, or the empty string, is
stored; and in every case method, url, body and the mark are unchanged. -/
theorem request_interceptor_attaches_token (store : TokenStore) (config : RequestConfig) :
    (∀ token, store = some token → token ≠ [] →
      lookupHeader (lit "Authorization") (requestInterceptor store config).headers =
        some (lit "Bearer " ++ token) ∧
      ∀ name, name ≠ lit "Authorization" →
        lookupHeader name (requestInterceptor store config).headers =
          lookupHeader name config.headers) ∧
    (store = none ∨ store = some [] → requestInterceptor store config = config) ∧
    (requestInterceptor store config).method = config.method ∧
    (requestInterceptor store config).url = config.url ∧
    (requestInterceptor store config).data = config.data ∧
    (requestInterceptor store config)._retry = config._retry := by
  refine ⟨?_, ?_, requestInterceptor_fields store config⟩
  · intro token hs hne
    subst hs
    rw [requestInterceptor_token token config hne]
    exact ⟨lookupHeader_setHeader_same _ _ _,
      fun name hname => lookupHeader_setHeader_other _ _ _ _ hname⟩
  · rintro (h | h) <;> subst h <;> rfl

theorem request_interceptor_attaches_token_witness :
    lookupHeader (lit "Authorization")
        (requestInterceptor (some (lit "old")) getProperties).headers = some (lit "Bearer old") ∧
    lookupHeader (lit "Accept") (requestInterceptor (some (lit "old")) getProperties).headers =
      lookupHeader (lit "Accept") getProperties.headers ∧
    requestInterceptor none getProperties = getProperties :=
  have h := request_interceptor_attaches_token (some (lit "old")) getProperties
  have h0 := request_interceptor_attaches_token none getProperties
  ⟨(h.1 (lit "old") rfl (by decide)).1,
    (h.1 (lit "old") rfl (by decide)).2 (lit "Accept") (by decide),
    h0.2.1 (Or.inl rfl)⟩

/-! ## The route guard and the session checks of the screens -/

/-- C17, as stated, fails: for the token of scenario 1, whose exp is ten seconds
in the past, PrivateRoute renders its children once loading is over. -/
theorem route_guard_admits_expired_token :
    (isAuthenticated (some sellerToken) 1700000010).result = .ok false ∧
    PrivateRoute.settledView (some sellerToken) = .ok .children := by
  constructor
  · rw [isAuthenticated_of_exp sellerToken _ sellerClaims _ sellerToken_decodes sellerClaims_exp]
    decide
  · rfl

/-- C17, amended: for every token store that is empty or holds a token that
cannot be decoded, PrivateRoute redirects to the entry point once loading is
over instead of rendering its children; the exp of a decodable token is not
looked at. -/
theorem route_guard_redirects_without_user (store : TokenStore)
    (h : store = none ∨ ∃ token e, store = some token ∧ decodePayload token = .error e) :
    PrivateRoute.settledView store = .ok .redirect := by
  rcases h with h | ⟨token, e, h, hd⟩
  · subst h; rfl
  · subst h
    have hu := getUserInfo_of_decode_error token e hd
    cases token with
    | nil => rfl
    | cons c cs =>
      simp only [PrivateRoute.settledView, AuthProvider.initial, AuthProvider.tokenEffect, hu,
        getToken, bind, Except.bind, pure, Except.pure, List.isEmpty_cons, Bool.false_eq_true,
        if_false]
      rfl

theorem route_guard_redirects_without_user_witness :
    PrivateRoute.settledView none = .ok .redirect ∧
    PrivateRoute.settledView (some notJsonToken) = .ok .redirect :=
  ⟨route_guard_redirects_without_user none (Or.inl rfl),
    route_guard_redirects_without_user (some notJsonToken)
      (Or.inr ⟨notJsonToken, .syntaxError, rfl, by rfl⟩)⟩

/-- C18, at the failing input: for a token whose exp equals the current time,
isAuthenticated reports the session as not active, while the session check of
the Dashboard keeps the token, does not redirect and adopts its role, and the
Properties screen keeps the token and shows the seller's own records. -/
theorem screens_accept_token_expiring_now :
    getProp sellerClaims (lit "exp") = .ok (.num 1700000000) ∧
    (isAuthenticated (some sellerToken) 1700000000).result = .ok false ∧
    (Dashboard.tokenEffect Dashboard.initial (some sellerToken) 1700000000).redirected = false ∧
    (Dashboard.tokenEffect Dashboard.initial (some sellerToken) 1700000000).store
      = some sellerToken ∧
    (Dashboard.tokenEffect Dashboard.initial (some sellerToken) 1700000000).state.role
      = .str (lit "seller") ∧
    (Properties.fetchPropertiesData Properties.initial (some sellerToken) 1700000000
      (.ok (some [record1, record2]))).2 = some sellerToken ∧
    (Properties.fetchPropertiesData Properties.initial (some sellerToken) 1700000000
      (.ok (some [record1, record2]))).1.properties = [record1] := by
  refine ⟨sellerClaims_exp, ?_, by rfl, by rfl, by rfl, by rfl, by rfl⟩
  rw [isAuthenticated_of_exp sellerToken _ sellerClaims _ sellerToken_decodes sellerClaims_exp]
  decide

/-- C19, as stated, fails: for a token whose claims are valid JSON with a role
but neither a subject identity nor an exp, getUserInfo returns the claims
object, not null. -/
theorem getUserInfo_returns_incomplete_claims :
    (getUserInfo (some roleOnlyToken)).result = .ok (.obj [(lit "role", .str (lit "seller"))]) ∧
    getProp (.obj [(lit "role", .str (lit "seller"))]) (lit "user_id") = .ok .undefined ∧
    getProp (.obj [(lit "role", .str (lit "seller"))]) (lit "id") = .ok .undefined ∧
    getProp (.obj [(lit "role", .str (lit "seller"))]) (lit "exp") = .ok .undefined ∧
    (getUserInfo (some roleOnlyToken)).result ≠ .ok .null := by
  have h : (getUserInfo (some roleOnlyToken)).result =
      .ok (.obj [(lit "role", .str (lit "seller"))]) := by rfl
  refine ⟨h, by rfl, by rfl, by rfl, ?_⟩
  rw [h]
  intro hn
  cases hn

/-- C19, amended: getUserInfo checks no field: for every stored token whose
second segment decodes with atob to a text that parses as JSON, getUserInfo
returns the parsed value as it is, whether or not it carries a subject
identity, a role or an exp, and leaves the token store unchanged. -/
theorem getUserInfo_returns_parsed_payload (token segment bytes : JsString) (payload : JsVal)
    (hseg : (splitOn 46 token)[1]? = some segment) (hb : atob segment = .ok bytes)
    (hp : jsonParse bytes = .ok payload) :
    (getUserInfo (some token)).result = .ok payload ∧
    (getUserInfo (some token)).store = some token := by
  have hd := (decodePayload_ok_iff token payload).2 ⟨segment, bytes, hseg, hb, hp⟩
  refine ⟨getUserInfo_of_decode_ok token payload hd, ?_⟩
  unfold getUserInfo
  split
  · rfl
  · split <;> rfl

theorem getUserInfo_returns_parsed_payload_witness :
    (getUserInfo (some roleOnlyToken)).result = .ok (.obj [(lit "role", .str (lit "seller"))]) ∧
    (getUserInfo (some roleOnlyToken)).store = some roleOnlyToken :=
  getUserInfo_returns_parsed_payload roleOnlyToken (lit "eyJyb2xlIjoic2VsbGVyIn0")
    (lit "\x7b\"role\":\"seller\"\x7d") (.obj [(lit "role", .str (lit "seller"))])
    (by decide) (by decide) (by rfl)

/-! ## Decoding of encoded claims -/

/-- C20, as stated, fails: the claims segment of a token of three segments is
written in the URL-safe alphabet, and for claims whose encoding has the
six-bit value 63, written "_", atob throws and getUserInfo returns null, not
the claims; and for claims whose exp is the integer after 2 ^ 53, encoded in
the alphabet of atob, the exp of the returned object is 2 ^ 53. -/
theorem getUserInfo_rejects_urlSafe_segment :
    questionClaims.token true false (lit "eyJhbGciOiJIUzI1NiIsInR5cCI6IkpXVCJ9") (lit "sig") = urlSafeToken ∧
    (getUserInfo (some urlSafeToken)).result = .ok .null ∧
    getProp questionClaims.toValue (lit "role") = .ok (.str (lit "seller")) ∧
    (getUserInfo (some (largeClaims.token false false (lit "eyJhbGciOiJIUzI1NiIsInR5cCI6IkpXVCJ9") (lit "sig")))).result =
      .ok (.obj [(lit "user_id", .num 5), (lit "role", .str (lit "seller")),
        (lit "exp", .num 9007199254740992)]) ∧
    getProp largeClaims.toValue (lit "exp") = .ok (.num 9007199254740993) := by
  refine ⟨by decide, by rfl, by rfl, by rfl, by rfl⟩

/-- C20, amended: for every claims object with a subject identity (an integer
or a string), a role and an exp, whose integers are of magnitude below 2 ^ 53,
every header segment (a string without a dot) and every signature segment,
getUserInfo applied to the stored token header.E(c).signature returns the
object of c when E(c) is the base64 encoding, padded or not, of the JSON text
of c in the alphabet of atob, or its URL-safe encoding without a six-bit value
62 or 63; when the URL-safe encoding has such a value, written "-" or "_",
getUserInfo returns null. The user_id, role and exp of the object of c are
those of c. -/
theorem getUserInfo_decodes_encoded_claims (c : Claims) (urlSafe pad : Bool)
    (header signature : JsString) (hheader : 46 ∉ header)
    (hid : ∀ s, c.user_id = .text s → ∀ u ∈ s, u < 65536)
    (hrole : ∀ u ∈ c.role, u < 65536)
    (hnum : ∀ n, c.user_id = .number n → n.natAbs < 2 ^ 53)
    (hexp : c.exp.natAbs < 2 ^ 53) :
    (urlSafe = false ∨ (∀ v ∈ encodeBytes c.text, v < 62) →
      (getUserInfo (some (c.token urlSafe pad header signature))).result = .ok c.toValue) ∧
    (urlSafe = true ∧ (∃ v ∈ encodeBytes c.text, 62 ≤ v) →
      (getUserInfo (some (c.token urlSafe pad header signature))).result = .ok .null) ∧
    getProp c.toValue (lit "role") = .ok (.str c.role) ∧
    getProp c.toValue (lit "exp") = .ok (.num (c.exp : ℚ)) ∧
    getProp c.toValue (lit "user_id") = .ok
      (match c.user_id with
        | .number n => .num (n : ℚ)
        | .text s => .str s) := by
  refine ⟨fun h => ?_, fun h => ?_, by rfl, by rfl, by rfl⟩
  · refine getUserInfo_of_decode_ok _ _
      (decodePayload_claims_token c urlSafe pad header signature hheader hid hrole hnum hexp ?_)
    intro hu
    rcases h with h | h
    · rw [hu] at h; cases h
    · exact h
  · obtain ⟨hu, hbad⟩ := h
    subst hu
    exact getUserInfo_of_decode_error _ _
      (decodePayload_urlSafe_token c pad header signature hheader hbad)

theorem getUserInfo_decodes_encoded_claims_witness :
    (getUserInfo (some (numberedClaims.token false false (lit "eyJhbGciOiJIUzI1NiIsInR5cCI6IkpXVCJ9") (lit "sig")))).result
      = .ok numberedClaims.toValue ∧
    (getUserInfo (some (namedClaims.token false true (lit "eyJhbGciOiJIUzI1NiIsInR5cCI6IkpXVCJ9") (lit "sig")))).result
      = .ok namedClaims.toValue ∧
    (getUserInfo (some (numberedClaims.token true false (lit "eyJhbGciOiJIUzI1NiIsInR5cCI6IkpXVCJ9") (lit "sig")))).result
      = .ok numberedClaims.toValue ∧
    (getUserInfo (some (questionClaims.token true false (lit "eyJhbGciOiJIUzI1NiIsInR5cCI6IkpXVCJ9") (lit "sig")))).result = .ok .null :=
  ⟨(getUserInfo_decodes_encoded_claims numberedClaims false false (lit "eyJhbGciOiJIUzI1NiIsInR5cCI6IkpXVCJ9") (lit "sig") (by decide)
      (fun s h => by cases h) (by decide) (fun n h => by cases h; decide) (by decide)).1
      (Or.inl rfl),
    (getUserInfo_decodes_encoded_claims namedClaims false true (lit "eyJhbGciOiJIUzI1NiIsInR5cCI6IkpXVCJ9") (lit "sig") (by decide)
      (fun s h => by cases h; decide) (by decide) (fun n h => by cases h) (by decide)).1
      (Or.inl rfl),
    (getUserInfo_decodes_encoded_claims numberedClaims true false (lit "eyJhbGciOiJIUzI1NiIsInR5cCI6IkpXVCJ9") (lit "sig") (by decide)
      (fun s h => by cases h) (by decide) (fun n h => by cases h; decide) (by decide)).1
      (Or.inr (by decide)),
    (getUserInfo_decodes_encoded_claims questionClaims true false (lit "eyJhbGciOiJIUzI1NiIsInR5cCI6IkpXVCJ9") (lit "sig") (by decide)
      (fun s h => by cases h; decide) (by decide) (fun n h => by cases h) (by decide)).2.1
      ⟨rfl, by decide⟩⟩

/-! ## The identity of the caller and the session calls of api.js -/

/-- C21, as stated, fails: for an unexpired token whose claims carry the
identity 5 under id and have no user_id, the Properties screen shows none of
the records of seller 5, and the Dashboard adopts the identity undefined, does
not load the records, and would filter them down to nothing. -/
theorem identity_under_id_not_used :
    decodePayload idOnlyToken = .ok idOnlyClaims ∧
    getProp idOnlyClaims (lit "id") = .ok (.num 5) ∧
    record1.seller_id = .num 5 ∧
    (Properties.fetchPropertiesData Properties.initial (some idOnlyToken) 1699999999
      (.ok (some [record1, record2]))).1.properties = [] ∧
    (Dashboard.tokenEffect Dashboard.initial (some idOnlyToken) 1699999999).state.role
      = .str (lit "seller") ∧
    (Dashboard.tokenEffect Dashboard.initial (some idOnlyToken) 1699999999).state.userId
      = .undefined ∧
    Dashboard.loadsData
      (Dashboard.tokenEffect Dashboard.initial (some idOnlyToken) 1699999999).state = false ∧
    (Dashboard.fetchPropertiesData
      (Dashboard.tokenEffect Dashboard.initial (some idOnlyToken) 1699999999).state
      (.ok (some [record1, record2]))).properties = [] := by
  refine ⟨by rfl, by rfl, rfl, by rfl, by rfl, by rfl, by rfl, by rfl⟩

/-- C21, amended: the identity of the caller is read from the claims field
user_id only. For every unexpired token of a seller whose claims have no
user_id, wherever else they carry the identity, the Properties screen shows
exactly the fetched records whose seller_id is undefined, and the Dashboard
adopts the identity undefined, does not load the records, and its fetch keeps
exactly the records whose seller_id is undefined. -/
theorem identity_read_from_user_id_only (token : JsString) (payload exp : JsVal)
    (currentTime : ℤ) (st : PropertiesState) (data : Option (List PropertyRecord))
    (hd : decodePayload token = .ok payload) (he : getProp payload (lit "exp") = .ok exp)
    (hlt : jsLt exp currentTime = false)
    (hr : getProp payload (lit "role") = .ok (.str (lit "seller")))
    (hu : getProp payload (lit "user_id") = .ok .undefined) :
    (Properties.fetchPropertiesData st (some token) currentTime (.ok data)).1.properties =
      (propertiesOrEmpty data).filter (fun p => strictEq p.seller_id .undefined) ∧
    (Dashboard.tokenEffect Dashboard.initial (some token) currentTime).state.role
      = .str (lit "seller") ∧
    (Dashboard.tokenEffect Dashboard.initial (some token) currentTime).state.userId
      = .undefined ∧
    Dashboard.loadsData
      (Dashboard.tokenEffect Dashboard.initial (some token) currentTime).state = false ∧
    (Dashboard.fetchPropertiesData
      (Dashboard.tokenEffect Dashboard.initial (some token) currentTime).state
      (.ok data)).properties =
      (propertiesOrEmpty data).filter (fun p => strictEq p.seller_id .undefined) := by
  obtain ⟨-, -, h3, h4⟩ := Dashboard.tokenEffect_of_claims Dashboard.initial token payload exp
    (.str (lit "seller")) .undefined currentTime hd he hlt hr hu
  have hrole : (Dashboard.tokenEffect Dashboard.initial (some token) currentTime).state.role
      = .str (lit "seller") := by rw [h3]; rfl
  have hid : (Dashboard.tokenEffect Dashboard.initial (some token) currentTime).state.userId
      = .undefined := by rw [h4]; rfl
  refine ⟨?_, hrole, hid, ?_, ?_⟩
  · rw [Properties.fetch_of_claims st token payload exp _ _ currentTime data hd he hlt hr hu]
    rfl
  · simp only [Dashboard.loadsData, hid, truthy, Bool.and_false]
  · rw [Dashboard.fetch_seller _ data hrole, hid]

theorem identity_read_from_user_id_only_witness :
    (Properties.fetchPropertiesData Properties.initial (some idOnlyToken) 1699999999
      (.ok (some [record1, record2]))).1.properties =
      (propertiesOrEmpty (some [record1, record2])).filter
        (fun p => strictEq p.seller_id .undefined) ∧
    (Dashboard.tokenEffect Dashboard.initial (some idOnlyToken) 1699999999).state.userId
      = .undefined :=
  have h := identity_read_from_user_id_only idOnlyToken idOnlyClaims (.num 1700000000)
    1699999999 Properties.initial (some [record1, record2]) idOnlyToken_decodes (by rfl)
    (by decide) (by rfl) (by rfl)
  ⟨h.1, h.2.2.1⟩

/-- C22, as stated, fails: setAuthToken of the empty string removes the stored
token, so getToken returns absent and not the string written. -/
theorem setAuthToken_empty_clears :
    getToken (setAuthToken (some sellerToken) (some [])) = none ∧
    getToken (setAuthToken (some sellerToken) (some [])) ≠ some [] := by
  constructor <;> decide

/-- C22, amended: for every non-empty token string t and every prior content of
the token store, getToken returns t after setAuthToken(t), whatever t is; after
setAuthToken of the empty string or of null the store is empty and getToken
returns absent. -/
theorem setAuthToken_then_getToken (store : TokenStore) (t : JsString) :
    (t ≠ [] → getToken (setAuthToken store (some t)) = some t) ∧
    (t = [] → getToken (setAuthToken store (some t)) = none) ∧
    getToken (setAuthToken store none) = none := by
  refine ⟨fun h => ?_, fun h => ?_, rfl⟩
  · cases t with
    | nil => exact absurd rfl h
    | cons c cs => rfl
  · subst h; rfl

theorem setAuthToken_then_getToken_witness :
    getToken (setAuthToken (some sellerToken) (some notJsonToken)) = some notJsonToken ∧
    getToken (setAuthToken (some sellerToken) (some [])) = none :=
  ⟨(setAuthToken_then_getToken (some sellerToken) notJsonToken).1 (by decide),
    (setAuthToken_then_getToken (some sellerToken) []).2.1 rfl⟩

/-- C23: when logout ends, the token store is empty whether the call
POST /logout resolved or was rejected, whatever the store held by then; after a
resolved call logout resolves, and after a rejected call it rejects with the
error of that call. -/
theorem logout_clears_token (store : TokenStore) (posted : ApiResult) :
    getToken (logout store posted).store = none ∧
    (∀ response, posted = .resolved response → (logout store posted).result = .ok ()) ∧
    (∀ config response, posted = .rejected config response →
      (logout store posted).result = .error (.request config response)) := by
  refine ⟨?_, fun response h => ?_, fun config response h => ?_⟩
  · cases posted <;> rfl
  · subst h; rfl
  · subst h; rfl

theorem logout_clears_token_witness :
    getToken (logout (some sellerToken) (.rejected logoutRequest serverError)).store = none ∧
    (logout (some sellerToken) (.rejected logoutRequest serverError)).result
      = .error (.request logoutRequest serverError) :=
  have h := logout_clears_token (some sellerToken) (.rejected logoutRequest serverError)
  ⟨h.1, h.2.2 logoutRequest serverError rfl⟩

/-- C24, as stated, fails: a client that holds a token logs in and the call is
answered with 401; the response interceptor renews the token and replays the
call, which is answered with 401 again. login throws, and the token store holds
the renewed token, not the token it held before. -/
theorem failed_login_stores_renewed_token :
    (((ApiState.initial (some sellerToken)).run failedLoginEvents).map
      (fun s => s.settled.map (fun r =>
        (r.1, (login s.store r.2).result.toOption, getToken (login s.store r.2).store)))
        = some [(0, none, some (lit "t2"))]) ∧
    lit "t2" ≠ sellerToken := by
  constructor <;> decide

/-- C24, amended: login writes the token store only when the call resolves with
a response that carries a non-empty token t: it then stores t, whatever the
store held, and returns the response. When the call is rejected login throws
the error of the call, and when the response carries no token or an empty one
it throws its own error; in both cases login leaves the store as the request
pipeline left it. -/
theorem login_stores_token_of_response (store : TokenStore) (posted : ApiResult) :
    (∀ response t, posted = .resolved response → response.token = some t → t ≠ [] →
      (login store posted).result = .ok response ∧ getToken (login store posted).store = some t) ∧
    (∀ response, posted = .resolved response →
      response.token = none ∨ response.token = some [] →
      (login store posted).result = .error .noToken ∧ (login store posted).store = store) ∧
    (∀ config response, posted = .rejected config response →
      (login store posted).result = .error (.request config response) ∧
      (login store posted).store = store) := by
  refine ⟨fun response t h ht hne => ?_, fun response h ht => ?_, fun config response h => ?_⟩
  · subst h
    cases t with
    | nil => exact absurd rfl hne
    | cons c cs => simp [login, ht, getToken]
  · subst h
    rcases ht with ht | ht <;> simp [login, ht]
  · subst h
    exact ⟨rfl, rfl⟩

theorem login_stores_token_of_response_witness :
    ((login none (.resolved (renewed "t1"))).result = .ok (renewed "t1") ∧
      getToken (login none (.resolved (renewed "t1"))).store = some (lit "t1")) ∧
    ((login (some sellerToken) (.rejected (loginRequest loginBody) unauthorized)).result
        = .error (.request (loginRequest loginBody) unauthorized) ∧
      (login (some sellerToken) (.rejected (loginRequest loginBody) unauthorized)).store
        = some sellerToken) :=
  ⟨(login_stores_token_of_response none (.resolved (renewed "t1"))).1
      (renewed "t1") (lit "t1") rfl rfl (by decide),
    (login_stores_token_of_response (some sellerToken)
      (.rejected (loginRequest loginBody) unauthorized)).2.2
      (loginRequest loginBody) unauthorized rfl⟩

/-! ## The lists of the Dashboard and the session context -/

/-- C25, as stated, fails: for a buyer, whom canDeleteProperty denies the
selected record, handleDeleteConfirm issues the call DELETE /properties/2 and,
when the call succeeds, removes the record from the displayed list. -/
theorem handleDeleteConfirm_ignores_policy :
    buyerSelection.role = .str (lit "buyer") ∧
    buyerSelection.properties = [record2] ∧
    Dashboard.canDeleteProperty buyerSelection record2 = false ∧
    Dashboard.deleteRequest buyerSelection = some (deleteProperty 2) ∧
    (deleteProperty 2).method = lit "delete" ∧
    (deleteProperty 2).url = lit "/properties/2" ∧
    (Dashboard.handleDeleteConfirm buyerSelection true).properties = [] := by
  refine ⟨rfl, rfl, by rfl, by rfl, rfl, by decide, by rfl⟩

/-- C25, amended: the delete action is gated by the rendered controls only.
handleDeleteConfirm issues DELETE /properties/id for whatever record is
selected and, when the call succeeds, removes the records of that id from both
lists, without consulting canDeleteProperty; the policy is applied where the
record is selected: every record a delete button of the rendered Dashboard
selects is one canDeleteProperty permits. -/
theorem delete_gated_by_buttons_only (s : DashboardState) :
    (∀ selected, s.selectedProperty = some selected →
      Dashboard.deleteRequest s = some (deleteProperty selected.id) ∧
      (Dashboard.handleDeleteConfirm s true).properties =
        s.properties.filter (fun p => p.id ≠ selected.id) ∧
      (Dashboard.handleDeleteConfirm s true).unverifiedProperties =
        s.unverifiedProperties.filter (fun p => p.id ≠ selected.id)) ∧
    (∀ button s1, Dashboard.step s (.deleteClick button) = some s1 →
      ∃ property, s1.selectedProperty = some property ∧
        Dashboard.canDeleteProperty s1 property = true) := by
  refine ⟨fun selected h => ?_, fun button s1 h => ?_⟩
  · simp only [Dashboard.deleteRequest, Dashboard.handleDeleteConfirm, h, if_true, and_self]
  · simp only [Dashboard.step] at h
    split at h
    · rename_i property hb
      cases h
      exact ⟨property, rfl, Dashboard.deleteButtons_allowed s property (List.getElem?_mem hb)⟩
    · cases h

theorem delete_gated_by_buttons_only_witness :
    (Dashboard.deleteRequest buyerSelection = some (deleteProperty record2.id) ∧
      (Dashboard.handleDeleteConfirm buyerSelection true).properties =
        buyerSelection.properties.filter (fun p => p.id ≠ record2.id) ∧
      (Dashboard.handleDeleteConfirm buyerSelection true).unverifiedProperties =
        buyerSelection.unverifiedProperties.filter (fun p => p.id ≠ record2.id)) ∧
    (∃ property, (Dashboard.handleDeleteClick sellerSession record1).selectedProperty
        = some property ∧
      Dashboard.canDeleteProperty (Dashboard.handleDeleteClick sellerSession record1) property
        = true) :=
  ⟨(delete_gated_by_buttons_only buyerSelection).1 record2 rfl,
    (delete_gated_by_buttons_only sellerSession).2 0
      (Dashboard.handleDeleteClick sellerSession record1) (by rfl)⟩

/-- C26: for role admin and every list of fetched records, after the fetch the
pending list is exactly the fetched records whose verified flag is false, the
displayed list is the fetched list, and the counter Pending plus the counter
Verified equals the number of displayed records. -/
theorem admin_pending_is_unverified (s : DashboardState) (data : Option (List PropertyRecord))
    (h : s.role = .str (lit "admin")) :
    (Dashboard.fetchPropertiesData s (.ok data)).unverifiedProperties =
      (propertiesOrEmpty data).filter (fun p => !p.verified) ∧
    (Dashboard.fetchPropertiesData s (.ok data)).properties = propertiesOrEmpty data ∧
    Dashboard.pendingCount (Dashboard.fetchPropertiesData s (.ok data)) +
        Dashboard.verifiedCount (Dashboard.fetchPropertiesData s (.ok data)) =
      Dashboard.propertiesCount (Dashboard.fetchPropertiesData s (.ok data)) := by
  have h1 : strictEq s.role (.str (lit "admin")) = true := by rw [h]; decide
  have hcount : ∀ l : List PropertyRecord,
      (l.filter (fun p => !p.verified)).length + (l.filter (fun p => p.verified)).length
        = l.length := by
    intro l
    induction l with
    | nil => rfl
    | cons p ps ih =>
      cases hv : p.verified <;> simp [List.filter_cons, hv] <;> omega
  refine ⟨?_, ?_, ?_⟩
  · simp only [Dashboard.fetchPropertiesData, h1, if_true]
  · simp only [Dashboard.fetchPropertiesData, h1, if_true]
  · simp only [Dashboard.pendingCount, Dashboard.verifiedCount, Dashboard.propertiesCount,
      Dashboard.fetchPropertiesData, h1, if_true]
    exact hcount _

theorem admin_pending_is_unverified_witness :
    (Dashboard.fetchPropertiesData (dashboardOf "admin" 1)
      (.ok (some [record1, record2]))).unverifiedProperties =
      (propertiesOrEmpty (some [record1, record2])).filter (fun p => !p.verified) ∧
    Dashboard.pendingCount (Dashboard.fetchPropertiesData (dashboardOf "admin" 1)
      (.ok (some [record1, record2]))) = 1 :=
  ⟨(admin_pending_is_unverified (dashboardOf "admin" 1) (some [record1, record2]) rfl).1,
    by rfl⟩

/-- C27, at the failing input: an admin's Dashboard holds the records of
scenario 2, with the pending list equal to the unverified part of the listed
records, and a created record arrives whose verified flag is set.
handlePropertyCreated appends it to the pending list as well, which then holds
a verified record and is no longer the unverified part of the listed records. -/
theorem created_verified_record_listed_as_pending :
    Dashboard.fetchPropertiesData (dashboardOf "admin" 1) (.ok (some [record1, record2]))
      = adminSession ∧
    adminSession.unverifiedProperties = adminSession.properties.filter (fun p => !p.verified) ∧
    record3.verified = true ∧
    (Dashboard.handlePropertyCreated adminSession record3).unverifiedProperties
      = [record1, record3] ∧
    (Dashboard.handlePropertyCreated adminSession record3).properties.filter
      (fun p => !p.verified) = [record1] ∧
    ((Dashboard.handlePropertyCreated adminSession record3).unverifiedProperties).length ≠
      ((Dashboard.handlePropertyCreated adminSession record3).properties.filter
        (fun p => !p.verified)).length := by
  refine ⟨by rfl, by rfl, rfl, by rfl, by rfl, by decide⟩

/-- C28: the displayed list of the Dashboard obeys the visibility rule after
every fetch that succeeds, whatever the hooks were before, and every handler
keeps the rule: a fetch that fails, handlePropertyCreated for every created
record, and handleVerifyConfirm and handleDeleteConfirm for every selection and
every outcome of the server call. The rule says that for a seller every
displayed record has a seller_id strictly equal to the seller's identity, and
that for a buyer every displayed record is verified. -/
theorem dashboard_list_keeps_visibility_rule (s t : DashboardState)
    (data : Option (List PropertyRecord)) (newProperty : PropertyRecord) (serverOk : Bool)
    (ht : t = Dashboard.fetchPropertiesData s (.ok data) ∨
      (Dashboard.listObeysRule s = true ∧
        (t = Dashboard.fetchPropertiesData s .failed ∨
          t = Dashboard.handlePropertyCreated s newProperty ∨
          t = Dashboard.handleVerifyConfirm s serverOk ∨
          t = Dashboard.handleDeleteConfirm s serverOk))) :
    Dashboard.listObeysRule t = true ∧
    (t.role = .str (lit "seller") →
      ∀ p ∈ t.properties, strictEq p.seller_id t.userId = true) ∧
    (t.role = .str (lit "buyer") → ∀ p ∈ t.properties, p.verified = true) := by
  suffices h : Dashboard.listObeysRule t = true from
    ⟨h, (Dashboard.listObeysRule_iff t).1 h⟩
  rw [Dashboard.listObeysRule_iff]
  obtain ⟨hf, hc, hv, hd⟩ := Dashboard.handlers_keep_identity s (.ok data) newProperty serverOk
  rcases ht with rfl | ⟨hinv, rfl | rfl | rfl | rfl⟩
  · refine ⟨fun hs p hp => ?_, fun hb p hp => ?_⟩
    · rw [hf.1] at hs
      rw [Dashboard.fetch_seller s data hs] at hp
      rw [hf.2]
      exact (List.mem_filter.1 hp).2
    · rw [hf.1] at hb
      rw [Dashboard.fetch_other s data (by rw [hb]; decide) (by rw [hb]; decide)] at hp
      exact (List.mem_filter.1 hp).2
  · exact (Dashboard.listObeysRule_iff s).1 hinv
  · obtain ⟨h1, h2⟩ := (Dashboard.listObeysRule_iff s).1 hinv
    refine ⟨fun hs p hp => ?_, fun hb p hp => ?_⟩
    · rw [hc.1] at hs
      rw [hc.2]
      rcases Dashboard.mem_handlePropertyCreated s newProperty p hp with h | ⟨rfl, h | h⟩
      · exact h1 hs p h
      · rw [hs] at h; exact absurd h (by decide)
      · exact h.2
    · rw [hc.1] at hb
      rcases Dashboard.mem_handlePropertyCreated s newProperty p hp with h | ⟨rfl, h | h⟩
      · exact h2 hb p h
      · rw [hb] at h; exact absurd h (by decide)
      · rw [hb] at h; exact absurd h.1 (by decide)
  · obtain ⟨h1, h2⟩ := (Dashboard.listObeysRule_iff s).1 hinv
    refine ⟨fun hs p hp => ?_, fun hb p hp => ?_⟩
    · rw [hv.1] at hs
      rw [hv.2]
      obtain ⟨q, hq, hsid, -⟩ := Dashboard.mem_handleVerifyConfirm s serverOk p hp
      rw [hsid]
      exact h1 hs q hq
    · rw [hv.1] at hb
      obtain ⟨q, hq, -, hver⟩ := Dashboard.mem_handleVerifyConfirm s serverOk p hp
      exact hver (h2 hb q hq)
  · obtain ⟨h1, h2⟩ := (Dashboard.listObeysRule_iff s).1 hinv
    refine ⟨fun hs p hp => ?_, fun hb p hp => ?_⟩
    · rw [hd.1] at hs
      rw [hd.2]
      exact h1 hs p (Dashboard.mem_handleDeleteConfirm s serverOk p hp)
    · rw [hd.1] at hb
      exact h2 hb p (Dashboard.mem_handleDeleteConfirm s serverOk p hp)

theorem dashboard_list_keeps_visibility_rule_witness :
    Dashboard.listObeysRule sellerSession = true ∧
    Dashboard.listObeysRule (Dashboard.handlePropertyCreated sellerSession record4) = true ∧
    (Dashboard.handlePropertyCreated sellerSession record4).properties = [record1, record4] ∧
    Dashboard.listObeysRule (Dashboard.handlePropertyCreated sellerSession record3) = true ∧
    (Dashboard.handlePropertyCreated sellerSession record3).properties = [record1] :=
  ⟨by rfl,
    (dashboard_list_keeps_visibility_rule sellerSession
      (Dashboard.handlePropertyCreated sellerSession record4) none record4 true
      (Or.inr ⟨by rfl, Or.inr (Or.inl rfl)⟩)).1,
    by rfl,
    (dashboard_list_keeps_visibility_rule sellerSession
      (Dashboard.handlePropertyCreated sellerSession record3) none record3 true
      (Or.inr ⟨by rfl, Or.inr (Or.inl rfl)⟩)).1,
    by rfl⟩

/-- C29, at the failing input: for an unexpired token of a seller whose user_id
is 0 the session check of the Dashboard does not redirect and adopts the role
and the identity 0, and the condition of the effect that loads the data is
false, so no fetch is issued; for the same claims with user_id 5 the condition
is true. -/
theorem dashboard_skips_fetch_for_identity_zero :
    decodePayload zeroIdToken = .ok zeroIdClaims ∧
    (Dashboard.tokenEffect Dashboard.initial (some zeroIdToken) 1699999999).redirected = false ∧
    (Dashboard.tokenEffect Dashboard.initial (some zeroIdToken) 1699999999).store
      = some zeroIdToken ∧
    (Dashboard.tokenEffect Dashboard.initial (some zeroIdToken) 1699999999).state.role
      = .str (lit "seller") ∧
    (Dashboard.tokenEffect Dashboard.initial (some zeroIdToken) 1699999999).state.userId
      = .num 0 ∧
    Dashboard.loadsData
      (Dashboard.tokenEffect Dashboard.initial (some zeroIdToken) 1699999999).state = false ∧
    Dashboard.loadsData
      (Dashboard.tokenEffect Dashboard.initial (some sellerToken) 1699999999).state = true := by
  refine ⟨by rfl, by rfl, by rfl, by rfl, by rfl, by rfl, by rfl⟩

/-- C30, at the failing input: AuthProvider has mounted on a stored token of a
seller. After handleLogout of the Sidebar the token store is empty, while the
token hook of AuthProvider still holds the token, isAuthenticated of the
context is true and PrivateRoute renders its children; logout of api.js empties
the store and has no access to the hooks either. After logout of AuthProvider
the hook and the store are both empty and isAuthenticated is false. -/
theorem sidebar_logout_leaves_context_authenticated :
    (AuthProvider.initial (some sellerToken) >>= fun a =>
      AuthProvider.tokenEffect a (some sellerToken)) = .ok sellerContext ∧
    getToken (Sidebar.handleLogout sellerContext (some sellerToken)).2 = none ∧
    (Sidebar.handleLogout sellerContext (some sellerToken)).1.token = some sellerToken ∧
    AuthProvider.isAuthenticated (Sidebar.handleLogout sellerContext (some sellerToken)).1
      = true ∧
    PrivateRoute.render (Sidebar.handleLogout sellerContext (some sellerToken)).1 false
      = .children ∧
    getToken (logout (some sellerToken) (.resolved { status := some 200, token := none })).store
      = none ∧
    (AuthProvider.logout sellerContext (some sellerToken)).1.token = none ∧
    getToken (AuthProvider.logout sellerContext (some sellerToken)).2 = none ∧
    AuthProvider.isAuthenticated (AuthProvider.logout sellerContext (some sellerToken)).1
      = false := by
  refine ⟨by rfl, rfl, rfl, by rfl, by rfl, rfl, rfl, rfl, by rfl⟩

end Frontend
